import Mathlib

set_option linter.unusedVariables false

/-!
Shallow embedding of the ICE candidate-gathering engine of the iris repository:
the class `IceComponent::Private` (icecomponent implementation, together with the
interfaces of `IceLocalTransport` and `Ice176` it uses).

The engine is single-threaded and event-driven.  We embed it as a state machine:
`EngineState` holds every field of `IceComponent::Private` that the modelled code
reads or writes, `Ev` is the alphabet of entry points (public methods and Qt slots
fired by the child transports), and `step : EngineState → Ev → EngineState × List Out`
runs one entry point to completion, returning the emitted signals and outgoing
calls in order.

Modelling conventions:
* Qt's deferred invocations (`ObjectSession::defer`, `QTimer::singleShot(0,…)`)
  are kept as a FIFO queue in the state (`deferred`); the environment drains it
  with the `Ev.runDeferred` event, matching the event loop.
* `Q_ASSERT` is modelled with release semantics: a violated assertion is recorded
  as an `Out.assertViolation` output and execution continues as the compiled code
  would.  Dereferencing a failed `std::find_if` result is recorded as
  `Out.undefinedBehavior` and the handler stops.
* Child transports (`IceLocalTransport`, `IceTurnTransport`) are represented by
  their observable state stored alongside the engine's bookkeeping; their
  internal network activity is the environment's business and arrives as events
  (`ltStarted`, `ltAddressesChanged`, …) that first refresh the observable fields.
* Calls the engine makes on children (`stunStart`, `stop`, `addChannelPeer`,
  `returnSockets`) are recorded as outputs.
* `debugLine` emissions, the debug level, the client-software string, the proxy
  configuration and the `foundation` strings (computed by the external
  `IceAgent`, out of scope per the spec) are omitted: no claim mentions them
  and they influence no modelled state.
-/

namespace Iris

/-- Model of QHostAddress: null, an IPv4 address, or an IPv6 address with an
optional scope (zone) id. -/
inductive HostAddress where
  | null : HostAddress
  | ip4 (a : Nat) : HostAddress
  | ip6 (a : Nat) (zone : Option Nat) : HostAddress
deriving DecidableEq

/-- QHostAddress::isNull. -/
def HostAddress.isNull : HostAddress → Bool
  | .null => true
  | _ => false

/-- protocol() == QAbstractSocket::IPv6Protocol. -/
def HostAddress.isV6 : HostAddress → Bool
  | .ip6 _ _ => true
  | _ => false

/-- setScopeId(QString()): strip the IPv6 zone id. -/
def HostAddress.stripZone : HostAddress → HostAddress
  | .ip6 a _ => .ip6 a none
  | h => h

/-- XMPP::TransportAddress: an (ip, port) pair. -/
structure TransportAddress where
  addr : HostAddress
  port : Nat
deriving DecidableEq

/-- A default-constructed (invalid) TransportAddress. -/
def nullTA : TransportAddress := ⟨.null, 0⟩

/-- Modelled from the spec: `TransportAddress::isValid` is not under src/ (only
its uses are); per the spec a default-constructed address (null ip) is invalid. -/
def TransportAddress.isValid (t : TransportAddress) : Bool := !t.addr.isNull

/-- Modelled from the spec: `TransportAddress::operator==` is not under src/;
per the spec §3, equality is bitwise on ip and integer on port, with the IPv6
zone id stripped before comparison. -/
def taEq (x y : TransportAddress) : Bool :=
  decide (x.addr.stripZone = y.addr.stripZone) && decide (x.port = y.port)

/-- IceComponent::CandidateType. -/
inductive CandidateType where
  | host | peerReflexive | serverReflexive | relayed
deriving DecidableEq

/-- IceComponent::CandidateInfo (the logical candidate).  The `foundation`
string, produced by the external IceAgent, is omitted (see the header remark). -/
structure CandidateInfo where
  addr : TransportAddress
  base : TransportAddress
  related : TransportAddress := nullTA
  type : CandidateType
  priority : Int
  componentId : Int
  network : Int
deriving DecidableEq

/-- The transport backing a candidate: a `QSharedPointer<IceLocalTransport>`
(identified by the engine-assigned handle of the owning LocalTransport entry)
or the single `QSharedPointer<IceTurnTransport>` (`tcpTurn`). -/
inductive TransportRef where
  | localT (h : Nat)
  | tcpTurnT
deriving DecidableEq

/-- IceComponent::Candidate. -/
structure Candidate where
  id : Nat
  info : CandidateInfo
  iceTransport : TransportRef
  path : Nat
deriving DecidableEq

/-- Ice176::LocalAddress. -/
structure LocalAddressCfg where
  addr : HostAddress
  network : Int := -1
  isVpn : Bool := false
deriving DecidableEq

/-- Ice176::ExternalAddress. -/
structure ExternalAddressCfg where
  base : LocalAddressCfg
  addr : HostAddress
  portBase : Int := -1
deriving DecidableEq

/-- IceComponent::Private::Config. -/
structure Config where
  localAddrs : List LocalAddressCfg := []
  extAddrs : List ExternalAddressCfg := []
  stunBindAddr : TransportAddress := nullTA
  stunRelayUdpAddr : TransportAddress := nullTA
  stunRelayUdpUser : String := ""
  stunRelayUdpPass : String := ""
  stunRelayTcpAddr : TransportAddress := nullTA
  stunRelayTcpUser : String := ""
  stunRelayTcpPass : String := ""
deriving DecidableEq

/-- IceComponent::Private::LocalTransport, together with the observable state of
the owned `IceLocalTransport` (its `sock` member): the bound local address, the
configured STUN services and the currently known reflexive/relayed addresses. -/
structure LocalTransport where
  handle : Nat
  addr : HostAddress
  network : Int := -1
  isVpn : Bool := false
  started : Bool := false
  stun_started : Bool := false
  stun_finished : Bool := false
  turn_finished : Bool := false
  extAddr : HostAddress := .null
  ext_finished : Bool := false
  borrowed : Bool := false
  localAddress : TransportAddress
  stunBindService : TransportAddress := nullTA
  stunRelayService : TransportAddress := nullTA
  serverReflexive : TransportAddress := nullTA
  relayed : TransportAddress := nullTA
  stunAlive : Bool := true
  turnAlive : Bool := true
deriving DecidableEq

/-- Observable state of the `IceTurnTransport` (`tcpTurn`). -/
structure TcpTurnState where
  started : Bool := false
  relayedAddress : TransportAddress := nullTA
  reflexiveAddress : TransportAddress := nullTA
deriving DecidableEq

/-- The deferred invocations the engine queues (`sess.defer`,
`QTimer::singleShot(0, …)`), defunctionalized. -/
inductive Deferred where
  | emitLocalFinished
  | tryGatheringComplete
  | postStop
  | doExt
deriving DecidableEq

/-- Signals the engine emits and calls it makes on its children. -/
inductive Out where
  | candidateAdded (c : Candidate)
  | candidateRemoved (c : Candidate)
  | localFinished
  | gatheringComplete
  | stopped
  | stunStart (h : Nat)
  | ltStop (h : Nat)
  | ttStop
  | addChannelPeer (t : TransportRef) (a : TransportAddress)
  | returnSocket (h : Nat)
  | assertViolation
  | undefinedBehavior
deriving DecidableEq

/-- The state of `IceComponent::Private`.  `channelPeers` is the
`QHash<int, QSet<TransportAddress>>`, modelled as an association list;
`nextHandle` generates fresh transport identities (pointer identity in C++). -/
structure EngineState where
  id : Int
  pending : Config := {}
  config : Config := {}
  stopping : Bool := false
  udpTransports : List LocalTransport := []
  tcpTurn : Option TcpTurnState := none
  localCandidates : List Candidate := []
  channelPeers : List (Nat × List TransportAddress) := []
  useLocal : Bool := true
  useStunBind : Bool := true
  useStunRelayUdp : Bool := true
  useStunRelayTcp : Bool := true
  localFinished : Bool := false
  gatheringComplete : Bool := false
  nextHandle : Nat := 0
  deferred : List Deferred := []
deriving DecidableEq

/-- The state of a freshly constructed `IceComponent` with the given id. -/
def initState (cid : Int) : EngineState := { id := cid }

/-- calc_priority. -/
def calc_priority (typePref localPref componentId : Int) : Int :=
  2 ^ 24 * typePref + 2 ^ 8 * localPref + (256 - componentId)

/-- IceComponent::Private::choose_default_priority. -/
def choose_default_priority (type : CandidateType) (localPref : Int) (isVpn : Bool)
    (componentId : Int) : Int :=
  let typePref : Int :=
    match type with
    | .host => if isVpn then 0 else 126
    | .peerReflexive => 110
    | .serverReflexive => 100
    | .relayed => 0
  calc_priority typePref localPref componentId

/-- IceComponent::Private::getId: the smallest id not used by a live candidate.
The C++ loop is unbounded; the smallest free id is at most the list length, so
that much fuel suffices. -/
def getIdFrom (cands : List Candidate) : Nat → Nat → Nat
  | 0, n => n
  | fuel + 1, n =>
    if cands.any (fun c => decide (c.id = n)) then getIdFrom cands fuel (n + 1) else n

/-- IceComponent::Private::getId. -/
def getId (cands : List Candidate) : Nat :=
  getIdFrom cands (cands.length + 1) 0

/-- IceComponent::Private::findLocalAddr: index of an address in
config.localAddrs, or -1. -/
def findLocalAddrAux : List LocalAddressCfg → HostAddress → Int → Int
  | [], _, _ => -1
  | la :: rest, a, n => if la.addr = a then n else findLocalAddrAux rest a (n + 1)

/-- IceComponent::Private::findLocalAddr on the engine state. -/
def EngineState.findLocalAddr (s : EngineState) (a : HostAddress) : Int :=
  findLocalAddrAux s.config.localAddrs a 0

/-- The redundancy test of storeLocalNotReduntantCandidate: `cc` makes `c`
redundant (same addr, same base, priority at least as high). -/
def dominates (cc c : Candidate) : Bool :=
  taEq cc.info.addr c.info.addr && taEq cc.info.base c.info.base
    && decide (c.info.priority ≤ cc.info.priority)

/-- IceComponent::Private::storeLocalNotReduntantCandidate (RFC 8445 §5.1.3). -/
def storeLocalNotReduntantCandidate (cands : List Candidate) (c : Candidate) :
    List Candidate × List Out :=
  if cands.any (fun cc => dominates cc c) then (cands, [])
  else (cands ++ [c], [Out.candidateAdded c])

/-- The ServerReflexive candidate ensureExt builds from a manually configured or
inherited external address. -/
def extCandidate (compId : Int) (cands : List Candidate) (lt : LocalTransport)
    (addrAt : Int) : Candidate :=
  { id := getId cands
    info :=
      { addr := ⟨lt.extAddr, lt.localAddress.port⟩
        type := .serverReflexive
        componentId := compId
        priority := choose_default_priority .serverReflexive (65535 - addrAt) lt.isVpn compId
        base := lt.localAddress
        related := lt.localAddress
        network := lt.network }
    iceTransport := .localT lt.handle
    path := 0 }

/-- IceComponent::Private::ensureExt.  Returns the updated transport entry, the
updated candidate list and the emitted signals. -/
def ensureExt (compId : Int) (cands : List Candidate) (lt : LocalTransport)
    (addrAt : Int) : LocalTransport × List Candidate × List Out :=
  if !lt.extAddr.isNull && !lt.ext_finished then
    let c := extCandidate compId cands lt addrAt
    let lt := { lt with ext_finished := true }
    let r := storeLocalNotReduntantCandidate cands c
    (lt, r.1, r.2)
  else (lt, cands, [])

/-- IceComponent::Private::removeLocalCandidates: drop every candidate backed by
`tref`, removing its channelPeers entry and emitting candidateRemoved, in list
order. -/
def removeLocalCandidates (tref : TransportRef) :
    List Candidate → List (Nat × List TransportAddress) →
    List Candidate × List (Nat × List TransportAddress) × List Out
  | [], cps => ([], cps, [])
  | c :: rest, cps =>
    if c.iceTransport = tref then
      let r := removeLocalCandidates tref rest (cps.filter (fun p => !decide (p.1 = c.id)))
      (r.1, r.2.1, Out.candidateRemoved c :: r.2.2)
    else
      let r := removeLocalCandidates tref rest cps
      (c :: r.1, r.2.1, r.2.2)

/-- QHash lookup: channelPeers[id], defaulting to the empty set. -/
def cpLookup (m : List (Nat × List TransportAddress)) (k : Nat) : List TransportAddress :=
  match m.find? (fun p => decide (p.1 = k)) with
  | some p => p.2
  | none => []

/-- Whether channelPeers has an entry for `k`. -/
def cpHas (m : List (Nat × List TransportAddress)) (k : Nat) : Bool :=
  m.any (fun p => decide (p.1 = k))

/-- Store `v` under key `k` (QHash operator[] assignment). -/
def cpSet (m : List (Nat × List TransportAddress)) (k : Nat)
    (v : List TransportAddress) : List (Nat × List TransportAddress) :=
  if cpHas m k then m.map (fun p => if p.1 = k then (k, v) else p) else m ++ [(k, v)]

/-- QHash operator[] default-inserts an empty set when the key is absent, even
when nothing is added afterwards. -/
def cpEnsure (m : List (Nat × List TransportAddress)) (k : Nat) :
    List (Nat × List TransportAddress) :=
  if cpHas m k then m else m ++ [(k, [])]

/-- QHash::remove(id), as performed on channelPeers by removeLocalCandidates. -/
def cpRemove (m : List (Nat × List TransportAddress)) (i : Nat) :
    List (Nat × List TransportAddress) :=
  m.filter (fun p => !decide (p.1 = i))

/-- All local transports started (the loop in lt_started's completeness check). -/
def allStartedB (lts : List LocalTransport) : Bool :=
  lts.all (fun lt => lt.started)

/-- The per-transport completeness test of tryGatheringComplete. -/
def checkFinished (lt : LocalTransport) : Bool :=
  lt.started && (!lt.stunBindService.isValid || lt.stun_finished)
    && (!lt.stunRelayService.isValid || lt.turn_finished)

/-- The tcpTurn guard of tryGatheringComplete: no tcpTurn, or it has started. -/
def tcpOk (s : EngineState) : Bool :=
  match s.tcpTurn with
  | some t => t.started
  | none => true

/-- IceComponent::Private::tryGatheringComplete. -/
def tryGatheringComplete (s : EngineState) : EngineState × List Out :=
  if s.gatheringComplete || !tcpOk s then (s, [])
  else if s.udpTransports.all checkFinished then
    ({ s with gatheringComplete := true }, [Out.gatheringComplete])
  else (s, [])

/-- Run tryGatheringComplete after a handler body, concatenating outputs. -/
def withTryGC (p : EngineState × List Out) : EngineState × List Out :=
  let r := tryGatheringComplete p.1
  (r.1, p.2 ++ r.2)

/-- Replace the transport entry with the given handle. -/
def setLT (lts : List LocalTransport) (h : Nat) (f : LocalTransport → LocalTransport) :
    List LocalTransport :=
  lts.map fun lt => if lt.handle = h then f lt else lt

/-- Find the transport entry with the given handle (the slot-side
`std::find_if` on `sender()`). -/
def findLT (lts : List LocalTransport) (h : Nat) : Option LocalTransport :=
  lts.find? fun lt => decide (lt.handle = h)

/-- allStopped. -/
def allStopped (s : EngineState) : Bool :=
  s.udpTransports.isEmpty && !s.tcpTurn.isSome

/-- IceComponent::Private::postStop. -/
def postStop (s : EngineState) : EngineState × List Out :=
  ({ s with stopping := false }, [Out.stopped])

/-- IceComponent::Private::tryStopped. -/
def tryStopped (s : EngineState) : EngineState × List Out :=
  if allStopped s then postStop s else (s, [])

/-- Attach the configured STUN services to a freshly created local transport
(the IPv6 guard and the two setStun…Service calls in update's localAddrs loop). -/
def attachServices (cfg : Config) (useStunBind useStunRelayUdp : Bool)
    (lt : LocalTransport) : LocalTransport :=
  if lt.addr.isV6 then lt
  else
    let lt :=
      if useStunBind && cfg.stunBindAddr.isValid then
        { lt with stunBindService := cfg.stunBindAddr }
      else lt
    if useStunRelayUdp && cfg.stunRelayUdpAddr.isValid
        && !decide (cfg.stunRelayUdpUser = "") then
      { lt with stunRelayService := cfg.stunRelayUdpAddr }
    else lt

/-- The localAddrs loop of update.  `sockets` is the environment: for each local
address, `none` means the random-port bind failed (the address is skipped), and
`some (port, borrowed)` gives the bound port and whether the socket came from
the port reserver. -/
def installLocalAddrs (sockets : HostAddress → Option (Nat × Bool))
    (useStunBind useStunRelayUdp : Bool) :
    List LocalAddressCfg → Config → List LocalTransport → Nat →
    Config × List LocalTransport × Nat
  | [], cfg, lts, nh => (cfg, lts, nh)
  | la :: rest, cfg, lts, nh =>
    if findLocalAddrAux cfg.localAddrs la.addr 0 ≠ -1 then
      installLocalAddrs sockets useStunBind useStunRelayUdp rest cfg lts nh
    else
      match sockets la.addr with
      | none => installLocalAddrs sockets useStunBind useStunRelayUdp rest cfg lts nh
      | some pb =>
        let cfg := { cfg with localAddrs := cfg.localAddrs ++ [la] }
        let lt : LocalTransport :=
          { handle := nh, addr := la.addr, network := la.network, isVpn := la.isVpn,
            borrowed := pb.2, localAddress := ⟨la.addr, pb.1⟩ }
        let lt := attachServices cfg useStunBind useStunRelayUdp lt
        installLocalAddrs sockets useStunBind useStunRelayUdp rest cfg (lts ++ [lt]) (nh + 1)

/-- The `std::find_if` over config.extAddrs in update's extAddrs block: the first
entry whose base matches the transport's bound local address. -/
def matchExt (extAddrs : List ExternalAddressCfg) (laddr : TransportAddress) :
    Option ExternalAddressCfg :=
  extAddrs.find? fun ea =>
    decide (ea.base.addr = laddr.addr)
      && (decide (ea.portBase = -1) || decide (ea.portBase = (laddr.port : Int)))

/-- One iteration of update's extAddrs loop: assign the matching external
address, reporting whether a deferred ensureExt pass is needed. -/
def assignExt (extAddrs : List ExternalAddressCfg) (lt : LocalTransport) :
    LocalTransport × Bool :=
  if !lt.extAddr.isNull then (lt, false)
  else if lt.localAddress.addr.isV6 then (lt, false)
  else
    match matchExt extAddrs lt.localAddress with
    | some ea => ({ lt with extAddr := ea.addr }, lt.started)
    | none => (lt, false)

/-- The extAddrs loop of update over all transports. -/
def assignExtAll (extAddrs : List ExternalAddressCfg) :
    List LocalTransport → List LocalTransport × Bool
  | [] => ([], false)
  | lt :: rest =>
    let p := assignExt extAddrs lt
    let r := assignExtAll extAddrs rest
    (p.1 :: r.1, p.2 || r.2)

/-- The "only allow setting stun stuff once" block at the top of update. -/
def promoteStun (p c : Config) : Config :=
  if (p.stunBindAddr.isValid && !c.stunBindAddr.isValid)
      || (p.stunRelayUdpAddr.isValid && !c.stunRelayUdpAddr.isValid)
      || (p.stunRelayTcpAddr.isValid && !c.stunRelayTcpAddr.isValid) then
    { c with
      stunBindAddr := p.stunBindAddr
      stunRelayUdpAddr := p.stunRelayUdpAddr
      stunRelayUdpUser := p.stunRelayUdpUser
      stunRelayUdpPass := p.stunRelayUdpPass
      stunRelayTcpAddr := p.stunRelayTcpAddr
      stunRelayTcpUser := p.stunRelayTcpUser
      stunRelayTcpPass := p.stunRelayTcpPass }
  else c

/-- The localAddrs block of update ("for now, only allow setting localAddrs
once"). -/
def updInstall (sockets : HostAddress → Option (Nat × Bool)) (s : EngineState) :
    EngineState :=
  if !s.pending.localAddrs.isEmpty && s.config.localAddrs.isEmpty then
    let r := installLocalAddrs sockets s.useStunBind s.useStunRelayUdp
      s.pending.localAddrs s.config s.udpTransports s.nextHandle
    { s with config := r.1, udpTransports := r.2.1, nextHandle := r.2.2 }
  else s

/-- The extAddrs block of update ("created on demand if present, but only
once"). -/
def updExt (s : EngineState) : EngineState :=
  if !s.pending.extAddrs.isEmpty && s.config.extAddrs.isEmpty then
    let s := { s with config := { s.config with extAddrs := s.pending.extAddrs } }
    let r := assignExtAll s.config.extAddrs s.udpTransports
    let s := { s with udpTransports := r.1 }
    if r.2 then { s with deferred := s.deferred ++ [Deferred.doExt] } else s
  else s

/-- The TCP TURN block of update ("created once"). -/
def updTcp (s : EngineState) : EngineState :=
  if s.useStunRelayTcp && s.config.stunRelayTcpAddr.isValid
      && !decide (s.config.stunRelayTcpUser = "") && !s.tcpTurn.isSome then
    { s with tcpTurn := some {} }
  else s

/-- The completeness bookkeeping block of update. -/
def updLf (s : EngineState) : EngineState :=
  if s.udpTransports.isEmpty && !s.localFinished then
    { s with localFinished := true,
             deferred := s.deferred ++ [Deferred.emitLocalFinished] }
  else s

/-- IceComponent::Private::update.  `sockets` abstracts the socket list and the
random-port binds (see installLocalAddrs). -/
def update (s : EngineState) (sockets : HostAddress → Option (Nat × Bool)) :
    EngineState × List Out :=
  let aOuts : List Out := if s.stopping then [Out.assertViolation] else []
  -- only allow setting stun stuff once
  let s := { s with config := promoteStun s.pending s.config }
  let s := updLf (updTcp (updExt (updInstall sockets s)))
  ({ s with deferred := s.deferred ++ [Deferred.tryGatheringComplete] }, aOuts)

/-- IceComponent::Private::stop. -/
def stop (s : EngineState) : EngineState × List Out :=
  let aOuts : List Out := if s.stopping then [Out.assertViolation] else []
  let s := { s with stopping := true }
  if allStopped s then
    ({ s with deferred := s.deferred ++ [Deferred.postStop] }, aOuts)
  else
    (s, aOuts ++ s.udpTransports.map (fun lt => Out.ltStop lt.handle)
          ++ (if s.tcpTurn.isSome then [Out.ttStop] else []))

/-- The Host candidate lt_started builds. -/
def hostCandidate (compId : Int) (cands : List Candidate) (h : Nat)
    (lt : LocalTransport) (addrAt : Int) : Candidate :=
  { id := getId cands
    info :=
      { addr := lt.localAddress
        type := .host
        componentId := compId
        priority := choose_default_priority .host (65535 - addrAt) lt.isVpn compId
        base := lt.localAddress
        network := lt.network }
    iceTransport := .localT h
    path := 0 }

/-- The useLocal block of lt_started: emit the host candidate, then ensureExt. -/
def lsUseLocal (s : EngineState) (h : Nat) (lt : LocalTransport) (addrAt : Int) :
    LocalTransport × List Candidate × List Out :=
  if s.useLocal then
    let c := hostCandidate s.id s.localCandidates h lt addrAt
    let r := ensureExt s.id (s.localCandidates ++ [c]) lt addrAt
    (r.1, r.2.1, Out.candidateAdded c :: r.2.2)
  else (lt, s.localCandidates, [])

/-- The start-STUN-once block of lt_started. -/
def lsStun (s : EngineState) (h : Nat) (lt : LocalTransport) :
    LocalTransport × List Out :=
  if !lt.stun_started then
    let lt := { lt with stun_started := true }
    if s.useStunBind && (lt.stunBindService.isValid || lt.stunRelayService.isValid) then
      (lt, [Out.stunStart h])
    else ({ lt with stun_finished := true, turn_finished := true }, [])
  else (lt, [])

/-- The completeness block of lt_started: emit localFinished when every local
transport has started. -/
def lsLocalFinished (s : EngineState) : EngineState × List Out :=
  if !s.localFinished && allStartedB s.udpTransports then
    ({ s with localFinished := true }, [Out.localFinished])
  else (s, [])

/-- The body of lt_started once the sender's transport entry has been found
and its `started` flag set. -/
def lt_started_core (s : EngineState) (h : Nat) (lt : LocalTransport) :
    EngineState × List Out :=
  let addrAt := s.findLocalAddr lt.addr
  let aOuts : List Out := if addrAt = -1 then [Out.assertViolation] else []
  let r1 := lsUseLocal s h lt addrAt
  let r2 := lsStun s h r1.1
  let s1 := { s with udpTransports := setLT s.udpTransports h (fun _ => r2.1),
                     localCandidates := r1.2.1 }
  let r3 := lsLocalFinished s1
  withTryGC (r3.1, aOuts ++ r1.2.2 ++ r2.2 ++ r3.2)

/-- IceComponent::Private::lt_started. -/
def lt_started (s : EngineState) (h : Nat) : EngineState × List Out :=
  match findLT s.udpTransports h with
  | none => (s, [Out.undefinedBehavior])
  | some lt0 => lt_started_core s h { lt0 with started := true }

/-- The srflx-inheritance loop of lt_addressesChanged: every transport on the
same local address that lacks an external address inherits the srflx ip; if it
has already started, ensureExt runs for it (with the sender's addrAt). -/
def inheritLoop (compId : Int) (extIp : HostAddress) (target : TransportAddress)
    (addrAt : Int) :
    List LocalTransport → List Candidate →
    List LocalTransport × List Candidate × List Out
  | [], cands => ([], cands, [])
  | i :: rest, cands =>
    if i.extAddr.isNull && decide (i.localAddress = target) then
      if i.started then
        let p := ensureExt compId cands { i with extAddr := extIp } addrAt
        let r := inheritLoop compId extIp target addrAt rest p.2.1
        (p.1 :: r.1, r.2.1, p.2.2 ++ r.2.2)
      else
        let r := inheritLoop compId extIp target addrAt rest cands
        ({ i with extAddr := extIp } :: r.1, r.2.1, r.2.2)
    else
      let r := inheritLoop compId extIp target addrAt rest cands
      (i :: r.1, r.2.1, r.2.2)

/-- The ServerReflexive candidate lt_addressesChanged builds from a STUN
binding result. -/
def srflxCandidate (compId : Int) (cands : List Candidate) (h : Nat)
    (lt : LocalTransport) (addrAt : Int) : Candidate :=
  { id := getId cands
    info :=
      { addr := lt.serverReflexive
        base := lt.localAddress
        related := lt.localAddress
        type := .serverReflexive
        componentId := compId
        priority := choose_default_priority .serverReflexive (65535 - addrAt) lt.isVpn compId
        network := lt.network }
    iceTransport := .localT h
    path := 0 }

/-- The Relayed candidate lt_addressesChanged builds from a TURN allocation on
a UDP local transport. -/
def relayedCandidate (compId : Int) (cands : List Candidate) (h : Nat)
    (lt : LocalTransport) (addrAt : Int) : Candidate :=
  { id := getId cands
    info :=
      { addr := lt.relayed
        base := lt.relayed
        related := lt.serverReflexive
        type := .relayed
        componentId := compId
        priority := choose_default_priority .relayed (65535 - addrAt) lt.isVpn compId
        network := lt.network }
    iceTransport := .localT h
    path := 1 }

/-- The server-reflexive branch of lt_addressesChanged: the srflx-inheritance
loop, then the ServerReflexive candidate (stored through the redundancy scan). -/
def acSrflx (s : EngineState) (h : Nat) (lt : LocalTransport) (addrAt : Int) :
    EngineState × List Out :=
  if s.useStunBind && lt.serverReflexive.isValid && !lt.stun_finished then
    let ri := inheritLoop s.id lt.serverReflexive.addr lt.localAddress addrAt
      s.udpTransports s.localCandidates
    let s := { s with udpTransports := ri.1, localCandidates := ri.2.1 }
    let c := srflxCandidate s.id s.localCandidates h lt addrAt
    let uts := setLT s.udpTransports h (fun x => { x with stun_finished := true })
    let s := { s with udpTransports := uts }
    let rs := storeLocalNotReduntantCandidate s.localCandidates c
    ({ s with localCandidates := rs.1 }, ri.2.2 ++ rs.2)
  else if s.useStunBind && !lt.stunAlive && !lt.stun_finished then
    let uts := setLT s.udpTransports h (fun x => { x with stun_finished := true })
    ({ s with udpTransports := uts }, [])
  else (s, [])

/-- The relayed branch of lt_addressesChanged: the Relayed candidate (stored
through the redundancy scan). -/
def acRelayed (s : EngineState) (h : Nat) (lt1 : LocalTransport) (addrAt : Int) :
    EngineState × List Out :=
  if lt1.relayed.isValid && !lt1.turn_finished then
    let c := relayedCandidate s.id s.localCandidates h lt1 addrAt
    let uts := setLT s.udpTransports h (fun x => { x with turn_finished := true })
    let s := { s with udpTransports := uts }
    let rs := storeLocalNotReduntantCandidate s.localCandidates c
    ({ s with localCandidates := rs.1 }, rs.2)
  else if !lt1.turnAlive && !lt1.turn_finished then
    let uts := setLT s.udpTransports h (fun x => { x with turn_finished := true })
    ({ s with udpTransports := uts }, [])
  else (s, [])

/-- The body of lt_addressesChanged once the sender's transport entry (with the
refreshed observable addresses) has been written back into the state.  The
relayed branch re-reads the sender's entry (the C++ mutates it in place). -/
def lt_addressesChanged_core (s : EngineState) (h : Nat) (lt : LocalTransport) :
    EngineState × List Out :=
  let addrAt := s.findLocalAddr lt.addr
  let aOuts : List Out := if addrAt = -1 then [Out.assertViolation] else []
  let r1 := acSrflx s h lt addrAt
  let lt1 := (findLT r1.1.udpTransports h).getD lt
  let r2 := acRelayed r1.1 h lt1 addrAt
  withTryGC (r2.1, aOuts ++ r1.2 ++ r2.2)

/-- The refresh of the sender transport's observable addresses that the
addressesChanged event delivers. -/
def acUpdateLT (srflx relayed : TransportAddress) (stunAlive turnAlive : Bool)
    (lt0 : LocalTransport) : LocalTransport :=
  { lt0 with serverReflexive := srflx, relayed := relayed,
             stunAlive := stunAlive, turnAlive := turnAlive }

/-- Write a transport entry back into the engine state. -/
def acWriteBack (s : EngineState) (h : Nat) (lt : LocalTransport) : EngineState :=
  { s with udpTransports := setLT s.udpTransports h (fun _ => lt) }

/-- IceComponent::Private::lt_addressesChanged.  The event carries the
refreshed observable state of the sender's IceLocalTransport (its
server-reflexive and relayed addresses and the STUN/TURN liveness). -/
def lt_addressesChanged (s : EngineState) (h : Nat) (srflx relayed : TransportAddress)
    (stunAlive turnAlive : Bool) : EngineState × List Out :=
  match findLT s.udpTransports h with
  | none => (s, [Out.undefinedBehavior])
  | some lt0 =>
    let lt := acUpdateLT srflx relayed stunAlive turnAlive lt0
    lt_addressesChanged_core (acWriteBack s h lt) h lt

/-- eraseLocalTransport: remove the transport's candidates, return a borrowed
socket to the reserver, and drop the transport entry. -/
def eraseLocalTransport (s : EngineState) (h : Nat) (lt : LocalTransport) :
    EngineState × List Out :=
  let r := removeLocalCandidates (.localT h) s.localCandidates s.channelPeers
  let sockOuts : List Out := if lt.borrowed then [Out.returnSocket h] else []
  ({ s with localCandidates := r.1, channelPeers := r.2.1,
            udpTransports := s.udpTransports.filter (fun x => !decide (x.handle = h)) },
   r.2.2 ++ sockOuts)

/-- The error kinds of IceLocalTransport an engine slot distinguishes:
ErrorStun, ErrorTurn, and anything else (ErrorBind / generic). -/
inductive LtErrorKind where
  | stun | turn | other
deriving DecidableEq

/-- The error lambda connected to IceLocalTransport::error in
createLocalTransport. -/
def lt_error (s : EngineState) (h : Nat) (k : LtErrorKind) : EngineState × List Out :=
  match findLT s.udpTransports h with
  | none => (s, [Out.undefinedBehavior])
  | some lt =>
    match k with
    | .stun =>
      let uts := setLT s.udpTransports h (fun x => { x with stun_finished := true })
      withTryGC ({ s with udpTransports := uts }, [])
    | .turn =>
      let uts := setLT s.udpTransports h (fun x => { x with turn_finished := true })
      withTryGC ({ s with udpTransports := uts }, [])
    | .other => withTryGC (eraseLocalTransport s h lt)

/-- The stopped lambda connected to IceLocalTransport::stopped in
createLocalTransport. -/
def lt_stopped (s : EngineState) (h : Nat) : EngineState × List Out :=
  match findLT s.udpTransports h with
  | none => (s, [Out.undefinedBehavior])
  | some lt =>
    let r := eraseLocalTransport s h lt
    let r2 := tryStopped r.1
    (r2.1, r.2 ++ r2.2)

/-- The Relayed candidate tt_started builds (addrAt is hardwired to 1024:
"lower priority by making it seem like the last nic"). -/
def ttCandidate (compId : Int) (cands : List Candidate)
    (relayed reflexive : TransportAddress) : Candidate :=
  { id := getId cands
    info :=
      { addr := relayed
        related := reflexive
        type := .relayed
        componentId := compId
        priority := choose_default_priority .relayed (65535 - 1024) false compId
        base := relayed
        network := 0 }
    iceTransport := .tcpTurnT
    path := 0 }

/-- IceComponent::Private::tt_started.  The event carries the relayed and
reflexive addresses the TURN allocation produced. -/
def tt_started (s : EngineState) (relayed reflexive : TransportAddress) :
    EngineState × List Out :=
  match s.tcpTurn with
  | none => (s, [Out.undefinedBehavior])
  | some _ =>
    let s := { s with tcpTurn := some { started := true, relayedAddress := relayed,
                                        reflexiveAddress := reflexive } }
    let c := ttCandidate s.id s.localCandidates relayed reflexive
    withTryGC ({ s with localCandidates := s.localCandidates ++ [c] },
      [Out.candidateAdded c])

/-- IceComponent::Private::tt_stopped. -/
def tt_stopped (s : EngineState) : EngineState × List Out :=
  match s.tcpTurn with
  | none => (s, [Out.undefinedBehavior])
  | some _ =>
    let r := removeLocalCandidates .tcpTurnT s.localCandidates s.channelPeers
    let s := { s with localCandidates := r.1, channelPeers := r.2.1, tcpTurn := none }
    let r2 := tryStopped s
    (r2.1, r.2.2 ++ r2.2)

/-- IceComponent::Private::tt_error. -/
def tt_error (s : EngineState) : EngineState × List Out :=
  match s.tcpTurn with
  | none => (s, [Out.undefinedBehavior])
  | some _ =>
    let r := removeLocalCandidates .tcpTurnT s.localCandidates s.channelPeers
    withTryGC ({ s with localCandidates := r.1, channelPeers := r.2.1, tcpTurn := none },
      r.2.2)

/-- IceComponent::Private::flagPathAsLowOverhead. -/
def flagPathAsLowOverhead (s : EngineState) (cid : Nat) (a : TransportAddress) :
    EngineState × List Out :=
  match s.localCandidates.find? (fun c => decide (c.id = cid)) with
  | none => (s, [Out.assertViolation])
  | some c =>
    let addrs := cpLookup s.channelPeers cid
    if addrs.any (fun x => taEq x a) then
      ({ s with channelPeers := cpEnsure s.channelPeers cid }, [])
    else
      ({ s with channelPeers := cpSet s.channelPeers cid (addrs ++ [a]) },
       [Out.addChannelPeer c.iceTransport a])

/-- The PeerReflexive candidate addLocalPeerReflexiveCandidate builds: the zone
id of the mapped address is stripped; base and related are the base candidate's
address; the transport comes from the Host candidate found by base lookup. -/
def prflxCandidate (cands : List Candidate) (a : TransportAddress)
    (base : CandidateInfo) (priority : Int) (tref : TransportRef) : Candidate :=
  { id := getId cands
    info :=
      { addr := ⟨a.addr.stripZone, a.port⟩
        related := base.addr
        base := base.addr
        type := .peerReflexive
        priority := priority
        componentId := base.componentId
        network := base.network }
    iceTransport := tref
    path := 0 }

/-- The base-candidate lookup of addLocalPeerReflexiveCandidate: the first live
Host candidate whose base equals the given base. -/
def findBaseHost (cands : List Candidate) (base : CandidateInfo) : Option Candidate :=
  cands.find? fun c =>
    taEq c.info.base base.base && decide (c.info.type = CandidateType.host)

/-- IceComponent::Private::addLocalPeerReflexiveCandidate. -/
def addLocalPeerReflexiveCandidate (s : EngineState) (a : TransportAddress)
    (base : CandidateInfo) (priority : Int) : EngineState × List Out :=
  match findBaseHost s.localCandidates base with
  | none => (s, [Out.assertViolation, Out.undefinedBehavior])
  | some bc =>
    let c := prflxCandidate s.localCandidates a base priority bc.iceTransport
    ({ s with localCandidates := s.localCandidates ++ [c] }, [Out.candidateAdded c])

/-- One iteration of the deferred ensureExt pass (the QTimer::singleShot lambda
in update's extAddrs block). -/
def doExtLoop (compId : Int) (cfg : Config) :
    List LocalTransport → List Candidate →
    List LocalTransport × List Candidate × List Out
  | [], cands => ([], cands, [])
  | lt :: rest, cands =>
    if lt.started then
      let addrAt := findLocalAddrAux cfg.localAddrs lt.addr 0
      let aOuts : List Out := if addrAt = -1 then [Out.assertViolation] else []
      let p := ensureExt compId cands lt addrAt
      let r := doExtLoop compId cfg rest p.2.1
      (p.1 :: r.1, r.2.1, aOuts ++ p.2.2 ++ r.2.2)
    else
      let r := doExtLoop compId cfg rest cands
      (lt :: r.1, r.2.1, r.2.2)

/-- The deferred ensureExt pass. -/
def doExt (s : EngineState) : EngineState × List Out :=
  if s.stopping then (s, [])
  else
    let r := doExtLoop s.id s.config s.udpTransports s.localCandidates
    ({ s with udpTransports := r.1, localCandidates := r.2.1 }, r.2.2)

/-- Drain one queued deferred invocation (one event-loop dispatch). -/
def runDeferred (s : EngineState) : EngineState × List Out :=
  match s.deferred with
  | [] => (s, [])
  | d :: rest =>
    let s := { s with deferred := rest }
    match d with
    | .emitLocalFinished => (s, [Out.localFinished])
    | .tryGatheringComplete => tryGatheringComplete s
    | .postStop => postStop s
    | .doExt => doExt s

/-- The event alphabet: the public methods of IceComponent and the child
transport signals its Private slots are connected to, plus the event-loop
dispatch of a queued deferred invocation. -/
inductive Ev where
  | setLocalAddresses (l : List LocalAddressCfg)
  | setExternalAddresses (l : List ExternalAddressCfg)
  | setStunBindService (a : TransportAddress)
  | setStunRelayUdpService (a : TransportAddress) (u p : String)
  | setStunRelayTcpService (a : TransportAddress) (u p : String)
  | update (sockets : HostAddress → Option (Nat × Bool))
  | stop
  | ltStarted (h : Nat)
  | ltAddressesChanged (h : Nat) (srflx relayed : TransportAddress)
      (stunAlive turnAlive : Bool)
  | ltError (h : Nat) (k : LtErrorKind)
  | ltStopped (h : Nat)
  | ttStarted (relayed reflexive : TransportAddress)
  | ttStopped
  | ttError
  | flagPathAsLowOverhead (cid : Nat) (a : TransportAddress)
  | addLocalPeerReflexiveCandidate (a : TransportAddress) (base : CandidateInfo)
      (priority : Int)
  | runDeferred

/-- Run one entry point to completion. -/
def step (s : EngineState) : Ev → EngineState × List Out
  | .setLocalAddresses l => ({ s with pending := { s.pending with localAddrs := l } }, [])
  | .setExternalAddresses l => ({ s with pending := { s.pending with extAddrs := l } }, [])
  | .setStunBindService a =>
    ({ s with pending := { s.pending with stunBindAddr := a } }, [])
  | .setStunRelayUdpService a u p =>
    ({ s with pending := { s.pending with stunRelayUdpAddr := a, stunRelayUdpUser := u,
                                          stunRelayUdpPass := p } }, [])
  | .setStunRelayTcpService a u p =>
    ({ s with pending := { s.pending with stunRelayTcpAddr := a, stunRelayTcpUser := u,
                                          stunRelayTcpPass := p } }, [])
  | .update sockets => update s sockets
  | .stop => stop s
  | .ltStarted h => lt_started s h
  | .ltAddressesChanged h srflx relayed sa ta =>
    lt_addressesChanged s h srflx relayed sa ta
  | .ltError h k => lt_error s h k
  | .ltStopped h => lt_stopped s h
  | .ttStarted relayed reflexive => tt_started s relayed reflexive
  | .ttStopped => tt_stopped s
  | .ttError => tt_error s
  | .flagPathAsLowOverhead cid a => flagPathAsLowOverhead s cid a
  | .addLocalPeerReflexiveCandidate a b p => addLocalPeerReflexiveCandidate s a b p
  | .runDeferred => runDeferred s

/-- Run a sequence of events, collecting all outputs in order. -/
def runFrom (s : EngineState) : List Ev → EngineState × List Out
  | [] => (s, [])
  | e :: rest =>
    let r := step s e
    let r2 := runFrom r.1 rest
    (r2.1, r.2 ++ r2.2)

/-! ## Infrastructure: behaviour of the candidate-store primitives -/

theorem store_superset (cands : List Candidate) (c : Candidate) :
    ∀ x ∈ cands, x ∈ (storeLocalNotReduntantCandidate cands c).1 := by
  intro x hx
  unfold storeLocalNotReduntantCandidate
  split
  · exact hx
  · exact List.mem_append_left _ hx

theorem store_added (cands : List Candidate) (c : Candidate) :
    ∀ d, Out.candidateAdded d ∈ (storeLocalNotReduntantCandidate cands c).2 →
      d = c ∧ ∀ cc ∈ cands, dominates cc d = false := by
  intro d hd
  unfold storeLocalNotReduntantCandidate at hd
  split at hd
  · simp at hd
  · next hany =>
    simp only [List.mem_singleton, Out.candidateAdded.injEq] at hd
    subst hd
    refine ⟨rfl, ?_⟩
    intro cc hcc
    rw [Bool.eq_false_iff]
    intro hdom
    exact hany (List.any_eq_true.2 ⟨cc, hcc, hdom⟩)

theorem ensureExt_superset (compId : Int) (cands : List Candidate)
    (lt : LocalTransport) (addrAt : Int) :
    ∀ x ∈ cands, x ∈ (ensureExt compId cands lt addrAt).2.1 := by
  intro x hx
  unfold ensureExt
  split
  · exact store_superset _ _ x hx
  · exact hx

theorem ensureExt_added (compId : Int) (cands : List Candidate)
    (lt : LocalTransport) (addrAt : Int) :
    ∀ d, Out.candidateAdded d ∈ (ensureExt compId cands lt addrAt).2.2 →
      d = extCandidate compId cands lt addrAt
        ∧ (∀ cc ∈ cands, dominates cc d = false)
        ∧ lt.extAddr.isNull = false ∧ lt.ext_finished = false := by
  intro d hd
  unfold ensureExt at hd
  split at hd
  · next hcond =>
    obtain ⟨h1, h2⟩ := store_added _ _ d hd
    simp only [Bool.and_eq_true, Bool.not_eq_true'] at hcond
    exact ⟨h1, h2, hcond.1, hcond.2⟩
  · simp at hd

theorem inheritLoop_spec (compId : Int) (extIp : HostAddress)
    (target : TransportAddress) (addrAt : Int) (lts : List LocalTransport)
    (cands : List Candidate) :
    (∀ x ∈ cands, x ∈ (inheritLoop compId extIp target addrAt lts cands).2.1)
  ∧ (∀ d, Out.candidateAdded d ∈ (inheritLoop compId extIp target addrAt lts cands).2.2 →
      (∃ i, i ∈ lts ∧ i.extAddr.isNull = true ∧ i.localAddress = target ∧
        ∃ cs, d = extCandidate compId cs { i with extAddr := extIp } addrAt)
      ∧ ∀ cc ∈ cands, dominates cc d = false) := by
  induction lts generalizing cands with
  | nil =>
    refine ⟨fun x hx => hx, ?_⟩
    intro d hd
    simp [inheritLoop] at hd
  | cons i rest ih =>
    unfold inheritLoop
    split
    · next hcond =>
      simp only [Bool.and_eq_true, decide_eq_true_eq] at hcond
      split
      · constructor
        · intro x hx
          exact (ih _).1 x (ensureExt_superset _ _ _ _ x hx)
        · intro d hd
          simp only [List.mem_append] at hd
          rcases hd with hd | hd
          · obtain ⟨h1, h2, _⟩ := ensureExt_added _ _ _ _ d hd
            exact ⟨⟨i, List.mem_cons_self i rest, hcond.1, hcond.2, _, h1⟩, h2⟩
          · obtain ⟨⟨j, hj, hj2, hj3, hj4⟩, h2⟩ := (ih _).2 d hd
            refine ⟨⟨j, List.mem_cons_of_mem _ hj, hj2, hj3, hj4⟩, ?_⟩
            intro cc hcc
            exact h2 cc (ensureExt_superset _ _ _ _ cc hcc)
      · constructor
        · intro x hx
          exact (ih _).1 x hx
        · intro d hd
          obtain ⟨⟨j, hj, hj2, hj3, hj4⟩, h2⟩ := (ih _).2 d hd
          exact ⟨⟨j, List.mem_cons_of_mem _ hj, hj2, hj3, hj4⟩, h2⟩
    · constructor
      · intro x hx
        exact (ih _).1 x hx
      · intro d hd
        obtain ⟨⟨j, hj, hj2, hj3, hj4⟩, h2⟩ := (ih _).2 d hd
        exact ⟨⟨j, List.mem_cons_of_mem _ hj, hj2, hj3, hj4⟩, h2⟩

theorem withTryGC_added (p : EngineState × List Out) :
    ∀ d, Out.candidateAdded d ∈ (withTryGC p).2 → Out.candidateAdded d ∈ p.2 := by
  intro d hd
  unfold withTryGC tryGatheringComplete at hd
  split at hd
  · simpa using hd
  · split at hd <;> simp only [List.mem_append] at hd <;>
      rcases hd with hd | hd <;> simp_all

theorem acSrflx_spec (s : EngineState) (h : Nat) (lt : LocalTransport) (addrAt : Int) :
    (∀ x ∈ s.localCandidates, x ∈ (acSrflx s h lt addrAt).1.localCandidates)
  ∧ (∀ d, Out.candidateAdded d ∈ (acSrflx s h lt addrAt).2 →
      ∀ cc ∈ s.localCandidates, dominates cc d = false) := by
  unfold acSrflx
  split
  · dsimp only
    constructor
    · intro x hx
      exact store_superset _ _ x
        ((inheritLoop_spec s.id lt.serverReflexive.addr lt.localAddress addrAt
          s.udpTransports s.localCandidates).1 x hx)
    · intro d hd
      simp only [List.mem_append] at hd
      rcases hd with hd | hd
      · exact ((inheritLoop_spec s.id lt.serverReflexive.addr lt.localAddress addrAt
          s.udpTransports s.localCandidates).2 d hd).2
      · intro cc hcc
        exact (store_added _ _ d hd).2 cc
          ((inheritLoop_spec s.id lt.serverReflexive.addr lt.localAddress addrAt
            s.udpTransports s.localCandidates).1 cc hcc)
  · split <;> dsimp only <;>
      exact ⟨fun x hx => hx, fun d hd => by simp at hd⟩

theorem acRelayed_spec (s : EngineState) (h : Nat) (lt1 : LocalTransport) (addrAt : Int) :
    (∀ x ∈ s.localCandidates, x ∈ (acRelayed s h lt1 addrAt).1.localCandidates)
  ∧ (∀ d, Out.candidateAdded d ∈ (acRelayed s h lt1 addrAt).2 →
      ∀ cc ∈ s.localCandidates, dominates cc d = false) := by
  unfold acRelayed
  split
  · dsimp only
    refine ⟨fun x hx => store_superset _ _ x hx, ?_⟩
    intro d hd
    exact (store_added _ _ d hd).2
  · split <;> dsimp only <;>
      exact ⟨fun x hx => hx, fun d hd => by simp at hd⟩

theorem lt_addressesChanged_added (s : EngineState) (h : Nat)
    (srflx relayed : TransportAddress) (sa ta : Bool) :
    ∀ d, Out.candidateAdded d ∈ (lt_addressesChanged s h srflx relayed sa ta).2 →
      ∀ cc ∈ s.localCandidates, dominates cc d = false := by
  intro d hd cc hcc
  unfold lt_addressesChanged at hd
  split at hd
  · simp at hd
  · next lt0 heq =>
    dsimp only at hd
    unfold lt_addressesChanged_core at hd
    have hd2 := withTryGC_added _ d hd
    dsimp only at hd2
    simp only [List.mem_append] at hd2
    rcases hd2 with (hd2 | hd2) | hd2
    · split at hd2 <;> simp at hd2
    · exact (acSrflx_spec (acWriteBack s h (acUpdateLT srflx relayed sa ta lt0)) h _ _).2
        d hd2 cc hcc
    · exact (acRelayed_spec _ h _ _).2 d hd2 cc
        ((acSrflx_spec (acWriteBack s h (acUpdateLT srflx relayed sa ta lt0)) h _ _).1 cc hcc)

/-! ## Concrete fixtures used by witnesses and counterexamples -/

/-- A single IPv4 local address configuration. -/
def laW : LocalAddressCfg := { addr := .ip4 5, network := 1 }

/-- A socket environment: every bind succeeds on port 1000, nothing borrowed. -/
def skW : HostAddress → Option (Nat × Bool) := fun _ => some (1000, false)

/-- A base CandidateInfo whose base is the bound local address. -/
def baseW : CandidateInfo :=
  { addr := ⟨.ip4 5, 1000⟩, base := ⟨.ip4 5, 1000⟩, type := .host,
    priority := 0, componentId := 1, network := 1 }

/-- The Host candidate the engine emits on the fixture trace. -/
def hostW : Candidate :=
  { id := 0
    info := { addr := ⟨.ip4 5, 1000⟩, base := ⟨.ip4 5, 1000⟩, related := nullTA,
              type := .host, priority := 2130706431, componentId := 1, network := 1 }
    iceTransport := .localT 0, path := 0 }

/-- The PeerReflexive candidate injected on the C2 counterexample trace. -/
def prflxW : Candidate :=
  { id := 1
    info := { addr := ⟨.ip4 5, 1000⟩, base := ⟨.ip4 5, 1000⟩,
              related := ⟨.ip4 5, 1000⟩, type := .peerReflexive, priority := 50,
              componentId := 1, network := 1 }
    iceTransport := .localT 0, path := 0 }

/-- C2 counterexample trace: gather a host candidate, then inject a
peer-reflexive candidate at the very same (addr, base) with lower priority. -/
def evsC2 : List Ev :=
  [.setLocalAddresses [laW], .update skW, .ltStarted 0,
   .addLocalPeerReflexiveCandidate ⟨.ip4 5, 1000⟩ baseW 50]

/-! ## C2: the redundancy scan -/

/-- C2 (counterexample): the claim says every newly formed candidate is checked
against the live list and dropped when an existing candidate has equal addr,
equal base and priority at least as high — and that consequently no two live
candidates ever violate this.  On this concrete run an injected PeerReflexive
candidate with the same addr and base as the live Host candidate and lower
priority is inserted anyway (candidateAdded is emitted), so both the scan-always
reading and the global invariant are false on the code. -/
theorem redundancy_counterexample :
    (runFrom (initState 1) evsC2).1.localCandidates = [hostW, prflxW]
    ∧ taEq prflxW.info.addr hostW.info.addr = true
    ∧ taEq prflxW.info.base hostW.info.base = true
    ∧ prflxW.info.priority ≤ hostW.info.priority
    ∧ Out.candidateAdded prflxW ∈ (runFrom (initState 1) evsC2).2 := by
  refine ⟨by decide, by decide, by decide, by decide, by decide⟩

/-- C2 (amended): the redundancy scan guards exactly the candidates inserted
through storeLocalNotReduntantCandidate — the server-reflexive (external and
STUN) and the UDP-relayed candidates.  Such a candidate is inserted, with
candidateAdded emitted, precisely when no existing candidate has equal addr,
equal base and priority at least as high, and is dropped silently otherwise;
in particular every candidate the addressesChanged handler emits is
not dominated by any previously live candidate.  Host, TCP-TURN relayed, and
peer-reflexive candidates are appended without this scan. -/
theorem storeLocal_redundancy :
    (∀ (cands : List Candidate) (c : Candidate),
        ((∀ cc ∈ cands, dominates cc c = false)
            ∧ storeLocalNotReduntantCandidate cands c
                = (cands ++ [c], [Out.candidateAdded c]))
        ∨ ((∃ cc ∈ cands, dominates cc c = true)
            ∧ storeLocalNotReduntantCandidate cands c = (cands, [])))
  ∧ (∀ (s : EngineState) (h : Nat) (srflx relayed : TransportAddress)
        (sa ta : Bool) (c : Candidate),
        Out.candidateAdded c ∈ (step s (.ltAddressesChanged h srflx relayed sa ta)).2 →
        ∀ cc ∈ s.localCandidates, dominates cc c = false) := by
  constructor
  · intro cands c
    by_cases hany : cands.any (fun cc => dominates cc c) = true
    · right
      refine ⟨List.any_eq_true.1 hany, ?_⟩
      unfold storeLocalNotReduntantCandidate
      rw [if_pos hany]
    · left
      constructor
      · intro cc hcc
        rw [Bool.eq_false_iff]
        intro hdom
        exact hany (List.any_eq_true.2 ⟨cc, hcc, hdom⟩)
      · unfold storeLocalNotReduntantCandidate
        rw [if_neg hany]
  · intro s h srflx relayed sa ta c hc
    exact lt_addressesChanged_added s h srflx relayed sa ta c hc

/-- C2 witness trace: a STUN-configured component with one started transport. -/
def evsC2w : List Ev :=
  [.setStunBindService ⟨.ip4 9, 3478⟩, .setLocalAddresses [laW], .update skW,
   .ltStarted 0]

/-- C2 witness state. -/
def sC2w : EngineState := (runFrom (initState 1) evsC2w).1

/-- The ServerReflexive candidate the witness event emits. -/
def srflxW2 : Candidate :=
  { id := 2
    info := { addr := ⟨.ip4 203, 40001⟩, base := ⟨.ip4 5, 1000⟩,
              related := ⟨.ip4 5, 1000⟩, type := .serverReflexive,
              priority := 1694498815, componentId := 1, network := 1 }
    iceTransport := .localT 0, path := 0 }

/-- Witness for storeLocal_redundancy at a concrete input. -/
theorem storeLocal_redundancy_witness : dominates hostW srflxW2 = false :=
  storeLocal_redundancy.2 sC2w 0 ⟨.ip4 203, 40001⟩ nullTA true true srflxW2
    (by decide) hostW (by decide)

/-! ## C10: addLocalPeerReflexiveCandidate -/

/-- C10: addLocalPeerReflexiveCandidate is safe exactly under the precondition
that some live Host candidate has info.base equal to the given base; then the
lookup's assertion holds and the emitted PeerReflexive candidate shares the
first such Host candidate's transport, has path 0, and carries the mapped
address with its IPv6 zone id stripped.  Without the precondition the code
dereferences the end iterator (undefined behaviour). -/
theorem addPrflx_spec :
    (∀ (s : EngineState) (a : TransportAddress) (base : CandidateInfo) (p : Int)
        (bc : Candidate), findBaseHost s.localCandidates base = some bc →
        bc ∈ s.localCandidates ∧ bc.info.type = .host
        ∧ taEq bc.info.base base.base = true
        ∧ step s (.addLocalPeerReflexiveCandidate a base p)
            = ({ s with localCandidates := s.localCandidates
                  ++ [prflxCandidate s.localCandidates a base p bc.iceTransport] },
               [Out.candidateAdded
                  (prflxCandidate s.localCandidates a base p bc.iceTransport)])
        ∧ (prflxCandidate s.localCandidates a base p bc.iceTransport).iceTransport
            = bc.iceTransport
        ∧ (prflxCandidate s.localCandidates a base p bc.iceTransport).path = 0
        ∧ (prflxCandidate s.localCandidates a base p bc.iceTransport).info.addr
            = ⟨a.addr.stripZone, a.port⟩
        ∧ (prflxCandidate s.localCandidates a base p bc.iceTransport).info.type
            = .peerReflexive)
  ∧ (∀ (s : EngineState) (a : TransportAddress) (base : CandidateInfo) (p : Int),
        findBaseHost s.localCandidates base = none →
        step s (.addLocalPeerReflexiveCandidate a base p)
          = (s, [Out.assertViolation, Out.undefinedBehavior])) := by
  constructor
  · intro s a base p bc hfind
    have hmem : bc ∈ s.localCandidates := List.mem_of_find?_eq_some hfind
    have hpred := List.find?_some hfind
    simp only [Bool.and_eq_true, decide_eq_true_eq] at hpred
    refine ⟨hmem, hpred.2, hpred.1, ?_, rfl, rfl, rfl, rfl⟩
    show addLocalPeerReflexiveCandidate s a base p = _
    unfold addLocalPeerReflexiveCandidate
    rw [hfind]
  · intro s a base p hfind
    show addLocalPeerReflexiveCandidate s a base p = _
    unfold addLocalPeerReflexiveCandidate
    rw [hfind]

/-- C10 witness state: a component with one live Host candidate. -/
def sC10 : EngineState :=
  (runFrom (initState 1) [.setLocalAddresses [laW], .update skW, .ltStarted 0]).1

/-- Witness for addPrflx_spec at a concrete input. -/
theorem addPrflx_spec_witness :
    (prflxCandidate sC10.localCandidates ⟨.ip6 7 (some 3), 4444⟩ baseW 50
        hostW.iceTransport).path = 0
    ∧ (prflxCandidate sC10.localCandidates ⟨.ip6 7 (some 3), 4444⟩ baseW 50
        hostW.iceTransport).info.addr = ⟨.ip6 7 none, 4444⟩ := by
  have h := addPrflx_spec.1 sC10 ⟨.ip6 7 (some 3), 4444⟩ baseW 50 hostW (by decide)
  exact ⟨h.2.2.2.2.2.1, h.2.2.2.2.2.2.1⟩

/-! ## C4: promotion of the STUN coordinates -/

theorem installLocalAddrs_config (sockets : HostAddress → Option (Nat × Bool))
    (b1 b2 : Bool) (ls : List LocalAddressCfg) (cfg : Config)
    (lts : List LocalTransport) (nh : Nat) :
    (installLocalAddrs sockets b1 b2 ls cfg lts nh).1.extAddrs = cfg.extAddrs
  ∧ (installLocalAddrs sockets b1 b2 ls cfg lts nh).1.stunBindAddr = cfg.stunBindAddr
  ∧ (installLocalAddrs sockets b1 b2 ls cfg lts nh).1.stunRelayUdpAddr
      = cfg.stunRelayUdpAddr
  ∧ (installLocalAddrs sockets b1 b2 ls cfg lts nh).1.stunRelayUdpUser
      = cfg.stunRelayUdpUser
  ∧ (installLocalAddrs sockets b1 b2 ls cfg lts nh).1.stunRelayUdpPass
      = cfg.stunRelayUdpPass
  ∧ (installLocalAddrs sockets b1 b2 ls cfg lts nh).1.stunRelayTcpAddr
      = cfg.stunRelayTcpAddr
  ∧ (installLocalAddrs sockets b1 b2 ls cfg lts nh).1.stunRelayTcpUser
      = cfg.stunRelayTcpUser
  ∧ (installLocalAddrs sockets b1 b2 ls cfg lts nh).1.stunRelayTcpPass
      = cfg.stunRelayTcpPass := by
  induction ls generalizing cfg lts nh with
  | nil => exact ⟨rfl, rfl, rfl, rfl, rfl, rfl, rfl, rfl⟩
  | cons la rest ih =>
    unfold installLocalAddrs
    split
    · exact ih cfg lts nh
    · cases sockets la.addr with
      | none => exact ih cfg lts nh
      | some pb => exact ih _ _ _

/-- The stun fields of the active config after update are exactly those the
promotion block produced: no later part of update touches them. -/
theorem updInstall_frame (sk : HostAddress → Option (Nat × Bool)) (s : EngineState) :
    (updInstall sk s).channelPeers = s.channelPeers
  ∧ (updInstall sk s).gatheringComplete = s.gatheringComplete
  ∧ (updInstall sk s).localFinished = s.localFinished
  ∧ (updInstall sk s).tcpTurn = s.tcpTurn
  ∧ (updInstall sk s).deferred = s.deferred
  ∧ (updInstall sk s).stopping = s.stopping
  ∧ (updInstall sk s).pending = s.pending
  ∧ (updInstall sk s).localCandidates = s.localCandidates := by
  unfold updInstall
  split
  · exact ⟨rfl, rfl, rfl, rfl, rfl, rfl, rfl, rfl⟩
  · exact ⟨rfl, rfl, rfl, rfl, rfl, rfl, rfl, rfl⟩

theorem updExt_frame (s : EngineState) :
    (updExt s).channelPeers = s.channelPeers
  ∧ (updExt s).gatheringComplete = s.gatheringComplete
  ∧ (updExt s).localFinished = s.localFinished
  ∧ (updExt s).tcpTurn = s.tcpTurn
  ∧ (updExt s).stopping = s.stopping
  ∧ (updExt s).nextHandle = s.nextHandle
  ∧ (updExt s).localCandidates = s.localCandidates := by
  unfold updExt
  split
  · dsimp only
    split <;> exact ⟨rfl, rfl, rfl, rfl, rfl, rfl, rfl⟩
  · exact ⟨rfl, rfl, rfl, rfl, rfl, rfl, rfl⟩

theorem updTcp_frame (s : EngineState) :
    (updTcp s).channelPeers = s.channelPeers
  ∧ (updTcp s).gatheringComplete = s.gatheringComplete
  ∧ (updTcp s).localFinished = s.localFinished
  ∧ (updTcp s).udpTransports = s.udpTransports
  ∧ (updTcp s).deferred = s.deferred
  ∧ (updTcp s).config = s.config
  ∧ (updTcp s).nextHandle = s.nextHandle
  ∧ (updTcp s).stopping = s.stopping := by
  unfold updTcp
  split
  · exact ⟨rfl, rfl, rfl, rfl, rfl, rfl, rfl, rfl⟩
  · exact ⟨rfl, rfl, rfl, rfl, rfl, rfl, rfl, rfl⟩

theorem updLf_frame (s : EngineState) :
    (updLf s).channelPeers = s.channelPeers
  ∧ (updLf s).gatheringComplete = s.gatheringComplete
  ∧ (updLf s).udpTransports = s.udpTransports
  ∧ (updLf s).tcpTurn = s.tcpTurn
  ∧ (updLf s).config = s.config
  ∧ (updLf s).nextHandle = s.nextHandle
  ∧ (updLf s).stopping = s.stopping := by
  unfold updLf
  split
  · exact ⟨rfl, rfl, rfl, rfl, rfl, rfl, rfl⟩
  · exact ⟨rfl, rfl, rfl, rfl, rfl, rfl, rfl⟩

theorem updExt_config_stun (s : EngineState) :
    (updExt s).config.stunBindAddr = s.config.stunBindAddr
  ∧ (updExt s).config.stunRelayUdpAddr = s.config.stunRelayUdpAddr
  ∧ (updExt s).config.stunRelayUdpUser = s.config.stunRelayUdpUser
  ∧ (updExt s).config.stunRelayUdpPass = s.config.stunRelayUdpPass
  ∧ (updExt s).config.stunRelayTcpAddr = s.config.stunRelayTcpAddr
  ∧ (updExt s).config.stunRelayTcpUser = s.config.stunRelayTcpUser
  ∧ (updExt s).config.stunRelayTcpPass = s.config.stunRelayTcpPass := by
  unfold updExt
  split
  · dsimp only
    split <;> exact ⟨rfl, rfl, rfl, rfl, rfl, rfl, rfl⟩
  · exact ⟨rfl, rfl, rfl, rfl, rfl, rfl, rfl⟩

theorem updInstall_config_stun (sk : HostAddress → Option (Nat × Bool))
    (s : EngineState) :
    (updInstall sk s).config.stunBindAddr = s.config.stunBindAddr
  ∧ (updInstall sk s).config.stunRelayUdpAddr = s.config.stunRelayUdpAddr
  ∧ (updInstall sk s).config.stunRelayUdpUser = s.config.stunRelayUdpUser
  ∧ (updInstall sk s).config.stunRelayUdpPass = s.config.stunRelayUdpPass
  ∧ (updInstall sk s).config.stunRelayTcpAddr = s.config.stunRelayTcpAddr
  ∧ (updInstall sk s).config.stunRelayTcpUser = s.config.stunRelayTcpUser
  ∧ (updInstall sk s).config.stunRelayTcpPass = s.config.stunRelayTcpPass := by
  unfold updInstall
  split
  · dsimp only
    exact (installLocalAddrs_config sk s.useStunBind s.useStunRelayUdp
      s.pending.localAddrs s.config s.udpTransports s.nextHandle).2
  · exact ⟨rfl, rfl, rfl, rfl, rfl, rfl, rfl⟩

theorem update_config_stun (s : EngineState) (sockets : HostAddress → Option (Nat × Bool)) :
    (update s sockets).1.config.stunBindAddr = (promoteStun s.pending s.config).stunBindAddr
  ∧ (update s sockets).1.config.stunRelayUdpAddr
      = (promoteStun s.pending s.config).stunRelayUdpAddr
  ∧ (update s sockets).1.config.stunRelayUdpUser
      = (promoteStun s.pending s.config).stunRelayUdpUser
  ∧ (update s sockets).1.config.stunRelayUdpPass
      = (promoteStun s.pending s.config).stunRelayUdpPass
  ∧ (update s sockets).1.config.stunRelayTcpAddr
      = (promoteStun s.pending s.config).stunRelayTcpAddr
  ∧ (update s sockets).1.config.stunRelayTcpUser
      = (promoteStun s.pending s.config).stunRelayTcpUser
  ∧ (update s sockets).1.config.stunRelayTcpPass
      = (promoteStun s.pending s.config).stunRelayTcpPass := by
  have key : (update s sockets).1.config
      = (updExt (updInstall sockets
          { s with config := promoteStun s.pending s.config })).config := by
    show (updLf (updTcp (updExt (updInstall sockets
        { s with config := promoteStun s.pending s.config })))).config = _
    rw [(updLf_frame _).2.2.2.2.1, (updTcp_frame _).2.2.2.2.2.1]
  obtain ⟨e1, e2, e3, e4, e5, e6, e7⟩ := updExt_config_stun
    (updInstall sockets { s with config := promoteStun s.pending s.config })
  obtain ⟨i1, i2, i3, i4, i5, i6, i7⟩ := updInstall_config_stun sockets
    { s with config := promoteStun s.pending s.config }
  rw [key]
  exact ⟨e1.trans i1, e2.trans i2, e3.trans i3, e4.trans i4, e5.trans i5,
    e6.trans i6, e7.trans i7⟩

/-- When every active stun address is already set, the promotion block is a
no-op. -/
theorem promoteStun_frozen (p c : Config)
    (h1 : c.stunBindAddr.isValid = true)
    (h2 : c.stunRelayUdpAddr.isValid = true)
    (h3 : c.stunRelayTcpAddr.isValid = true) :
    promoteStun p c = c := by
  unfold promoteStun
  rw [if_neg]
  simp [h1, h2, h3]

/-- C4 (counterexample): the claim says a promoted STUN coordinate field is
never changed by a later update even when other pending STUN fields are newly
set there.  On this run the first update promotes the STUN-bind address
(10, 3478); the caller then re-sets the pending bind address and newly sets the
relay-TCP service, and the second update overwrites the active bind address
with (11, 3478), because the promotion block re-copies all pending STUN fields
whenever any one active STUN address is still unset. -/
theorem stun_once_counterexample :
    (runFrom (initState 1)
        [.setStunBindService ⟨.ip4 10, 3478⟩, .update skW]).1.config.stunBindAddr
      = ⟨.ip4 10, 3478⟩
    ∧ (runFrom (initState 1)
        [.setStunBindService ⟨.ip4 10, 3478⟩, .update skW,
         .setStunBindService ⟨.ip4 11, 3478⟩,
         .setStunRelayTcpService ⟨.ip4 12, 3478⟩ "u" "p",
         .update skW]).1.config.stunBindAddr = ⟨.ip4 11, 3478⟩ :=
  ⟨by decide, by decide⟩

/-- C4 (amended): update promotes the pending STUN coordinates by copying all
of them whenever some pending STUN address is set while its active counterpart
is still unset; an already-promoted field can therefore change in a later
update if its pending value was re-set and another STUN address field is newly
promoted.  Once all three STUN addresses are active, no subsequent update
changes any active STUN coordinate field. -/
theorem stun_config_frozen (s : EngineState)
    (sockets : HostAddress → Option (Nat × Bool))
    (h1 : s.config.stunBindAddr.isValid = true)
    (h2 : s.config.stunRelayUdpAddr.isValid = true)
    (h3 : s.config.stunRelayTcpAddr.isValid = true) :
    (step s (.update sockets)).1.config.stunBindAddr = s.config.stunBindAddr
  ∧ (step s (.update sockets)).1.config.stunRelayUdpAddr = s.config.stunRelayUdpAddr
  ∧ (step s (.update sockets)).1.config.stunRelayUdpUser = s.config.stunRelayUdpUser
  ∧ (step s (.update sockets)).1.config.stunRelayUdpPass = s.config.stunRelayUdpPass
  ∧ (step s (.update sockets)).1.config.stunRelayTcpAddr = s.config.stunRelayTcpAddr
  ∧ (step s (.update sockets)).1.config.stunRelayTcpUser = s.config.stunRelayTcpUser
  ∧ (step s (.update sockets)).1.config.stunRelayTcpPass = s.config.stunRelayTcpPass := by
  have hp := promoteStun_frozen s.pending s.config h1 h2 h3
  have hu := update_config_stun s sockets
  rw [hp] at hu
  exact hu

/-- C4 witness state: all three STUN services promoted. -/
def sC4 : EngineState :=
  (runFrom (initState 1)
    [.setStunBindService ⟨.ip4 10, 3478⟩,
     .setStunRelayUdpService ⟨.ip4 13, 3478⟩ "u" "p",
     .setStunRelayTcpService ⟨.ip4 12, 3478⟩ "u" "p", .update skW]).1

/-- Witness for stun_config_frozen at a concrete input. -/
theorem stun_config_frozen_witness :
    (step sC4 (.update skW)).1.config.stunBindAddr = sC4.config.stunBindAddr :=
  (stun_config_frozen sC4 skW (by decide) (by decide) (by decide)).1

/-! ## C7: stop is not idempotent -/

/-- C7 (counterexample): the claim says a second stop, including during the
stopping phase, is permitted and observationally equal to a single stop.  On
this run from the initial (all-stopped) state, stop twice trips the
Q_ASSERT(!stopping) precondition and defers postStop twice, so stopped is
emitted twice, unlike the single-stop run. -/
theorem stop_idempotent_counterexample :
    (runFrom (initState 1) [.stop, .stop, .runDeferred, .runDeferred]).2
      = [Out.assertViolation, Out.stopped, Out.stopped]
    ∧ (runFrom (initState 1) [.stop, .runDeferred]).2 = [Out.stopped] :=
  ⟨by decide, by decide⟩

/-- C7 (amended): stop is not idempotent: it requires the engine not to be
stopping already (Q_ASSERT(!stopping)); a stop issued while stopping records
an assertion violation, and when all children are already stopped it defers a
second postStop, so stopped would be emitted once per stop call. -/
theorem stop_not_idempotent :
    (∀ s : EngineState, s.stopping = true →
        Out.assertViolation ∈ (step s .stop).2)
  ∧ (∀ s : EngineState, s.stopping = true → allStopped s = true →
        (step s .stop).1.deferred = s.deferred ++ [Deferred.postStop])
  ∧ (∀ s : EngineState, s.stopping = false →
        Out.assertViolation ∉ (step s .stop).2 ∧ (step s .stop).1.stopping = true) := by
  refine ⟨?_, ?_, ?_⟩
  · intro s hs
    show Out.assertViolation ∈ (stop s).2
    unfold stop
    rw [hs]
    split <;> dsimp only <;> split <;> simp_all
  · intro s hs hall
    show (stop s).1.deferred = _
    unfold stop
    have hall2 : allStopped { s with stopping := true } = true := hall
    rw [hs, if_pos hall2]
  · intro s hs
    constructor
    · show Out.assertViolation ∉ (stop s).2
      unfold stop
      rw [hs]
      split
      · simp_all
      · dsimp only
        split
        · simp
        · intro hmem
          simp only [List.nil_append, List.mem_append, List.mem_map] at hmem
          rcases hmem with ⟨x, _, hx⟩ | hmem
          · exact Out.noConfusion hx
          · split at hmem <;> simp_all
    · show (stop s).1.stopping = true
      unfold stop
      split <;> dsimp only <;> split <;> rfl
/-- Witness for stop_not_idempotent at a concrete input. -/
theorem stop_not_idempotent_witness :
    Out.assertViolation ∈ (step (runFrom (initState 1) [.stop]).1 .stop).2 :=
  stop_not_idempotent.1 (runFrom (initState 1) [.stop]).1 (by decide)

/-! ## C5: the manual external address produces a synchronous ServerReflexive -/

theorem ensureExt_emits (compId : Int) (cands : List Candidate)
    (lt : LocalTransport) (addrAt : Int)
    (hExt : lt.extAddr.isNull = false) (hEF : lt.ext_finished = false)
    (hND : ∀ cc ∈ cands, taEq cc.info.addr ⟨lt.extAddr, lt.localAddress.port⟩ = false) :
    (ensureExt compId cands lt addrAt).2.2
      = [Out.candidateAdded (extCandidate compId cands lt addrAt)] := by
  unfold ensureExt
  rw [if_pos]
  · dsimp only
    unfold storeLocalNotReduntantCandidate
    rw [if_neg]
    intro hany
    obtain ⟨cc, hcc, hdom⟩ := List.any_eq_true.1 hany
    unfold dominates at hdom
    have hne := hND cc hcc
    simp only [extCandidate] at hdom
    rw [hne] at hdom
    simp at hdom
  · simp [hExt, hEF]

theorem lsUseLocal_outs (s : EngineState) (h : Nat) (lt : LocalTransport)
    (addrAt : Int) (hUL : s.useLocal = true) :
    (lsUseLocal s h lt addrAt).2.2
      = Out.candidateAdded (hostCandidate s.id s.localCandidates h lt addrAt)
        :: (ensureExt s.id
              (s.localCandidates ++ [hostCandidate s.id s.localCandidates h lt addrAt])
              lt addrAt).2.2 := by
  unfold lsUseLocal
  rw [if_pos hUL]

theorem promoteStun_extAddrs (p c : Config) :
    (promoteStun p c).extAddrs = c.extAddrs := by
  unfold promoteStun
  split <;> rfl

theorem promoteStun_localAddrs (p c : Config) :
    (promoteStun p c).localAddrs = c.localAddrs := by
  unfold promoteStun
  split <;> rfl

theorem assignExtAll_map (ex : List ExternalAddressCfg) (lts : List LocalTransport) :
    (assignExtAll ex lts).1 = lts.map (fun lt => (assignExt ex lt).1) := by
  induction lts with
  | nil => rfl
  | cons lt rest ih => simp [assignExtAll, ih]

/-- C5: when a C1 transport reports started (with useLocal enabled and its
external address assigned from a matching ExternalAddress entry), the engine
emits a ServerReflexive candidate synchronously in the same step, with
addr = (external ip, locally bound port), base = the bound local address,
related = base, and path = 0, on that transport; and update assigns a
transport's extAddr from the first ExternalAddress entry whose base ip equals
the bound local ip and whose portBase is -1 or the bound port. -/
theorem ext_srflx_on_started :
    (∀ (s : EngineState) (h : Nat) (lt : LocalTransport),
        findLT s.udpTransports h = some lt →
        s.useLocal = true →
        lt.extAddr.isNull = false →
        lt.ext_finished = false →
        lt.extAddr.stripZone ≠ lt.localAddress.addr.stripZone →
        (∀ cc ∈ s.localCandidates,
            taEq cc.info.addr ⟨lt.extAddr, lt.localAddress.port⟩ = false) →
        ∃ c, Out.candidateAdded c ∈ (step s (.ltStarted h)).2
          ∧ c.info.addr = ⟨lt.extAddr, lt.localAddress.port⟩
          ∧ c.info.base = lt.localAddress
          ∧ c.info.related = lt.localAddress
          ∧ c.info.type = CandidateType.serverReflexive
          ∧ c.path = 0
          ∧ c.iceTransport = .localT lt.handle)
  ∧ (∀ (s : EngineState) (sockets : HostAddress → Option (Nat × Bool)),
        s.pending.localAddrs = [] →
        s.pending.extAddrs.isEmpty = false →
        s.config.extAddrs = [] →
        (step s (.update sockets)).1.udpTransports
          = s.udpTransports.map (fun lt => (assignExt s.pending.extAddrs lt).1))
  ∧ (∀ (ex : List ExternalAddressCfg) (lt : LocalTransport) (ea : ExternalAddressCfg),
        lt.extAddr.isNull = true →
        lt.localAddress.addr.isV6 = false →
        matchExt ex lt.localAddress = some ea →
        (assignExt ex lt).1 = { lt with extAddr := ea.addr }
        ∧ ea.base.addr = lt.localAddress.addr
        ∧ (ea.portBase = -1 ∨ ea.portBase = (lt.localAddress.port : Int))) := by
  refine ⟨?_, ?_, ?_⟩
  · intro s h lt hfind hUL hExt hEF hNE hND
    refine ⟨extCandidate s.id
        (s.localCandidates
          ++ [hostCandidate s.id s.localCandidates h { lt with started := true }
                (s.findLocalAddr lt.addr)])
        { lt with started := true } (s.findLocalAddr lt.addr),
      ?_, rfl, rfl, rfl, rfl, rfl, rfl⟩
    show Out.candidateAdded _ ∈ (lt_started s h).2
    unfold lt_started
    rw [hfind]
    unfold lt_started_core
    dsimp only
    apply List.mem_append_left
    apply List.mem_append_left
    apply List.mem_append_left
    apply List.mem_append_right
    rw [lsUseLocal_outs s h { lt with started := true } (s.findLocalAddr lt.addr) hUL]
    apply List.mem_cons_of_mem
    rw [ensureExt_emits s.id _ { lt with started := true } (s.findLocalAddr lt.addr)
      hExt hEF ?hnd]
    · exact List.mem_singleton.2 rfl
    case hnd =>
      intro cc hcc
      rcases List.mem_append.1 hcc with hcc | hcc
      · exact hND cc hcc
      · simp only [List.mem_singleton] at hcc
        subst hcc
        simp only [hostCandidate, taEq, Bool.and_eq_false_iff,
          decide_eq_false_iff_not]
        exact Or.inl fun he => hNE he.symm
  · intro s sockets hpl hpe hce
    have hni : updInstall sockets { s with config := promoteStun s.pending s.config }
        = { s with config := promoteStun s.pending s.config } := by
      unfold updInstall
      rw [if_neg]
      intro hc
      rw [Bool.and_eq_true] at hc
      have h1 := hc.1
      rw [show ({ s with config := promoteStun s.pending s.config }
            : EngineState).pending = s.pending from rfl, hpl] at h1
      simp at h1
    show (updLf (updTcp (updExt (updInstall sockets
        { s with config := promoteStun s.pending s.config })))).udpTransports = _
    rw [(updLf_frame _).2.2.1, (updTcp_frame _).2.2.2.1, hni]
    unfold updExt
    split
    · dsimp only
      split <;> rw [assignExtAll_map]
    · next hc =>
      exfalso
      apply hc
      simp [hpe, promoteStun_extAddrs, hce]
  · intro ex lt ea hnull hv6 hmat
    have hpred := List.find?_some hmat
    simp only [Bool.and_eq_true, Bool.or_eq_true, decide_eq_true_eq] at hpred
    refine ⟨?_, hpred.1, hpred.2⟩
    unfold assignExt
    rw [hnull]
    simp only [Bool.not_true, Bool.false_eq_true, if_false, hv6, hmat]

/-- C5 witness fixtures: one local address with a matching external entry. -/
def eaW : ExternalAddressCfg := { base := laW, addr := .ip4 77 }

/-- C5 witness state: external entry assigned before the transport starts. -/
def sC5 : EngineState :=
  (runFrom (initState 1)
    [.setLocalAddresses [laW], .setExternalAddresses [eaW], .update skW]).1

/-- The transport entry living in the C5 witness state. -/
def ltC5 : LocalTransport :=
  { handle := 0, addr := .ip4 5, network := 1, isVpn := false,
    localAddress := ⟨.ip4 5, 1000⟩, extAddr := .ip4 77 }

/-- Witness for ext_srflx_on_started at a concrete input. -/
theorem ext_srflx_on_started_witness :
    ∃ c, Out.candidateAdded c ∈ (step sC5 (.ltStarted 0)).2
      ∧ c.info.addr = ⟨ltC5.extAddr, ltC5.localAddress.port⟩
      ∧ c.info.base = ltC5.localAddress
      ∧ c.info.related = ltC5.localAddress
      ∧ c.info.type = CandidateType.serverReflexive
      ∧ c.path = 0
      ∧ c.iceTransport = .localT ltC5.handle :=
  ext_srflx_on_started.1 sC5 0 ltC5 (by decide) (by decide) (by decide) (by decide)
    (by decide) (by decide)

/-! ## Output-shape lemmas for each handler building block -/

theorem store_outs (cands : List Candidate) (c : Candidate) :
    (storeLocalNotReduntantCandidate cands c).2 = []
    ∨ (storeLocalNotReduntantCandidate cands c).2 = [Out.candidateAdded c] := by
  unfold storeLocalNotReduntantCandidate
  split
  · exact Or.inl rfl
  · exact Or.inr rfl

theorem ensureExt_outs (i : Int) (cands : List Candidate) (lt : LocalTransport)
    (a : Int) :
    (ensureExt i cands lt a).2.2 = []
    ∨ (ensureExt i cands lt a).2.2 = [Out.candidateAdded (extCandidate i cands lt a)] := by
  unfold ensureExt
  split
  · exact store_outs _ _
  · exact Or.inl rfl

theorem inheritLoop_outs (i : Int) (e : HostAddress) (t : TransportAddress)
    (a : Int) (lts : List LocalTransport) (cands : List Candidate) :
    ∀ o ∈ (inheritLoop i e t a lts cands).2.2, ∃ d, o = Out.candidateAdded d := by
  induction lts generalizing cands with
  | nil => intro o ho; simp [inheritLoop] at ho
  | cons x rest ih =>
    intro o ho
    unfold inheritLoop at ho
    split at ho
    · split at ho
      · dsimp only at ho
        rcases List.mem_append.1 ho with ho | ho
        · rcases ensureExt_outs i cands { x with extAddr := e } a with he | he <;>
            rw [he] at ho
          · simp at ho
          · simp only [List.mem_singleton] at ho
            exact ⟨_, ho⟩
        · exact ih _ o ho
      · exact ih _ o ho
    · exact ih _ o ho

theorem rlc_outs (tref : TransportRef) (cands : List Candidate)
    (cps : List (Nat × List TransportAddress)) :
    ∀ o ∈ (removeLocalCandidates tref cands cps).2.2,
      ∃ d, o = Out.candidateRemoved d ∧ d ∈ cands ∧ d.iceTransport = tref := by
  induction cands generalizing cps with
  | nil => intro o ho; simp [removeLocalCandidates] at ho
  | cons c rest ih =>
    intro o ho
    unfold removeLocalCandidates at ho
    split at ho
    · next heq =>
      rcases List.mem_cons.1 ho with ho | ho
      · exact ⟨c, ho, List.mem_cons_self _ _, heq⟩
      · obtain ⟨d, h1, h2, h3⟩ := ih _ o ho
        exact ⟨d, h1, List.mem_cons_of_mem _ h2, h3⟩
    · obtain ⟨d, h1, h2, h3⟩ := ih _ o ho
      exact ⟨d, h1, List.mem_cons_of_mem _ h2, h3⟩

theorem doExtLoop_outs (i : Int) (cfg : Config) (lts : List LocalTransport)
    (cands : List Candidate) :
    ∀ o ∈ (doExtLoop i cfg lts cands).2.2,
      o = Out.assertViolation
      ∨ ∃ lt2 cs, lt2 ∈ lts ∧ lt2.started = true
          ∧ o = Out.candidateAdded
              (extCandidate i cs lt2 (findLocalAddrAux cfg.localAddrs lt2.addr 0)) := by
  induction lts generalizing cands with
  | nil => intro o ho; simp [doExtLoop] at ho
  | cons x rest ih =>
    intro o ho
    unfold doExtLoop at ho
    split at ho
    · next hst =>
      dsimp only at ho
      rcases List.mem_append.1 ho with ho | ho
      · rcases List.mem_append.1 ho with ho | ho
        · split at ho
          · simp only [List.mem_singleton] at ho
            exact Or.inl ho
          · simp at ho
        · rcases ensureExt_outs i cands x (findLocalAddrAux cfg.localAddrs x.addr 0)
            with he | he <;> rw [he] at ho
          · simp at ho
          · simp only [List.mem_singleton] at ho
            exact Or.inr ⟨x, cands, List.mem_cons_self _ _, hst, ho⟩
      · rcases ih _ o ho with h | ⟨lt2, cs, h1, h2, h3⟩
        · exact Or.inl h
        · exact Or.inr ⟨lt2, cs, List.mem_cons_of_mem _ h1, h2, h3⟩
    · rcases ih _ o ho with h | ⟨lt2, cs, h1, h2, h3⟩
      · exact Or.inl h
      · exact Or.inr ⟨lt2, cs, List.mem_cons_of_mem _ h1, h2, h3⟩

theorem update_outs (s : EngineState) (sockets : HostAddress → Option (Nat × Bool)) :
    (update s sockets).2 = if s.stopping = true then [Out.assertViolation] else [] := rfl

theorem stop_outs (s : EngineState) :
    ∀ o ∈ (stop s).2, o = Out.assertViolation ∨ (∃ h, o = Out.ltStop h) ∨ o = Out.ttStop := by
  intro o ho
  unfold stop at ho
  split at ho <;> dsimp only at ho <;> split at ho
  · simp only [List.mem_singleton] at ho
    exact Or.inl ho
  · rcases List.mem_append.1 ho with ho | ho
    · rcases List.mem_append.1 ho with ho | ho
      · simp only [List.mem_singleton] at ho
        exact Or.inl ho
      · obtain ⟨x, _, hx⟩ := List.mem_map.1 ho
        exact Or.inr (Or.inl ⟨x.handle, hx.symm⟩)
    · split at ho
      · simp only [List.mem_singleton] at ho
        exact Or.inr (Or.inr ho)
      · simp at ho
  · simp at ho
  · rcases List.mem_append.1 ho with ho | ho
    · rcases List.mem_append.1 ho with ho | ho
      · simp at ho
      · obtain ⟨x, _, hx⟩ := List.mem_map.1 ho
        exact Or.inr (Or.inl ⟨x.handle, hx.symm⟩)
    · split at ho
      · simp only [List.mem_singleton] at ho
        exact Or.inr (Or.inr ho)
      · simp at ho

theorem tryStopped_outs (s : EngineState) :
    (tryStopped s).2 = [] ∨ (tryStopped s).2 = [Out.stopped] := by
  unfold tryStopped postStop
  split
  · exact Or.inr rfl
  · exact Or.inl rfl

theorem tryGC_outs (s : EngineState) :
    (tryGatheringComplete s).2 = [] ∨ (tryGatheringComplete s).2 = [Out.gatheringComplete] := by
  unfold tryGatheringComplete
  split
  · exact Or.inl rfl
  · split
    · exact Or.inr rfl
    · exact Or.inl rfl

theorem lsUseLocal_added (s : EngineState) (h : Nat) (lt : LocalTransport) (a : Int) :
    ∀ d, Out.candidateAdded d ∈ (lsUseLocal s h lt a).2.2 →
      d = hostCandidate s.id s.localCandidates h lt a
      ∨ d = extCandidate s.id
          (s.localCandidates ++ [hostCandidate s.id s.localCandidates h lt a]) lt a := by
  intro d hd
  unfold lsUseLocal at hd
  split at hd
  · dsimp only at hd
    rcases List.mem_cons.1 hd with hd | hd
    · exact Or.inl (Out.candidateAdded.inj hd)
    · rcases ensureExt_outs s.id
          (s.localCandidates ++ [hostCandidate s.id s.localCandidates h lt a]) lt a
        with he | he <;> rw [he] at hd
      · simp at hd
      · simp only [List.mem_singleton] at hd
        exact Or.inr (Out.candidateAdded.inj hd)
  · simp at hd

theorem lsStun_outs (s : EngineState) (h : Nat) (lt : LocalTransport) :
    (lsStun s h lt).2 = [] ∨ (lsStun s h lt).2 = [Out.stunStart h] := by
  unfold lsStun
  split
  · dsimp only
    split
    · exact Or.inr rfl
    · exact Or.inl rfl
  · exact Or.inl rfl

theorem lsLocalFinished_outs (s : EngineState) :
    (lsLocalFinished s).2 = [] ∨ (lsLocalFinished s).2 = [Out.localFinished] := by
  unfold lsLocalFinished
  split
  · exact Or.inr rfl
  · exact Or.inl rfl

theorem acSrflx_added (s : EngineState) (h : Nat) (lt : LocalTransport) (a : Int) :
    ∀ d, Out.candidateAdded d ∈ (acSrflx s h lt a).2 →
      (∃ i2 cs, d = extCandidate s.id cs i2 a)
      ∨ ∃ cs, d = srflxCandidate s.id cs h lt a := by
  intro d hd
  unfold acSrflx at hd
  split at hd
  · dsimp only at hd
    rcases List.mem_append.1 hd with hd | hd
    · obtain ⟨⟨i2, _, _, _, cs, hds⟩, _⟩ :=
        (inheritLoop_spec s.id lt.serverReflexive.addr lt.localAddress a
          s.udpTransports s.localCandidates).2 d hd
      exact Or.inl ⟨_, cs, hds⟩
    · rcases store_outs
          ((inheritLoop s.id lt.serverReflexive.addr lt.localAddress a
            s.udpTransports s.localCandidates).2.1)
          (srflxCandidate s.id
            ((inheritLoop s.id lt.serverReflexive.addr lt.localAddress a
              s.udpTransports s.localCandidates).2.1) h lt a) with hs | hs <;>
        rw [hs] at hd
      · simp at hd
      · simp only [List.mem_singleton] at hd
        exact Or.inr ⟨_, Out.candidateAdded.inj hd⟩
  · split at hd <;> simp at hd

theorem acRelayed_added (s : EngineState) (h : Nat) (lt1 : LocalTransport) (a : Int) :
    ∀ d, Out.candidateAdded d ∈ (acRelayed s h lt1 a).2 →
      d = relayedCandidate s.id s.localCandidates h lt1 a := by
  intro d hd
  unfold acRelayed at hd
  split at hd
  · dsimp only at hd
    rcases store_outs s.localCandidates (relayedCandidate s.id s.localCandidates h lt1 a)
        with hs | hs <;> rw [hs] at hd
    · simp at hd
    · simp only [List.mem_singleton] at hd
      exact Out.candidateAdded.inj hd
  · split at hd <;> simp at hd

/-- Every candidateAdded output of any step carries one of the six candidate
constructions of the engine. -/
theorem step_added_shapes (s : EngineState) (e : Ev) :
    ∀ c, Out.candidateAdded c ∈ (step s e).2 →
      (∃ i cs h2 lt a, c = hostCandidate i cs h2 lt a)
      ∨ (∃ i cs lt a, c = extCandidate i cs lt a)
      ∨ (∃ i cs h2 lt a, c = srflxCandidate i cs h2 lt a)
      ∨ (∃ i cs h2 lt a, c = relayedCandidate i cs h2 lt a)
      ∨ (∃ i cs r f, c = ttCandidate i cs r f)
      ∨ (∃ cs a b p t, c = prflxCandidate cs a b p t) := by
  intro c hc
  cases e with
  | setLocalAddresses l => simp [step] at hc
  | setExternalAddresses l => simp [step] at hc
  | setStunBindService a => simp [step] at hc
  | setStunRelayUdpService a u p => simp [step] at hc
  | setStunRelayTcpService a u p => simp [step] at hc
  | update sockets =>
    simp only [step] at hc
    rw [update_outs] at hc
    split at hc <;> simp at hc
  | stop =>
    rcases stop_outs s (Out.candidateAdded c) hc with h | ⟨h2, h⟩ | h <;> simp at h
  | ltStarted h =>
    simp only [step] at hc
    unfold lt_started at hc
    split at hc
    · simp at hc
    · next lt0 heq =>
      unfold lt_started_core at hc
      have hc2 := withTryGC_added _ c hc
      dsimp only at hc2
      rcases List.mem_append.1 hc2 with hc2 | hc2
      · rcases List.mem_append.1 hc2 with hc2 | hc2
        · rcases List.mem_append.1 hc2 with hc2 | hc2
          · split at hc2 <;> simp at hc2
          · rcases lsUseLocal_added s h _ _ c hc2 with hv | hv
            · exact Or.inl ⟨_, _, _, _, _, hv⟩
            · exact Or.inr (Or.inl ⟨_, _, _, _, hv⟩)
        · rcases lsStun_outs s h _ with hv | hv <;> rw [hv] at hc2 <;> simp at hc2
      · rcases lsLocalFinished_outs _ with hv | hv <;> rw [hv] at hc2 <;> simp at hc2
  | ltAddressesChanged h srflx relayed sa ta =>
    simp only [step] at hc
    unfold lt_addressesChanged at hc
    split at hc
    · simp at hc
    · next lt0 heq =>
      dsimp only at hc
      unfold lt_addressesChanged_core at hc
      have hc2 := withTryGC_added _ c hc
      dsimp only at hc2
      rcases List.mem_append.1 hc2 with hc2 | hc2
      · rcases List.mem_append.1 hc2 with hc2 | hc2
        · split at hc2 <;> simp at hc2
        · rcases acSrflx_added _ h _ _ c hc2 with ⟨i2, cs, hv⟩ | ⟨cs, hv⟩
          · exact Or.inr (Or.inl ⟨_, _, _, _, hv⟩)
          · exact Or.inr (Or.inr (Or.inl ⟨_, _, _, _, _, hv⟩))
      · exact Or.inr (Or.inr (Or.inr (Or.inl ⟨_, _, _, _, _,
          acRelayed_added _ h _ _ c hc2⟩)))
  | ltError h k =>
    simp only [step] at hc
    unfold lt_error at hc
    split at hc
    · simp at hc
    · cases k with
      | stun =>
        have hc2 := withTryGC_added _ c hc
        simp at hc2
      | turn =>
        have hc2 := withTryGC_added _ c hc
        simp at hc2
      | other =>
        have hc2 := withTryGC_added _ c hc
        unfold eraseLocalTransport at hc2
        dsimp only at hc2
        rcases List.mem_append.1 hc2 with hc2 | hc2
        · obtain ⟨d, hd, _⟩ := rlc_outs _ _ _ _ hc2
          simp at hd
        · split at hc2 <;> simp at hc2
  | ltStopped h =>
    simp only [step] at hc
    unfold lt_stopped at hc
    split at hc
    · simp at hc
    · dsimp only at hc
      rcases List.mem_append.1 hc with hc | hc
      · unfold eraseLocalTransport at hc
        dsimp only at hc
        rcases List.mem_append.1 hc with hc | hc
        · obtain ⟨d, hd, _⟩ := rlc_outs _ _ _ _ hc
          simp at hd
        · split at hc <;> simp at hc
      · rcases tryStopped_outs _ with hv | hv <;> rw [hv] at hc <;> simp at hc
  | ttStarted r f =>
    simp only [step] at hc
    unfold tt_started at hc
    split at hc
    · simp at hc
    · have hc2 := withTryGC_added _ c hc
      dsimp only at hc2
      simp only [List.mem_singleton, Out.candidateAdded.injEq] at hc2
      exact Or.inr (Or.inr (Or.inr (Or.inr (Or.inl ⟨_, _, _, _, hc2⟩))))
  | ttStopped =>
    simp only [step] at hc
    unfold tt_stopped at hc
    split at hc
    · simp at hc
    · dsimp only at hc
      rcases List.mem_append.1 hc with hc | hc
      · obtain ⟨d, hd, _⟩ := rlc_outs _ _ _ _ hc
        simp at hd
      · rcases tryStopped_outs _ with hv | hv <;> rw [hv] at hc <;> simp at hc
  | ttError =>
    simp only [step] at hc
    unfold tt_error at hc
    split at hc
    · simp at hc
    · have hc2 := withTryGC_added _ c hc
      dsimp only at hc2
      obtain ⟨d, hd, _⟩ := rlc_outs _ _ _ _ hc2
      simp at hd
  | flagPathAsLowOverhead cid a =>
    simp only [step] at hc
    unfold flagPathAsLowOverhead at hc
    split at hc
    · simp at hc
    · dsimp only at hc
      split at hc <;> simp at hc
  | addLocalPeerReflexiveCandidate a b p =>
    simp only [step] at hc
    unfold addLocalPeerReflexiveCandidate at hc
    split at hc
    · simp at hc
    · dsimp only at hc
      simp only [List.mem_singleton, Out.candidateAdded.injEq] at hc
      exact Or.inr (Or.inr (Or.inr (Or.inr (Or.inr ⟨_, _, _, _, _, hc⟩))))
  | runDeferred =>
    simp only [step] at hc
    unfold runDeferred at hc
    split at hc
    · simp at hc
    · next d rest heq =>
      cases d <;> dsimp only at hc
      case emitLocalFinished => simp at hc
      case tryGatheringComplete =>
        rcases tryGC_outs _ with hv | hv <;> rw [hv] at hc <;> simp at hc
      case postStop => simp [postStop] at hc
      case doExt =>
        unfold doExt at hc
        split at hc
        · simp at hc
        · dsimp only at hc
          rcases doExtLoop_outs _ _ _ _ (Out.candidateAdded c) hc
            with hv | ⟨lt2, cs, _, _, hv⟩
          · simp at hv
          · exact Or.inr (Or.inl ⟨_, _, _, _, Out.candidateAdded.inj hv⟩)

/-! ## C6: the shape of Relayed candidates -/

/-- The fields of a transport entry that identify it and feed candidate
construction: handle, configured address, vpn flag, server-reflexive address,
relayed address. -/
def keyFields (x : LocalTransport) :
    Nat × HostAddress × Bool × TransportAddress × TransportAddress :=
  (x.handle, x.addr, x.isVpn, x.serverReflexive, x.relayed)

theorem ensureExt_keyFields (i : Int) (cands : List Candidate) (lt : LocalTransport)
    (a : Int) : keyFields (ensureExt i cands lt a).1 = keyFields lt := by
  unfold ensureExt
  split <;> rfl

theorem inheritLoop_keyFields (i : Int) (e : HostAddress) (t : TransportAddress)
    (a : Int) (lts : List LocalTransport) (cands : List Candidate) :
    ∀ x ∈ (inheritLoop i e t a lts cands).1, ∃ y ∈ lts, keyFields x = keyFields y := by
  induction lts generalizing cands with
  | nil => intro x hx; simp [inheritLoop] at hx
  | cons z rest ih =>
    intro x hx
    unfold inheritLoop at hx
    split at hx
    · split at hx
      · dsimp only at hx
        rcases List.mem_cons.1 hx with hx | hx
        · refine ⟨z, List.mem_cons_self _ _, ?_⟩
          rw [hx, ensureExt_keyFields]
          rfl
        · obtain ⟨y, hy, he⟩ := ih _ x hx
          exact ⟨y, List.mem_cons_of_mem _ hy, he⟩
      · dsimp only at hx
        rcases List.mem_cons.1 hx with hx | hx
        · exact ⟨z, List.mem_cons_self _ _, by rw [hx]; rfl⟩
        · obtain ⟨y, hy, he⟩ := ih _ x hx
          exact ⟨y, List.mem_cons_of_mem _ hy, he⟩
    · dsimp only at hx
      rcases List.mem_cons.1 hx with hx | hx
      · exact ⟨z, List.mem_cons_self _ _, by rw [hx]⟩
      · obtain ⟨y, hy, he⟩ := ih _ x hx
        exact ⟨y, List.mem_cons_of_mem _ hy, he⟩

theorem setLT_keyFields (lts : List LocalTransport) (h : Nat)
    (f : LocalTransport → LocalTransport) (hf : ∀ y, keyFields (f y) = keyFields y) :
    ∀ x ∈ setLT lts h f, ∃ y ∈ lts, keyFields x = keyFields y := by
  intro x hx
  obtain ⟨y, hy, he⟩ := List.mem_map.1 hx
  refine ⟨y, hy, ?_⟩
  rw [← he]
  by_cases hh : y.handle = h
  · rw [if_pos hh, hf]
  · rw [if_neg hh]

theorem acSrflx_keyFields (s : EngineState) (h : Nat) (lt : LocalTransport) (a : Int) :
    ∀ x ∈ (acSrflx s h lt a).1.udpTransports,
      ∃ y ∈ s.udpTransports, keyFields x = keyFields y := by
  unfold acSrflx
  split
  · dsimp only
    intro x hx
    obtain ⟨y, hy, he⟩ := setLT_keyFields _ h
      (fun z => { z with stun_finished := true }) (fun y => rfl) x hx
    obtain ⟨z, hz, he2⟩ := inheritLoop_keyFields _ _ _ _ _ _ y hy
    exact ⟨z, hz, he.trans he2⟩
  · split <;> dsimp only
    · intro x hx
      exact setLT_keyFields _ h
        (fun z => { z with stun_finished := true }) (fun y => rfl) x hx
    · intro x hx
      exact ⟨x, hx, rfl⟩

/-- Every transport entry with the sender's handle carries the event's
addresses (and the sender's configured address and vpn flag) after the
write-back survives the srflx branch. -/
theorem acSrflx_handle_addrs (s : EngineState) (h : Nat)
    (ltU ltB : LocalTransport) (a : Int)
    (hU : ltU.handle = h) :
    ∀ x ∈ (acSrflx (acWriteBack s h ltU) h ltB a).1.udpTransports,
      x.handle = h →
      x.serverReflexive = ltU.serverReflexive ∧ x.relayed = ltU.relayed
        ∧ x.isVpn = ltU.isVpn ∧ x.addr = ltU.addr := by
  intro x hx hxh
  obtain ⟨y, hy, he⟩ := acSrflx_keyFields (acWriteBack s h ltU) h ltB a x hx
  obtain ⟨z, hz, hze⟩ := List.mem_map.1 hy
  have hkey : keyFields x = keyFields y := he
  have hyh : y.handle = h := by
    have := congrArg Prod.fst hkey
    simpa [keyFields, hxh] using this.symm
  by_cases hzz : z.handle = h
  · rw [if_pos hzz] at hze
    rw [← hze] at hkey
    exact ⟨congrArg (fun p => p.2.2.2.1) hkey, congrArg (fun p => p.2.2.2.2) hkey,
      congrArg (fun p => p.2.2.1) hkey, congrArg (fun p => p.2.1) hkey⟩
  · rw [if_neg hzz] at hze
    rw [← hze] at hyh
    exact absurd hyh hzz

/-- C6: every Relayed candidate the engine emits has base equal to its own
relayed address; one backed by a C1 (UDP) transport has path 1, one backed by
the TCP-TURN transport has path 0; and in the addressesChanged step the Relayed
candidate's addr is the transport's relayed address and its related is the
transport's server-reflexive address as known at that moment. -/
theorem relayed_candidate_shape :
    (∀ (s : EngineState) (e : Ev) (c : Candidate),
        Out.candidateAdded c ∈ (step s e).2 →
        c.info.type = CandidateType.relayed →
        c.info.base = c.info.addr
        ∧ (c.iceTransport = .tcpTurnT → c.path = 0)
        ∧ (∀ h2, c.iceTransport = .localT h2 → c.path = 1))
  ∧ (∀ (s : EngineState) (h : Nat) (srflx relayed : TransportAddress)
        (sa ta : Bool) (c : Candidate),
        Out.candidateAdded c ∈ (step s (.ltAddressesChanged h srflx relayed sa ta)).2 →
        c.info.type = CandidateType.relayed →
        c.info.related = srflx ∧ c.info.addr = relayed ∧ c.info.base = relayed
        ∧ c.path = 1 ∧ c.iceTransport = .localT h) := by
  constructor
  · intro s e c hc htype
    rcases step_added_shapes s e c hc with
      ⟨i, cs, h2, lt, a, hv⟩ | ⟨i, cs, lt, a, hv⟩ | ⟨i, cs, h2, lt, a, hv⟩ |
      ⟨i, cs, h2, lt, a, hv⟩ | ⟨i, cs, r, f, hv⟩ | ⟨cs, a, b, p, t, hv⟩
    · rw [hv] at htype
      simp [hostCandidate] at htype
    · rw [hv] at htype
      simp [extCandidate] at htype
    · rw [hv] at htype
      simp [srflxCandidate] at htype
    · subst hv
      refine ⟨rfl, ?_, ?_⟩
      · intro ht
        simp [relayedCandidate] at ht
      · intro h3 ht
        rfl
    · subst hv
      refine ⟨rfl, fun ht => rfl, ?_⟩
      intro h3 ht
      simp [ttCandidate] at ht
    · rw [hv] at htype
      simp [prflxCandidate] at htype
  · intro s h srflx relayedP sa ta c hc htype
    simp only [step] at hc
    unfold lt_addressesChanged at hc
    split at hc
    · simp at hc
    · next lt0 heq =>
      dsimp only at hc
      unfold lt_addressesChanged_core at hc
      have hc2 := withTryGC_added _ c hc
      dsimp only at hc2
      rcases List.mem_append.1 hc2 with hc2 | hc2
      · rcases List.mem_append.1 hc2 with hc2 | hc2
        · split at hc2 <;> simp at hc2
        · rcases acSrflx_added _ h _ _ c hc2 with ⟨i2, cs, hv⟩ | ⟨cs, hv⟩
          · rw [hv] at htype
            simp [extCandidate] at htype
          · rw [hv] at htype
            simp [srflxCandidate] at htype
      · have hv := acRelayed_added _ h _ _ c hc2
        subst hv
        set ltU := acUpdateLT srflx relayedP sa ta lt0 with hltU
        have hUh : ltU.handle = lt0.handle := rfl
        have hfind0 : lt0.handle = h := by
          have := List.find?_some heq
          simpa using this
        have haddr :
            ((findLT (acSrflx (acWriteBack s h ltU) h ltU
                ((acWriteBack s h ltU).findLocalAddr ltU.addr)).1.udpTransports h).getD
              ltU).serverReflexive = ltU.serverReflexive
          ∧ ((findLT (acSrflx (acWriteBack s h ltU) h ltU
                ((acWriteBack s h ltU).findLocalAddr ltU.addr)).1.udpTransports h).getD
              ltU).relayed = ltU.relayed := by
          cases hf : findLT (acSrflx (acWriteBack s h ltU) h ltU
              ((acWriteBack s h ltU).findLocalAddr ltU.addr)).1.udpTransports h with
          | none => exact ⟨rfl, rfl⟩
          | some x =>
            have hxmem := List.mem_of_find?_eq_some hf
            have hxh : x.handle = h := by
              have := List.find?_some hf
              simpa using this
            have := acSrflx_handle_addrs s h ltU ltU
              ((acWriteBack s h ltU).findLocalAddr ltU.addr)
              (hUh.trans hfind0) x hxmem hxh
            exact ⟨this.1, this.2.1⟩
        exact ⟨haddr.1.trans rfl, haddr.2.trans rfl, haddr.2.trans rfl, rfl, rfl⟩

/-- C6 witness state: STUN bind and relay configured, transport started. -/
def sC6 : EngineState :=
  (runFrom (initState 1)
    [.setStunBindService ⟨.ip4 9, 3478⟩,
     .setStunRelayUdpService ⟨.ip4 9, 3478⟩ "u" "p",
     .setLocalAddresses [laW], .update skW, .ltStarted 0]).1

/-- The Relayed candidate the C6 witness event emits. -/
def relC6 : Candidate :=
  { id := 3
    info := { addr := ⟨.ip4 50, 50000⟩, base := ⟨.ip4 50, 50000⟩,
              related := ⟨.ip4 203, 40001⟩, type := .relayed, priority := 16777215,
              componentId := 1, network := 1 }
    iceTransport := .localT 0, path := 1 }

/-- Witness for relayed_candidate_shape at a concrete input. -/
theorem relayed_candidate_shape_witness :
    relC6.info.related = ⟨.ip4 203, 40001⟩ ∧ relC6.info.addr = ⟨.ip4 50, 50000⟩
    ∧ relC6.info.base = ⟨.ip4 50, 50000⟩ ∧ relC6.path = 1
    ∧ relC6.iceTransport = .localT 0 :=
  relayed_candidate_shape.2 sC6 0 ⟨.ip4 203, 40001⟩ ⟨.ip4 50, 50000⟩ true true relC6
    (by decide) (by decide)

/-! ## C3: the priority formula -/

/-- The priority formula as the spec states it (§4.3.4): type preference 126
for a non-VPN host, 0 for a VPN host, 110 for peer-reflexive, 100 for
server-reflexive, 0 for relayed. -/
def spec_priority (t : CandidateType) (isVpn : Bool) (localPref componentId : Int) : Int :=
  let typePref : Int :=
    match t with
    | .host => if isVpn then 0 else 126
    | .peerReflexive => 110
    | .serverReflexive => 100
    | .relayed => 0
  2 ^ 24 * typePref + 2 ^ 8 * localPref + (256 - componentId)

/-- The spec formula coincides with the code's choose_default_priority. -/
theorem spec_priority_eq_code (t : CandidateType) (v : Bool) (lp cid : Int) :
    spec_priority t v lp cid = choose_default_priority t lp v cid := by
  cases t <;> rfl

theorem acSrflx_id (s : EngineState) (h : Nat) (lt : LocalTransport) (a : Int) :
    (acSrflx s h lt a).1.id = s.id := by
  unfold acSrflx
  split
  · rfl
  · split <;> rfl

theorem acSrflx_added_rich (s : EngineState) (h : Nat) (lt : LocalTransport) (a : Int) :
    ∀ d, Out.candidateAdded d ∈ (acSrflx s h lt a).2 →
      (∃ i cs, i ∈ s.udpTransports ∧ i.localAddress = lt.localAddress
          ∧ d = extCandidate s.id cs { i with extAddr := lt.serverReflexive.addr } a)
      ∨ ∃ cs, d = srflxCandidate s.id cs h lt a := by
  intro d hd
  unfold acSrflx at hd
  split at hd
  · dsimp only at hd
    rcases List.mem_append.1 hd with hd | hd
    · obtain ⟨⟨i, hi, _, hloc, cs, hds⟩, _⟩ :=
        (inheritLoop_spec s.id lt.serverReflexive.addr lt.localAddress a
          s.udpTransports s.localCandidates).2 d hd
      exact Or.inl ⟨i, cs, hi, hloc, hds⟩
    · rcases store_outs
          ((inheritLoop s.id lt.serverReflexive.addr lt.localAddress a
            s.udpTransports s.localCandidates).2.1)
          (srflxCandidate s.id
            ((inheritLoop s.id lt.serverReflexive.addr lt.localAddress a
              s.udpTransports s.localCandidates).2.1) h lt a) with hs | hs <;>
        rw [hs] at hd
      · simp at hd
      · simp only [List.mem_singleton] at hd
        exact Or.inr ⟨_, Out.candidateAdded.inj hd⟩
  · split at hd <;> simp at hd

/-- C3: every Host, ServerReflexive, or Relayed candidate the engine emits has
priority equal to the spec formula 2^24·type_pref + 2^8·local_pref +
(256 − component_id), where local_pref is 65535 minus the backing transport's
position in the active local-address list, with the TCP-TURN transport using
position 1024 and the vpn flag taken from the backing transport.  The state is
assumed to have pairwise distinct bound local addresses (an invariant of real
runs, since update skips duplicate local addresses). -/
theorem priority_formula (s : EngineState) (e : Ev) (c : Candidate)
    (hdist : ∀ x ∈ s.udpTransports, ∀ y ∈ s.udpTransports,
        x.localAddress = y.localAddress → x = y)
    (hc : Out.candidateAdded c ∈ (step s e).2)
    (htype : c.info.type = CandidateType.host
      ∨ c.info.type = CandidateType.serverReflexive
      ∨ c.info.type = CandidateType.relayed) :
    (c.iceTransport = .tcpTurnT →
        c.info.priority = spec_priority c.info.type false (65535 - 1024) s.id)
    ∧ (∀ h2, c.iceTransport = .localT h2 →
        ∃ lt, lt ∈ s.udpTransports ∧ lt.handle = h2
          ∧ c.info.priority
              = spec_priority c.info.type lt.isVpn
                  (65535 - s.findLocalAddr lt.addr) s.id) := by
  cases e with
  | setLocalAddresses l => simp [step] at hc
  | setExternalAddresses l => simp [step] at hc
  | setStunBindService a => simp [step] at hc
  | setStunRelayUdpService a u p => simp [step] at hc
  | setStunRelayTcpService a u p => simp [step] at hc
  | update sockets =>
    simp only [step] at hc
    rw [update_outs] at hc
    split at hc <;> simp at hc
  | stop =>
    rcases stop_outs s (Out.candidateAdded c) hc with hv | ⟨h2, hv⟩ | hv <;> simp at hv
  | ltStarted h =>
    simp only [step] at hc
    unfold lt_started at hc
    split at hc
    · simp at hc
    · next lt0 heq =>
      have hmem0 : lt0 ∈ s.udpTransports := List.mem_of_find?_eq_some heq
      have hh0 : lt0.handle = h := by
        have := List.find?_some heq
        simpa using this
      unfold lt_started_core at hc
      have hc2 := withTryGC_added _ c hc
      dsimp only at hc2
      rcases List.mem_append.1 hc2 with hc2 | hc2
      · rcases List.mem_append.1 hc2 with hc2 | hc2
        · rcases List.mem_append.1 hc2 with hc2 | hc2
          · split at hc2 <;> simp at hc2
          · rcases lsUseLocal_added s h _ _ c hc2 with hv | hv
            · subst hv
              constructor
              · intro ht
                simp [hostCandidate] at ht
              · intro h2 ht
                simp only [hostCandidate, TransportRef.localT.injEq] at ht
                refine ⟨lt0, hmem0, hh0.trans ht, ?_⟩
                rw [spec_priority_eq_code]
                rfl
            · subst hv
              constructor
              · intro ht
                simp [extCandidate] at ht
              · intro h2 ht
                simp only [extCandidate, TransportRef.localT.injEq] at ht
                refine ⟨lt0, hmem0, ht, ?_⟩
                rw [spec_priority_eq_code]
                rfl
        · rcases lsStun_outs s h _ with hv | hv <;> rw [hv] at hc2 <;> simp at hc2
      · rcases lsLocalFinished_outs _ with hv | hv <;> rw [hv] at hc2 <;> simp at hc2
  | ltAddressesChanged h srflx relayedP sa ta =>
    simp only [step] at hc
    unfold lt_addressesChanged at hc
    split at hc
    · simp at hc
    · next lt0 heq =>
      have hmem0 : lt0 ∈ s.udpTransports := List.mem_of_find?_eq_some heq
      have hh0 : lt0.handle = h := by
        have := List.find?_some heq
        simpa using this
      dsimp only at hc
      unfold lt_addressesChanged_core at hc
      have hc2 := withTryGC_added _ c hc
      dsimp only at hc2
      rcases List.mem_append.1 hc2 with hc2 | hc2
      · rcases List.mem_append.1 hc2 with hc2 | hc2
        · split at hc2 <;> simp at hc2
        · rcases acSrflx_added_rich _ h _ _ c hc2 with ⟨i, cs, hiW, hloc, hv⟩ | ⟨cs, hv⟩
          · obtain ⟨z, hz, hze⟩ := List.mem_map.1 hiW
            dsimp only at hze
            have hH : i.handle = lt0.handle := by
              by_cases hzz : z.handle = h
              · rw [if_pos hzz] at hze
                rw [← hze]
                rfl
              · rw [if_neg hzz] at hze
                have hzeq : z = lt0 := by
                  apply hdist z hz lt0 hmem0
                  rw [hze]
                  exact hloc
                rw [← hze, hzeq]
            subst hv
            constructor
            · intro ht
              simp [extCandidate] at ht
            · intro h2 ht
              simp only [extCandidate, TransportRef.localT.injEq] at ht
              rw [hH] at ht
              refine ⟨lt0, hmem0, ht, ?_⟩
              rw [spec_priority_eq_code]
              rfl
          · subst hv
            constructor
            · intro ht
              simp [srflxCandidate] at ht
            · intro h2 ht
              simp only [srflxCandidate, TransportRef.localT.injEq] at ht
              refine ⟨lt0, hmem0, hh0.trans ht, ?_⟩
              rw [spec_priority_eq_code]
              rfl
      · have hv := acRelayed_added _ h _ _ c hc2
        subst hv
        constructor
        · intro ht
          simp [relayedCandidate] at ht
        · intro h2 ht
          simp only [relayedCandidate, TransportRef.localT.injEq] at ht
          refine ⟨lt0, hmem0, hh0.trans ht, ?_⟩
          rw [spec_priority_eq_code, acSrflx_id]
          rfl
  | ltError h k =>
    simp only [step] at hc
    unfold lt_error at hc
    split at hc
    · simp at hc
    · cases k with
      | stun =>
        have hc2 := withTryGC_added _ c hc
        simp at hc2
      | turn =>
        have hc2 := withTryGC_added _ c hc
        simp at hc2
      | other =>
        have hc2 := withTryGC_added _ c hc
        unfold eraseLocalTransport at hc2
        dsimp only at hc2
        rcases List.mem_append.1 hc2 with hc2 | hc2
        · obtain ⟨d, hd, _⟩ := rlc_outs _ _ _ _ hc2
          simp at hd
        · split at hc2 <;> simp at hc2
  | ltStopped h =>
    simp only [step] at hc
    unfold lt_stopped at hc
    split at hc
    · simp at hc
    · dsimp only at hc
      rcases List.mem_append.1 hc with hc | hc
      · unfold eraseLocalTransport at hc
        dsimp only at hc
        rcases List.mem_append.1 hc with hc | hc
        · obtain ⟨d, hd, _⟩ := rlc_outs _ _ _ _ hc
          simp at hd
        · split at hc <;> simp at hc
      · rcases tryStopped_outs _ with hv | hv <;> rw [hv] at hc <;> simp at hc
  | ttStarted r f =>
    simp only [step] at hc
    unfold tt_started at hc
    split at hc
    · simp at hc
    · have hc2 := withTryGC_added _ c hc
      dsimp only at hc2
      simp only [List.mem_singleton, Out.candidateAdded.injEq] at hc2
      subst hc2
      constructor
      · intro ht
        rw [spec_priority_eq_code]
        rfl
      · intro h2 ht
        simp [ttCandidate] at ht
  | ttStopped =>
    simp only [step] at hc
    unfold tt_stopped at hc
    split at hc
    · simp at hc
    · dsimp only at hc
      rcases List.mem_append.1 hc with hc | hc
      · obtain ⟨d, hd, _⟩ := rlc_outs _ _ _ _ hc
        simp at hd
      · rcases tryStopped_outs _ with hv | hv <;> rw [hv] at hc <;> simp at hc
  | ttError =>
    simp only [step] at hc
    unfold tt_error at hc
    split at hc
    · simp at hc
    · have hc2 := withTryGC_added _ c hc
      dsimp only at hc2
      obtain ⟨d, hd, _⟩ := rlc_outs _ _ _ _ hc2
      simp at hd
  | flagPathAsLowOverhead cid a =>
    simp only [step] at hc
    unfold flagPathAsLowOverhead at hc
    split at hc
    · simp at hc
    · dsimp only at hc
      split at hc <;> simp at hc
  | addLocalPeerReflexiveCandidate a b p =>
    simp only [step] at hc
    unfold addLocalPeerReflexiveCandidate at hc
    split at hc
    · simp at hc
    · dsimp only at hc
      simp only [List.mem_singleton, Out.candidateAdded.injEq] at hc
      subst hc
      rcases htype with ht | ht | ht <;> simp [prflxCandidate] at ht
  | runDeferred =>
    simp only [step] at hc
    unfold runDeferred at hc
    split at hc
    · simp at hc
    · next d rest heq =>
      cases d <;> dsimp only at hc
      case emitLocalFinished => simp at hc
      case tryGatheringComplete =>
        rcases tryGC_outs _ with hv | hv <;> rw [hv] at hc <;> simp at hc
      case postStop => simp [postStop] at hc
      case doExt =>
        unfold doExt at hc
        split at hc
        · simp at hc
        · dsimp only at hc
          rcases doExtLoop_outs _ _ _ _ (Out.candidateAdded c) hc
            with hv | ⟨lt2, cs, hmem2, hst2, hv⟩
          · simp at hv
          · have hv2 := Out.candidateAdded.inj hv
            subst hv2
            constructor
            · intro ht
              simp [extCandidate] at ht
            · intro h2 ht
              simp only [extCandidate, TransportRef.localT.injEq] at ht
              refine ⟨lt2, hmem2, ht, ?_⟩
              rw [spec_priority_eq_code]
              rfl

/-- Witness for priority_formula at a concrete input. -/
theorem priority_formula_witness :
    ∃ lt, lt ∈ sC5.udpTransports ∧ lt.handle = 0
      ∧ hostW.info.priority
          = spec_priority hostW.info.type lt.isVpn
              (65535 - sC5.findLocalAddr lt.addr) sC5.id :=
  (priority_formula sC5 (.ltStarted 0) hostW (by decide) (by decide)
    (Or.inl (by decide))).2 0 (by decide)

/-! ## C9: channelPeers bookkeeping lemmas -/

theorem cpLookup_nil (k : Nat) : cpLookup [] k = [] := rfl

theorem cpLookup_cons_eq (p : Nat × List TransportAddress)
    (L : List (Nat × List TransportAddress)) (k : Nat) (hpk : p.1 = k) :
    cpLookup (p :: L) k = p.2 := by
  unfold cpLookup
  rw [List.find?_cons_of_pos]
  simp [hpk]

theorem cpLookup_cons_ne (p : Nat × List TransportAddress)
    (L : List (Nat × List TransportAddress)) (k : Nat) (hpk : ¬p.1 = k) :
    cpLookup (p :: L) k = cpLookup L k := by
  unfold cpLookup
  rw [List.find?_cons_of_neg]
  simp [hpk]

theorem cpHas_cons (p : Nat × List TransportAddress)
    (L : List (Nat × List TransportAddress)) (k : Nat) :
    cpHas (p :: L) k = (decide (p.1 = k) || cpHas L k) := by
  unfold cpHas
  simp [List.any_cons]

theorem cpRemove_lookup (m : List (Nat × List TransportAddress)) (i k : Nat) :
    cpLookup (cpRemove m i) k = if k = i then [] else cpLookup m k := by
  induction m with
  | nil =>
    unfold cpRemove
    simp only [List.filter_nil]
    split <;> rfl
  | cons p rest ih =>
    by_cases hpi : p.1 = i
    · have h1 : cpRemove (p :: rest) i = cpRemove rest i := by
        simp [cpRemove, hpi]
      by_cases hki : k = i
      · rw [h1, ih, if_pos hki, if_pos hki]
      · have hpk : ¬p.1 = k := fun hh => hki ((hh.symm.trans hpi))
        rw [h1, ih, if_neg hki, if_neg hki, cpLookup_cons_ne p rest k hpk]
    · have h1 : cpRemove (p :: rest) i = p :: cpRemove rest i := by
        simp [cpRemove, hpi]
      by_cases hpk : p.1 = k
      · have hki : ¬k = i := fun hh => hpi (hpk.trans hh)
        rw [h1, cpLookup_cons_eq p _ k hpk, if_neg hki, cpLookup_cons_eq p rest k hpk]
      · rw [h1, cpLookup_cons_ne p _ k hpk, ih, cpLookup_cons_ne p rest k hpk]

theorem cpRemove_has (m : List (Nat × List TransportAddress)) (i k : Nat) :
    cpHas (cpRemove m i) k = (!decide (k = i) && cpHas m k) := by
  induction m with
  | nil =>
    unfold cpRemove cpHas
    simp
  | cons p rest ih =>
    by_cases hpi : p.1 = i
    · have h1 : cpRemove (p :: rest) i = cpRemove rest i := by
        simp [cpRemove, hpi]
      by_cases hki : k = i
      · rw [h1, ih]
        simp [hki]
      · have hpk : ¬p.1 = k := fun hh => hki ((hh.symm.trans hpi))
        rw [h1, ih, cpHas_cons]
        simp [hpk]
    · have h1 : cpRemove (p :: rest) i = p :: cpRemove rest i := by
        simp [cpRemove, hpi]
      rw [h1, cpHas_cons, cpHas_cons, ih]
      by_cases hpk : p.1 = k
      · have hki : ¬k = i := fun hh => hpi (hpk.trans hh)
        simp [hpk, hki]
      · simp [hpk]

theorem cpLookup_append_empty (m : List (Nat × List TransportAddress)) (k j : Nat) :
    cpLookup (m ++ [(k, [])]) j = cpLookup m j := by
  induction m with
  | nil =>
    by_cases hjk : k = j
    · rw [List.nil_append, cpLookup_cons_eq _ _ j hjk]
      rfl
    · rw [List.nil_append, cpLookup_cons_ne _ _ j hjk]
  | cons p rest ih =>
    by_cases hpj : p.1 = j
    · rw [List.cons_append, cpLookup_cons_eq _ _ j hpj, cpLookup_cons_eq _ _ j hpj]
    · rw [List.cons_append, cpLookup_cons_ne _ _ j hpj, cpLookup_cons_ne _ _ j hpj, ih]

theorem cpEnsure_lookup (m : List (Nat × List TransportAddress)) (k j : Nat) :
    cpLookup (cpEnsure m k) j = cpLookup m j := by
  unfold cpEnsure
  split
  · rfl
  · exact cpLookup_append_empty m k j

theorem cpEnsure_has_of (m : List (Nat × List TransportAddress)) (k j : Nat)
    (hj : cpHas m j = true) : cpHas (cpEnsure m k) j = true := by
  unfold cpEnsure
  split
  · exact hj
  · unfold cpHas at hj ⊢
    rw [List.any_append, hj]
    rfl

theorem cpMap_lookup_self (m : List (Nat × List TransportAddress)) (k : Nat)
    (v : List TransportAddress) (hhas : cpHas m k = true) :
    cpLookup (m.map (fun p => if p.1 = k then (k, v) else p)) k = v := by
  induction m with
  | nil => simp [cpHas] at hhas
  | cons q rest ih =>
    rw [cpHas_cons] at hhas
    simp only [List.map_cons]
    by_cases hqk : q.1 = k
    · rw [if_pos hqk, cpLookup_cons_eq _ _ k rfl]
    · rw [if_neg hqk, cpLookup_cons_ne _ _ k hqk]
      apply ih
      simpa [hqk] using hhas

theorem cpMap_lookup_ne (m : List (Nat × List TransportAddress)) (k j : Nat)
    (v : List TransportAddress) (hjk : ¬j = k) :
    cpLookup (m.map (fun p => if p.1 = k then (k, v) else p)) j = cpLookup m j := by
  induction m with
  | nil => rfl
  | cons q rest ih =>
    simp only [List.map_cons]
    by_cases hqk : q.1 = k
    · rw [if_pos hqk]
      have h1 : ¬(k, v).1 = j := fun hh => hjk hh.symm
      have h2 : ¬q.1 = j := by
        rw [hqk]
        exact fun hh => hjk hh.symm
      rw [cpLookup_cons_ne _ _ j h1, cpLookup_cons_ne _ _ j h2, ih]
    · rw [if_neg hqk]
      by_cases hqj : q.1 = j
      · rw [cpLookup_cons_eq _ _ j hqj, cpLookup_cons_eq _ _ j hqj]
      · rw [cpLookup_cons_ne _ _ j hqj, cpLookup_cons_ne _ _ j hqj, ih]

theorem cpAppend_lookup_absent (m : List (Nat × List TransportAddress)) (k : Nat)
    (v : List TransportAddress) (hhas : cpHas m k = false) :
    cpLookup (m ++ [(k, v)]) k = v := by
  induction m with
  | nil => exact cpLookup_cons_eq _ _ k rfl
  | cons q rest ih =>
    rw [cpHas_cons] at hhas
    have hqk : ¬q.1 = k := by
      intro hh
      simp [hh] at hhas
    rw [List.cons_append, cpLookup_cons_ne _ _ k hqk]
    apply ih
    simpa [hqk] using hhas

theorem cpAppend_lookup_ne (m : List (Nat × List TransportAddress)) (k j : Nat)
    (v : List TransportAddress) (hjk : ¬j = k) :
    cpLookup (m ++ [(k, v)]) j = cpLookup m j := by
  induction m with
  | nil =>
    rw [List.nil_append]
    have h1 : ¬(k, v).1 = j := fun hh => hjk hh.symm
    rw [cpLookup_cons_ne _ _ j h1]
  | cons q rest ih =>
    by_cases hqj : q.1 = j
    · rw [List.cons_append, cpLookup_cons_eq _ _ j hqj, cpLookup_cons_eq _ _ j hqj]
    · rw [List.cons_append, cpLookup_cons_ne _ _ j hqj, cpLookup_cons_ne _ _ j hqj, ih]

theorem cpSet_lookup_self (m : List (Nat × List TransportAddress)) (k : Nat)
    (v : List TransportAddress) : cpLookup (cpSet m k v) k = v := by
  unfold cpSet
  split
  · next hhas => exact cpMap_lookup_self m k v hhas
  · next hhas => exact cpAppend_lookup_absent m k v (by simpa using hhas)

theorem cpSet_lookup_ne (m : List (Nat × List TransportAddress)) (k j : Nat)
    (v : List TransportAddress) (hjk : ¬j = k) :
    cpLookup (cpSet m k v) j = cpLookup m j := by
  unfold cpSet
  split
  · exact cpMap_lookup_ne m k j v hjk
  · exact cpAppend_lookup_ne m k j v hjk

theorem cpSet_has_of (m : List (Nat × List TransportAddress)) (k j : Nat)
    (v : List TransportAddress) (hj : cpHas m j = true) :
    cpHas (cpSet m k v) j = true := by
  unfold cpSet
  split
  · unfold cpHas at hj ⊢
    rw [List.any_map]
    obtain ⟨p, hp, hpk⟩ := List.any_eq_true.1 hj
    apply List.any_eq_true.2
    refine ⟨p, hp, ?_⟩
    simp only [Function.comp]
    split
    · next hpe =>
      simp only [decide_eq_true_eq] at hpk ⊢
      rw [← hpk, hpe]
    · exact hpk
  · unfold cpHas at hj ⊢
    rw [List.any_append, hj]
    rfl

theorem rlc_cps_lookup (tref : TransportRef) (cands : List Candidate) :
    ∀ cps k x, x ∈ cpLookup (removeLocalCandidates tref cands cps).2.1 k →
      x ∈ cpLookup cps k := by
  induction cands with
  | nil =>
    intro cps k x hx
    simpa [removeLocalCandidates] using hx
  | cons c rest ih =>
    intro cps k x hx
    unfold removeLocalCandidates at hx
    split at hx
    · dsimp only at hx
      have h1 := ih _ k x hx
      rw [show cps.filter (fun p => !decide (p.1 = c.id)) = cpRemove cps c.id from rfl,
        cpRemove_lookup] at h1
      by_cases hk : k = c.id
      · rw [if_pos hk] at h1
        exact absurd h1 (List.not_mem_nil x)
      · rw [if_neg hk] at h1
        exact h1
    · exact ih _ k x hx

theorem rlc_cps_has (tref : TransportRef) (cands : List Candidate) :
    ∀ cps k, cpHas (removeLocalCandidates tref cands cps).2.1 k = true →
      cpHas cps k = true := by
  induction cands with
  | nil =>
    intro cps k h
    simpa [removeLocalCandidates] using h
  | cons c rest ih =>
    intro cps k h
    unfold removeLocalCandidates at h
    split at h
    · dsimp only at h
      have h1 := ih _ k h
      rw [show cps.filter (fun p => !decide (p.1 = c.id)) = cpRemove cps c.id from rfl,
        cpRemove_has, Bool.and_eq_true] at h1
      exact h1.2
    · exact ih _ k h

theorem rlc_has_false (tref : TransportRef) (cands : List Candidate) :
    ∀ cps k, cpHas cps k = false →
      cpHas (removeLocalCandidates tref cands cps).2.1 k = false := by
  induction cands with
  | nil =>
    intro cps k h
    simpa [removeLocalCandidates] using h
  | cons c rest ih =>
    intro cps k h
    unfold removeLocalCandidates
    split
    · dsimp only
      apply ih
      rw [show cps.filter (fun p => !decide (p.1 = c.id)) = cpRemove cps c.id from rfl,
        cpRemove_has, h, Bool.and_false]
    · dsimp only
      exact ih cps k h

theorem rlc_removed_absent (tref : TransportRef) (cands : List Candidate) :
    ∀ cps d, Out.candidateRemoved d ∈ (removeLocalCandidates tref cands cps).2.2 →
      cpHas (removeLocalCandidates tref cands cps).2.1 d.id = false := by
  induction cands with
  | nil =>
    intro cps d h
    simp [removeLocalCandidates] at h
  | cons c rest ih =>
    intro cps d h
    unfold removeLocalCandidates at h ⊢
    split at h
    · next hct =>
      rw [if_pos hct]
      dsimp only at h ⊢
      rcases List.mem_cons.1 h with h | h
      · have hd : d = c := by injection h
        rw [hd]
        apply rlc_has_false
        rw [show cps.filter (fun p => !decide (p.1 = c.id)) = cpRemove cps c.id from rfl,
          cpRemove_has]
        simp
      · exact ih _ d h
    · next hct =>
      rw [if_neg hct]
      dsimp only at h ⊢
      exact ih cps d h

theorem rlc_deleted_removed (tref : TransportRef) (cands : List Candidate) :
    ∀ cps k, cpHas cps k = true →
      cpHas (removeLocalCandidates tref cands cps).2.1 k = false →
      ∃ d, Out.candidateRemoved d ∈ (removeLocalCandidates tref cands cps).2.2
        ∧ d.id = k := by
  induction cands with
  | nil =>
    intro cps k h1 h2
    rw [show (removeLocalCandidates tref [] cps).2.1 = cps from rfl, h1] at h2
    cases h2
  | cons c rest ih =>
    intro cps k h1 h2
    unfold removeLocalCandidates at h2 ⊢
    split at h2
    · next hct =>
      rw [if_pos hct]
      dsimp only at h2 ⊢
      by_cases hk : k = c.id
      · exact ⟨c, List.mem_cons_self _ _, hk.symm⟩
      · have h3 : cpHas (cpRemove cps c.id) k = true := by
          rw [cpRemove_has]
          simp [hk, h1]
        obtain ⟨d, hd1, hd2⟩ := ih _ k h3 h2
        exact ⟨d, List.mem_cons_of_mem _ hd1, hd2⟩
    · next hct =>
      rw [if_neg hct]
      dsimp only at h2 ⊢
      exact ih cps k h1 h2

theorem withTryGC_cps (p : EngineState × List Out) :
    (withTryGC p).1.channelPeers = p.1.channelPeers := by
  unfold withTryGC tryGatheringComplete
  dsimp only
  split
  · rfl
  · split <;> rfl

theorem withTryGC_removed (p : EngineState × List Out) :
    ∀ d, Out.candidateRemoved d ∈ (withTryGC p).2 → Out.candidateRemoved d ∈ p.2 := by
  intro d hd
  unfold withTryGC tryGatheringComplete at hd
  split at hd
  · simpa using hd
  · split at hd <;> simp only [List.mem_append] at hd <;>
      rcases hd with hd | hd <;> simp_all

theorem withTryGC_mem_left (p : EngineState × List Out) (o : Out) (ho : o ∈ p.2) :
    o ∈ (withTryGC p).2 := by
  unfold withTryGC
  exact List.mem_append_left _ ho

theorem update_cps (s : EngineState) (sockets : HostAddress → Option (Nat × Bool)) :
    (update s sockets).1.channelPeers = s.channelPeers := by
  show (updLf (updTcp (updExt (updInstall sockets
      { s with config := promoteStun s.pending s.config })))).channelPeers = _
  rw [(updLf_frame _).1, (updTcp_frame _).1, (updExt_frame _).1,
    (updInstall_frame _ _).1]

theorem stop_cps (s : EngineState) : (stop s).1.channelPeers = s.channelPeers := by
  unfold stop
  dsimp only
  split_ifs <;> rfl

theorem lsUseLocal_shape (s : EngineState) (h : Nat) (lt : LocalTransport) (a : Int) :
    ∀ o ∈ (lsUseLocal s h lt a).2.2, ∃ d, o = Out.candidateAdded d := by
  intro o ho
  unfold lsUseLocal at ho
  split at ho
  · dsimp only at ho
    rcases List.mem_cons.1 ho with ho | ho
    · exact ⟨_, ho⟩
    · rcases ensureExt_outs s.id
          (s.localCandidates ++ [hostCandidate s.id s.localCandidates h lt a]) lt a
        with he | he <;> rw [he] at ho
      · simp at ho
      · simp only [List.mem_singleton] at ho
        exact ⟨_, ho⟩
  · simp at ho

theorem lt_started_cps (s : EngineState) (h : Nat) :
    (lt_started s h).1.channelPeers = s.channelPeers := by
  unfold lt_started
  split
  · rfl
  · unfold lt_started_core
    dsimp only
    rw [withTryGC_cps]
    unfold lsLocalFinished
    dsimp only
    split <;> rfl

theorem lt_started_no_removed (s : EngineState) (h : Nat) :
    ∀ d, Out.candidateRemoved d ∉ (lt_started s h).2 := by
  intro d hd
  unfold lt_started at hd
  split at hd
  · simp at hd
  · unfold lt_started_core at hd
    dsimp only at hd
    have hd2 := withTryGC_removed _ _ hd
    simp only [List.mem_append] at hd2
    rcases hd2 with ((hd2 | hd2) | hd2) | hd2
    · split at hd2 <;> simp at hd2
    · obtain ⟨x, hx⟩ := lsUseLocal_shape _ _ _ _ _ hd2
      cases hx
    · rcases lsStun_outs _ _ _ with he | he <;> rw [he] at hd2 <;> simp at hd2
    · rcases lsLocalFinished_outs _ with he | he <;> rw [he] at hd2 <;> simp at hd2

theorem acSrflx_cps (s : EngineState) (h : Nat) (lt : LocalTransport) (a : Int) :
    (acSrflx s h lt a).1.channelPeers = s.channelPeers := by
  unfold acSrflx
  split
  · dsimp only
  · split <;> dsimp only

theorem acRelayed_cps (s : EngineState) (h : Nat) (lt1 : LocalTransport) (a : Int) :
    (acRelayed s h lt1 a).1.channelPeers = s.channelPeers := by
  unfold acRelayed
  split
  · dsimp only
  · split <;> dsimp only

theorem acSrflx_shape (s : EngineState) (h : Nat) (lt : LocalTransport) (a : Int) :
    ∀ o ∈ (acSrflx s h lt a).2, ∃ d, o = Out.candidateAdded d := by
  intro o ho
  unfold acSrflx at ho
  split at ho
  · dsimp only at ho
    rcases List.mem_append.1 ho with ho | ho
    · exact inheritLoop_outs _ _ _ _ _ _ o ho
    · rcases store_outs _ _ with he | he <;> rw [he] at ho
      · simp at ho
      · simp only [List.mem_singleton] at ho
        exact ⟨_, ho⟩
  · split at ho <;> simp at ho

theorem acRelayed_shape (s : EngineState) (h : Nat) (lt1 : LocalTransport) (a : Int) :
    ∀ o ∈ (acRelayed s h lt1 a).2, ∃ d, o = Out.candidateAdded d := by
  intro o ho
  unfold acRelayed at ho
  split at ho
  · dsimp only at ho
    rcases store_outs _ _ with he | he <;> rw [he] at ho
    · simp at ho
    · simp only [List.mem_singleton] at ho
      exact ⟨_, ho⟩
  · split at ho <;> simp at ho

theorem lt_addressesChanged_cps (s : EngineState) (h : Nat)
    (srflx relayed : TransportAddress) (sa ta : Bool) :
    (lt_addressesChanged s h srflx relayed sa ta).1.channelPeers = s.channelPeers := by
  unfold lt_addressesChanged
  split
  · rfl
  · unfold lt_addressesChanged_core
    dsimp only
    rw [withTryGC_cps, acRelayed_cps, acSrflx_cps]
    rfl

theorem lt_addressesChanged_no_removed (s : EngineState) (h : Nat)
    (srflx relayed : TransportAddress) (sa ta : Bool) :
    ∀ d, Out.candidateRemoved d ∉ (lt_addressesChanged s h srflx relayed sa ta).2 := by
  intro d hd
  unfold lt_addressesChanged at hd
  split at hd
  · simp at hd
  · unfold lt_addressesChanged_core at hd
    dsimp only at hd
    have hd2 := withTryGC_removed _ _ hd
    simp only [List.mem_append] at hd2
    rcases hd2 with (hd2 | hd2) | hd2
    · split at hd2 <;> simp at hd2
    · obtain ⟨x, hx⟩ := acSrflx_shape _ _ _ _ _ hd2
      cases hx
    · obtain ⟨x, hx⟩ := acRelayed_shape _ _ _ _ _ hd2
      cases hx

theorem tryStopped_cps (s : EngineState) :
    (tryStopped s).1.channelPeers = s.channelPeers := by
  unfold tryStopped postStop
  split <;> rfl

theorem tryGC_cps (s : EngineState) :
    (tryGatheringComplete s).1.channelPeers = s.channelPeers := by
  unfold tryGatheringComplete
  split
  · rfl
  · split <;> rfl

theorem doExt_cps (s : EngineState) :
    (doExt s).1.channelPeers = s.channelPeers := by
  unfold doExt
  split
  · rfl
  · dsimp only

theorem step_channelPeers (s : EngineState) (e : Ev) :
    ((step s e).1.channelPeers = s.channelPeers
      ∧ ∀ d, Out.candidateRemoved d ∉ (step s e).2)
  ∨ (∃ tref, (step s e).1.channelPeers
        = (removeLocalCandidates tref s.localCandidates s.channelPeers).2.1
      ∧ ∀ d, (Out.candidateRemoved d ∈ (step s e).2 ↔
          Out.candidateRemoved d
            ∈ (removeLocalCandidates tref s.localCandidates s.channelPeers).2.2))
  ∨ ((∃ cid a, e = Ev.flagPathAsLowOverhead cid a)
      ∧ (∀ k, cpHas s.channelPeers k = true →
          cpHas ((step s e).1.channelPeers) k = true)
      ∧ ∀ d, Out.candidateRemoved d ∉ (step s e).2) := by
  cases e with
  | setLocalAddresses l =>
    exact Or.inl ⟨rfl, fun d hd => by simp [step] at hd⟩
  | setExternalAddresses l =>
    exact Or.inl ⟨rfl, fun d hd => by simp [step] at hd⟩
  | setStunBindService a =>
    exact Or.inl ⟨rfl, fun d hd => by simp [step] at hd⟩
  | setStunRelayUdpService a u p =>
    exact Or.inl ⟨rfl, fun d hd => by simp [step] at hd⟩
  | setStunRelayTcpService a u p =>
    exact Or.inl ⟨rfl, fun d hd => by simp [step] at hd⟩
  | update sockets =>
    refine Or.inl ⟨update_cps s sockets, ?_⟩
    intro d hd
    have hd2 : Out.candidateRemoved d ∈ (update s sockets).2 := hd
    rw [update_outs] at hd2
    split at hd2 <;> simp at hd2
  | stop =>
    refine Or.inl ⟨stop_cps s, ?_⟩
    intro d hd
    rcases stop_outs s _ hd with h1 | ⟨hh, h1⟩ | h1 <;> simp at h1
  | ltStarted h =>
    exact Or.inl ⟨lt_started_cps s h, lt_started_no_removed s h⟩
  | ltAddressesChanged h srflx relayed sa ta =>
    exact Or.inl ⟨lt_addressesChanged_cps s h srflx relayed sa ta,
      lt_addressesChanged_no_removed s h srflx relayed sa ta⟩
  | ltError h k =>
    cases hf : findLT s.udpTransports h with
    | none =>
      refine Or.inl ⟨?_, ?_⟩
      · show (lt_error s h k).1.channelPeers = s.channelPeers
        unfold lt_error
        rw [hf]
      · intro d hd
        have hd2 : Out.candidateRemoved d ∈ (lt_error s h k).2 := hd
        unfold lt_error at hd2
        rw [hf] at hd2
        simp at hd2
    | some lt =>
      cases k with
      | stun =>
        refine Or.inl ⟨?_, ?_⟩
        · show (lt_error s h .stun).1.channelPeers = s.channelPeers
          unfold lt_error
          rw [hf]
          dsimp only
          rw [withTryGC_cps]
        · intro d hd
          have hd2 : Out.candidateRemoved d ∈ (lt_error s h .stun).2 := hd
          unfold lt_error at hd2
          rw [hf] at hd2
          dsimp only at hd2
          have h3 := withTryGC_removed _ _ hd2
          simp at h3
      | turn =>
        refine Or.inl ⟨?_, ?_⟩
        · show (lt_error s h .turn).1.channelPeers = s.channelPeers
          unfold lt_error
          rw [hf]
          dsimp only
          rw [withTryGC_cps]
        · intro d hd
          have hd2 : Out.candidateRemoved d ∈ (lt_error s h .turn).2 := hd
          unfold lt_error at hd2
          rw [hf] at hd2
          dsimp only at hd2
          have h3 := withTryGC_removed _ _ hd2
          simp at h3
      | other =>
        refine Or.inr (Or.inl ⟨.localT h, ?_, ?_⟩)
        · show (lt_error s h .other).1.channelPeers = _
          unfold lt_error
          rw [hf]
          dsimp only
          rw [withTryGC_cps]
          unfold eraseLocalTransport
          dsimp only
        · intro d
          constructor
          · intro hd
            have hd2 : Out.candidateRemoved d ∈ (lt_error s h .other).2 := hd
            unfold lt_error at hd2
            rw [hf] at hd2
            dsimp only at hd2
            have h3 := withTryGC_removed _ _ hd2
            unfold eraseLocalTransport at h3
            dsimp only at h3
            rcases List.mem_append.1 h3 with h3 | h3
            · exact h3
            · split at h3 <;> simp at h3
          · intro hd
            show Out.candidateRemoved d ∈ (lt_error s h .other).2
            unfold lt_error
            rw [hf]
            dsimp only
            apply withTryGC_mem_left
            unfold eraseLocalTransport
            dsimp only
            exact List.mem_append_left _ hd
  | ltStopped h =>
    cases hf : findLT s.udpTransports h with
    | none =>
      refine Or.inl ⟨?_, ?_⟩
      · show (lt_stopped s h).1.channelPeers = s.channelPeers
        unfold lt_stopped
        rw [hf]
      · intro d hd
        have hd2 : Out.candidateRemoved d ∈ (lt_stopped s h).2 := hd
        unfold lt_stopped at hd2
        rw [hf] at hd2
        simp at hd2
    | some lt =>
      refine Or.inr (Or.inl ⟨.localT h, ?_, ?_⟩)
      · show (lt_stopped s h).1.channelPeers = _
        unfold lt_stopped
        rw [hf]
        dsimp only
        rw [tryStopped_cps]
        unfold eraseLocalTransport
        dsimp only
      · intro d
        constructor
        · intro hd
          have hd2 : Out.candidateRemoved d ∈ (lt_stopped s h).2 := hd
          unfold lt_stopped at hd2
          rw [hf] at hd2
          dsimp only at hd2
          rcases List.mem_append.1 hd2 with h3 | h3
          · unfold eraseLocalTransport at h3
            dsimp only at h3
            rcases List.mem_append.1 h3 with h3 | h3
            · exact h3
            · split at h3 <;> simp at h3
          · rcases tryStopped_outs _ with he | he <;> rw [he] at h3 <;> simp at h3
        · intro hd
          show Out.candidateRemoved d ∈ (lt_stopped s h).2
          unfold lt_stopped
          rw [hf]
          dsimp only
          apply List.mem_append_left
          unfold eraseLocalTransport
          dsimp only
          exact List.mem_append_left _ hd
  | ttStarted relayed reflexive =>
    cases ht : s.tcpTurn with
    | none =>
      refine Or.inl ⟨?_, ?_⟩
      · show (tt_started s relayed reflexive).1.channelPeers = s.channelPeers
        unfold tt_started
        rw [ht]
      · intro d hd
        have hd2 : Out.candidateRemoved d ∈ (tt_started s relayed reflexive).2 := hd
        unfold tt_started at hd2
        rw [ht] at hd2
        simp at hd2
    | some t =>
      refine Or.inl ⟨?_, ?_⟩
      · show (tt_started s relayed reflexive).1.channelPeers = s.channelPeers
        unfold tt_started
        rw [ht]
        dsimp only
        rw [withTryGC_cps]
      · intro d hd
        have hd2 : Out.candidateRemoved d ∈ (tt_started s relayed reflexive).2 := hd
        unfold tt_started at hd2
        rw [ht] at hd2
        dsimp only at hd2
        have h3 := withTryGC_removed _ _ hd2
        simp at h3
  | ttStopped =>
    cases ht : s.tcpTurn with
    | none =>
      refine Or.inl ⟨?_, ?_⟩
      · show (tt_stopped s).1.channelPeers = s.channelPeers
        unfold tt_stopped
        rw [ht]
      · intro d hd
        have hd2 : Out.candidateRemoved d ∈ (tt_stopped s).2 := hd
        unfold tt_stopped at hd2
        rw [ht] at hd2
        simp at hd2
    | some t =>
      refine Or.inr (Or.inl ⟨.tcpTurnT, ?_, ?_⟩)
      · show (tt_stopped s).1.channelPeers = _
        unfold tt_stopped
        rw [ht]
        dsimp only
        rw [tryStopped_cps]
      · intro d
        constructor
        · intro hd
          have hd2 : Out.candidateRemoved d ∈ (tt_stopped s).2 := hd
          unfold tt_stopped at hd2
          rw [ht] at hd2
          dsimp only at hd2
          rcases List.mem_append.1 hd2 with h3 | h3
          · exact h3
          · rcases tryStopped_outs _ with he | he <;> rw [he] at h3 <;> simp at h3
        · intro hd
          show Out.candidateRemoved d ∈ (tt_stopped s).2
          unfold tt_stopped
          rw [ht]
          dsimp only
          exact List.mem_append_left _ hd
  | ttError =>
    cases ht : s.tcpTurn with
    | none =>
      refine Or.inl ⟨?_, ?_⟩
      · show (tt_error s).1.channelPeers = s.channelPeers
        unfold tt_error
        rw [ht]
      · intro d hd
        have hd2 : Out.candidateRemoved d ∈ (tt_error s).2 := hd
        unfold tt_error at hd2
        rw [ht] at hd2
        simp at hd2
    | some t =>
      refine Or.inr (Or.inl ⟨.tcpTurnT, ?_, ?_⟩)
      · show (tt_error s).1.channelPeers = _
        unfold tt_error
        rw [ht]
        dsimp only
        rw [withTryGC_cps]
      · intro d
        constructor
        · intro hd
          have hd2 : Out.candidateRemoved d ∈ (tt_error s).2 := hd
          unfold tt_error at hd2
          rw [ht] at hd2
          dsimp only at hd2
          exact withTryGC_removed _ _ hd2
        · intro hd
          show Out.candidateRemoved d ∈ (tt_error s).2
          unfold tt_error
          rw [ht]
          dsimp only
          exact withTryGC_mem_left _ _ hd
  | flagPathAsLowOverhead cid a =>
    refine Or.inr (Or.inr ⟨⟨cid, a, rfl⟩, ?_, ?_⟩)
    · intro k hk
      show cpHas ((flagPathAsLowOverhead s cid a).1.channelPeers) k = true
      unfold flagPathAsLowOverhead
      split
      · exact hk
      · dsimp only
        split
        · exact cpEnsure_has_of _ _ _ hk
        · exact cpSet_has_of _ _ _ _ hk
    · intro d hd
      have hd2 : Out.candidateRemoved d ∈ (flagPathAsLowOverhead s cid a).2 := hd
      unfold flagPathAsLowOverhead at hd2
      split at hd2
      · simp at hd2
      · dsimp only at hd2
        split at hd2 <;> simp at hd2
  | addLocalPeerReflexiveCandidate a b p =>
    refine Or.inl ⟨?_, ?_⟩
    · show (addLocalPeerReflexiveCandidate s a b p).1.channelPeers = s.channelPeers
      unfold addLocalPeerReflexiveCandidate
      split <;> rfl
    · intro d hd
      have hd2 : Out.candidateRemoved d ∈ (addLocalPeerReflexiveCandidate s a b p).2 := hd
      unfold addLocalPeerReflexiveCandidate at hd2
      split at hd2 <;> simp at hd2
  | runDeferred =>
    refine Or.inl ⟨?_, ?_⟩
    · show (runDeferred s).1.channelPeers = s.channelPeers
      unfold runDeferred
      split
      · rfl
      · dsimp only
        split
        · rfl
        · exact (tryGC_cps _).trans rfl
        · rfl
        · exact (doExt_cps _).trans rfl
    · intro d hd
      have hd2 : Out.candidateRemoved d ∈ (runDeferred s).2 := hd
      unfold runDeferred at hd2
      split at hd2
      · simp at hd2
      · dsimp only at hd2
        split at hd2
        · simp at hd2
        · rcases tryGC_outs _ with he | he <;> rw [he] at hd2 <;> simp at hd2
        · unfold postStop at hd2
          simp at hd2
        · unfold doExt at hd2
          split at hd2
          · simp at hd2
          · dsimp only at hd2
            rcases doExtLoop_outs _ _ _ _ _ hd2 with h3 | ⟨lt2, cs, _, _, h3⟩ <;>
              simp at h3

theorem cpHas_of_lookup_any (m : List (Nat × List TransportAddress)) (k : Nat)
    (f : TransportAddress → Bool) (h : (cpLookup m k).any f = true) :
    cpHas m k = true := by
  unfold cpLookup at h
  cases hf : m.find? (fun p => decide (p.1 = k)) with
  | none =>
    rw [hf] at h
    simp at h
  | some q =>
    have hq := List.find?_some hf
    exact List.any_eq_true.2 ⟨q, List.mem_of_find?_eq_some hf, hq⟩

/-- Peer address used by the channel-peer witness. -/
def taPeer : TransportAddress := ⟨.ip4 80, 4000⟩

/-- C9: per engine step, the channel-peer sets grow only through
flagPathAsLowOverhead; the first flag of a fresh peer address stores it and
emits exactly one addChannelPeer on the candidate's transport; a repeated flag
with an already-known address is a no-op; and a channel-peer entry disappears
exactly when a candidateRemoved for its id is emitted in the same step. -/
theorem channelPeers_discipline (s : EngineState) :
    (∀ e k x, (∀ cid a, e ≠ Ev.flagPathAsLowOverhead cid a) →
        x ∈ cpLookup ((step s e).1.channelPeers) k → x ∈ cpLookup s.channelPeers k)
  ∧ (∀ cid a c,
        s.localCandidates.find? (fun c2 => decide (c2.id = cid)) = some c →
        ((cpLookup s.channelPeers cid).any fun x => taEq x a) = false →
        step s (Ev.flagPathAsLowOverhead cid a)
          = ({ s with channelPeers := cpSet s.channelPeers cid (cpLookup s.channelPeers cid ++ [a]) },
             [Out.addChannelPeer c.iceTransport a])
        ∧ cpLookup ((step s (Ev.flagPathAsLowOverhead cid a)).1.channelPeers) cid
            = cpLookup s.channelPeers cid ++ [a])
  ∧ (∀ cid a c,
        s.localCandidates.find? (fun c2 => decide (c2.id = cid)) = some c →
        ((cpLookup s.channelPeers cid).any fun x => taEq x a) = true →
        step s (Ev.flagPathAsLowOverhead cid a) = (s, []))
  ∧ (∀ e d, Out.candidateRemoved d ∈ (step s e).2 →
        cpHas ((step s e).1.channelPeers) d.id = false)
  ∧ (∀ e k, cpHas s.channelPeers k = true →
        cpHas ((step s e).1.channelPeers) k = false →
        ∃ d, Out.candidateRemoved d ∈ (step s e).2 ∧ d.id = k) := by
  refine ⟨?_, ?_, ?_, ?_, ?_⟩
  · intro e k x hne hx
    rcases step_channelPeers s e with ⟨hc, _⟩ | ⟨tref, hc, _⟩ | ⟨⟨cid, a, he⟩, _, _⟩
    · rw [hc] at hx
      exact hx
    · rw [hc] at hx
      exact rlc_cps_lookup _ _ _ _ _ hx
    · exact absurd he (hne cid a)
  · intro cid a c hfind hany
    have hstep : step s (Ev.flagPathAsLowOverhead cid a)
        = ({ s with channelPeers := cpSet s.channelPeers cid (cpLookup s.channelPeers cid ++ [a]) },
           [Out.addChannelPeer c.iceTransport a]) := by
      show flagPathAsLowOverhead s cid a = _
      unfold flagPathAsLowOverhead
      rw [hfind]
      dsimp only
      split
      · next hcond =>
        rw [hany] at hcond
        cases hcond
      · rfl
    refine ⟨hstep, ?_⟩
    rw [hstep]
    exact cpSet_lookup_self _ _ _
  · intro cid a c hfind hany
    show flagPathAsLowOverhead s cid a = (s, [])
    unfold flagPathAsLowOverhead
    rw [hfind]
    dsimp only
    split
    · next hcond =>
      have hh := cpHas_of_lookup_any _ _ _ hcond
      show ({ s with channelPeers := cpEnsure s.channelPeers cid }, ([] : List Out))
        = (s, [])
      unfold cpEnsure
      rw [if_pos hh]
    · next hcond => exact absurd hany hcond
  · intro e d hd
    rcases step_channelPeers s e with ⟨_, hno⟩ | ⟨tref, hc, hiff⟩ | ⟨_, _, hno⟩
    · exact absurd hd (hno d)
    · rw [hc]
      exact rlc_removed_absent _ _ _ _ ((hiff d).1 hd)
    · exact absurd hd (hno d)
  · intro e k hpre hpost
    rcases step_channelPeers s e with ⟨hc, _⟩ | ⟨tref, hc, hiff⟩ | ⟨_, hmono, _⟩
    · rw [hc, hpre] at hpost
      cases hpost
    · rw [hc] at hpost
      obtain ⟨d, hd1, hd2⟩ :=
        rlc_deleted_removed tref s.localCandidates s.channelPeers k hpre hpost
      exact ⟨d, (hiff d).2 hd1, hd2⟩
    · rw [hmono k hpre] at hpost
      cases hpost

theorem channelPeers_discipline_witness :
    step sC2w (Ev.flagPathAsLowOverhead 0 taPeer)
      = ({ sC2w with channelPeers := cpSet sC2w.channelPeers 0 (cpLookup sC2w.channelPeers 0 ++ [taPeer]) },
         [Out.addChannelPeer hostW.iceTransport taPeer])
    ∧ cpLookup ((step sC2w (Ev.flagPathAsLowOverhead 0 taPeer)).1.channelPeers) 0
        = cpLookup sC2w.channelPeers 0 ++ [taPeer] :=
  (channelPeers_discipline sC2w).2.1 0 taPeer hostW (by decide) (by decide)

/-! ## C1: single-shot gatheringComplete lemmas -/

theorem gc_master_frame {s : EngineState} {p : EngineState × List Out}
    (hgc : p.1.gatheringComplete = s.gatheringComplete)
    (hno : Out.gatheringComplete ∉ p.2) :
    (p.2.count Out.gatheringComplete
       = if s.gatheringComplete = false ∧ p.1.gatheringComplete = true then 1 else 0)
  ∧ (s.gatheringComplete = true → p.1.gatheringComplete = true)
  ∧ (Out.gatheringComplete ∈ p.2 →
       s.gatheringComplete = false ∧ p.1.gatheringComplete = true
       ∧ p.1.udpTransports.all checkFinished = true ∧ tcpOk p.1 = true) := by
  refine ⟨?_, ?_, fun hmem => absurd hmem hno⟩
  · rw [hgc, List.count_eq_zero.2 hno, if_neg]
    rintro ⟨h1, h2⟩
    rw [h1] at h2
    cases h2
  · intro h
    rw [hgc]
    exact h

theorem tryGC_master (s : EngineState) :
    ((tryGatheringComplete s).2.count Out.gatheringComplete
       = if s.gatheringComplete = false
           ∧ (tryGatheringComplete s).1.gatheringComplete = true then 1 else 0)
  ∧ (s.gatheringComplete = true → (tryGatheringComplete s).1.gatheringComplete = true)
  ∧ (Out.gatheringComplete ∈ (tryGatheringComplete s).2 →
       s.gatheringComplete = false
       ∧ (tryGatheringComplete s).1.gatheringComplete = true
       ∧ (tryGatheringComplete s).1.udpTransports.all checkFinished = true
       ∧ tcpOk (tryGatheringComplete s).1 = true) := by
  unfold tryGatheringComplete
  split
  · exact gc_master_frame rfl (by simp)
  · next hcond =>
    simp only [Bool.or_eq_true, Bool.not_eq_true', not_or, Bool.not_eq_true] at hcond
    split
    · next hall =>
      refine ⟨?_, fun h => rfl, fun hmem => ⟨hcond.1, rfl, hall, ?_⟩⟩
      · rw [if_pos ⟨hcond.1, rfl⟩]
        simp
      · show tcpOk s = true
        cases hb : tcpOk s with
        | false => exact absurd hb hcond.2
        | true => rfl
    · exact gc_master_frame rfl (by simp)

theorem withTryGC_gc_master (s : EngineState) (p : EngineState × List Out)
    (hgc : p.1.gatheringComplete = s.gatheringComplete)
    (hno : Out.gatheringComplete ∉ p.2) :
    ((withTryGC p).2.count Out.gatheringComplete
       = if s.gatheringComplete = false
           ∧ (withTryGC p).1.gatheringComplete = true then 1 else 0)
  ∧ (s.gatheringComplete = true → (withTryGC p).1.gatheringComplete = true)
  ∧ (Out.gatheringComplete ∈ (withTryGC p).2 →
       s.gatheringComplete = false
       ∧ (withTryGC p).1.gatheringComplete = true
       ∧ (withTryGC p).1.udpTransports.all checkFinished = true
       ∧ tcpOk (withTryGC p).1 = true) := by
  unfold withTryGC
  dsimp only
  obtain ⟨h1, h2, h3⟩ := tryGC_master p.1
  refine ⟨?_, ?_, ?_⟩
  · rw [List.count_append, List.count_eq_zero.2 hno, Nat.zero_add, h1, hgc]
  · intro h
    apply h2
    rw [hgc]
    exact h
  · intro hmem
    rcases List.mem_append.1 hmem with hm | hm
    · exact absurd hm hno
    · obtain ⟨g1, g2, g3, g4⟩ := h3 hm
      exact ⟨by rw [← hgc]; exact g1, g2, g3, g4⟩

theorem update_gc (s : EngineState) (sockets : HostAddress → Option (Nat × Bool)) :
    (update s sockets).1.gatheringComplete = s.gatheringComplete := by
  show (updLf (updTcp (updExt (updInstall sockets
      { s with config := promoteStun s.pending s.config })))).gatheringComplete = _
  rw [(updLf_frame _).2.1, (updTcp_frame _).2.1, (updExt_frame _).2.1,
    (updInstall_frame _ _).2.1]

theorem stop_gc (s : EngineState) :
    (stop s).1.gatheringComplete = s.gatheringComplete := by
  unfold stop
  dsimp only
  split_ifs <;> rfl

theorem acSrflx_gc (s : EngineState) (h : Nat) (lt : LocalTransport) (a : Int) :
    (acSrflx s h lt a).1.gatheringComplete = s.gatheringComplete := by
  unfold acSrflx
  split
  · dsimp only
  · split <;> dsimp only

theorem acRelayed_gc (s : EngineState) (h : Nat) (lt1 : LocalTransport) (a : Int) :
    (acRelayed s h lt1 a).1.gatheringComplete = s.gatheringComplete := by
  unfold acRelayed
  split
  · dsimp only
  · split <;> dsimp only

theorem tryStopped_gc (s : EngineState) :
    (tryStopped s).1.gatheringComplete = s.gatheringComplete := by
  unfold tryStopped postStop
  split <;> rfl

theorem doExt_gc (s : EngineState) :
    (doExt s).1.gatheringComplete = s.gatheringComplete := by
  unfold doExt
  split
  · rfl
  · dsimp only

theorem erase_no_gc (s : EngineState) (h : Nat) (lt : LocalTransport) :
    Out.gatheringComplete ∉ (eraseLocalTransport s h lt).2 := by
  intro hmem
  unfold eraseLocalTransport at hmem
  dsimp only at hmem
  rcases List.mem_append.1 hmem with hm | hm
  · obtain ⟨d, hd, _, _⟩ := rlc_outs _ _ _ _ hm
    cases hd
  · split at hm <;> simp at hm

theorem erase_gc (s : EngineState) (h : Nat) (lt : LocalTransport) :
    (eraseLocalTransport s h lt).1.gatheringComplete = s.gatheringComplete := by
  unfold eraseLocalTransport
  dsimp only

theorem lt_started_gc_master (s : EngineState) (h : Nat) :
    ((lt_started s h).2.count Out.gatheringComplete
       = if s.gatheringComplete = false
           ∧ (lt_started s h).1.gatheringComplete = true then 1 else 0)
  ∧ (s.gatheringComplete = true → (lt_started s h).1.gatheringComplete = true)
  ∧ (Out.gatheringComplete ∈ (lt_started s h).2 →
       s.gatheringComplete = false
       ∧ (lt_started s h).1.gatheringComplete = true
       ∧ (lt_started s h).1.udpTransports.all checkFinished = true
       ∧ tcpOk (lt_started s h).1 = true) := by
  unfold lt_started
  cases hf : findLT s.udpTransports h with
  | none => exact gc_master_frame rfl (by simp)
  | some lt0 =>
    unfold lt_started_core
    dsimp only
    refine withTryGC_gc_master s _ ?_ ?_
    · unfold lsLocalFinished
      dsimp only
      split <;> rfl
    · intro hmem
      simp only [List.mem_append] at hmem
      rcases hmem with ((hm | hm) | hm) | hm
      · split at hm <;> simp at hm
      · obtain ⟨x, hx⟩ := lsUseLocal_shape _ _ _ _ _ hm
        cases hx
      · rcases lsStun_outs _ _ _ with he | he <;> rw [he] at hm <;> simp at hm
      · rcases lsLocalFinished_outs _ with he | he <;> rw [he] at hm <;> simp at hm

theorem lt_addressesChanged_gc_master (s : EngineState) (h : Nat)
    (srflx relayed : TransportAddress) (sa ta : Bool) :
    ((lt_addressesChanged s h srflx relayed sa ta).2.count Out.gatheringComplete
       = if s.gatheringComplete = false
           ∧ (lt_addressesChanged s h srflx relayed sa ta).1.gatheringComplete = true
         then 1 else 0)
  ∧ (s.gatheringComplete = true →
       (lt_addressesChanged s h srflx relayed sa ta).1.gatheringComplete = true)
  ∧ (Out.gatheringComplete ∈ (lt_addressesChanged s h srflx relayed sa ta).2 →
       s.gatheringComplete = false
       ∧ (lt_addressesChanged s h srflx relayed sa ta).1.gatheringComplete = true
       ∧ (lt_addressesChanged s h srflx relayed sa ta).1.udpTransports.all
           checkFinished = true
       ∧ tcpOk (lt_addressesChanged s h srflx relayed sa ta).1 = true) := by
  unfold lt_addressesChanged
  cases hf : findLT s.udpTransports h with
  | none => exact gc_master_frame rfl (by simp)
  | some lt0 =>
    unfold lt_addressesChanged_core
    dsimp only
    refine withTryGC_gc_master s _ ?_ ?_
    · rw [acRelayed_gc, acSrflx_gc]
      rfl
    · intro hmem
      simp only [List.mem_append] at hmem
      rcases hmem with (hm | hm) | hm
      · split at hm <;> simp at hm
      · obtain ⟨x, hx⟩ := acSrflx_shape _ _ _ _ _ hm
        cases hx
      · obtain ⟨x, hx⟩ := acRelayed_shape _ _ _ _ _ hm
        cases hx

theorem gc_master_frame2 (s st : EngineState) (outs : List Out)
    (hgc : st.gatheringComplete = s.gatheringComplete)
    (hno : Out.gatheringComplete ∉ outs) :
    (outs.count Out.gatheringComplete
       = if s.gatheringComplete = false ∧ st.gatheringComplete = true then 1 else 0)
  ∧ (s.gatheringComplete = true → st.gatheringComplete = true)
  ∧ (Out.gatheringComplete ∈ outs →
       s.gatheringComplete = false ∧ st.gatheringComplete = true
       ∧ st.udpTransports.all checkFinished = true ∧ tcpOk st = true) :=
  @gc_master_frame s (st, outs) hgc hno

theorem lt_error_gc_master (s : EngineState) (h : Nat) (k : LtErrorKind) :
    ((lt_error s h k).2.count Out.gatheringComplete
       = if s.gatheringComplete = false
           ∧ (lt_error s h k).1.gatheringComplete = true then 1 else 0)
  ∧ (s.gatheringComplete = true → (lt_error s h k).1.gatheringComplete = true)
  ∧ (Out.gatheringComplete ∈ (lt_error s h k).2 →
       s.gatheringComplete = false
       ∧ (lt_error s h k).1.gatheringComplete = true
       ∧ (lt_error s h k).1.udpTransports.all checkFinished = true
       ∧ tcpOk (lt_error s h k).1 = true) := by
  unfold lt_error
  cases hf : findLT s.udpTransports h with
  | none => exact gc_master_frame rfl (by simp)
  | some lt =>
    cases k with
    | stun =>
      dsimp only
      refine withTryGC_gc_master s _ ?_ ?_
      · rfl
      · simp
    | turn =>
      dsimp only
      refine withTryGC_gc_master s _ ?_ ?_
      · rfl
      · simp
    | other =>
      dsimp only
      exact withTryGC_gc_master s _ (erase_gc s h lt) (erase_no_gc s h lt)

theorem lt_stopped_gc_master (s : EngineState) (h : Nat) :
    ((lt_stopped s h).2.count Out.gatheringComplete
       = if s.gatheringComplete = false
           ∧ (lt_stopped s h).1.gatheringComplete = true then 1 else 0)
  ∧ (s.gatheringComplete = true → (lt_stopped s h).1.gatheringComplete = true)
  ∧ (Out.gatheringComplete ∈ (lt_stopped s h).2 →
       s.gatheringComplete = false
       ∧ (lt_stopped s h).1.gatheringComplete = true
       ∧ (lt_stopped s h).1.udpTransports.all checkFinished = true
       ∧ tcpOk (lt_stopped s h).1 = true) := by
  unfold lt_stopped
  cases hf : findLT s.udpTransports h with
  | none => exact gc_master_frame rfl (by simp)
  | some lt =>
    dsimp only
    refine gc_master_frame2 s _ _ ?_ ?_
    · rw [tryStopped_gc, erase_gc]
    · intro hmem
      rcases List.mem_append.1 hmem with hm | hm
      · exact erase_no_gc s h lt hm
      · rcases tryStopped_outs _ with he | he <;> rw [he] at hm <;> simp at hm

theorem tt_started_gc_master (s : EngineState) (relayed reflexive : TransportAddress) :
    ((tt_started s relayed reflexive).2.count Out.gatheringComplete
       = if s.gatheringComplete = false
           ∧ (tt_started s relayed reflexive).1.gatheringComplete = true then 1 else 0)
  ∧ (s.gatheringComplete = true →
       (tt_started s relayed reflexive).1.gatheringComplete = true)
  ∧ (Out.gatheringComplete ∈ (tt_started s relayed reflexive).2 →
       s.gatheringComplete = false
       ∧ (tt_started s relayed reflexive).1.gatheringComplete = true
       ∧ (tt_started s relayed reflexive).1.udpTransports.all checkFinished = true
       ∧ tcpOk (tt_started s relayed reflexive).1 = true) := by
  unfold tt_started
  cases ht : s.tcpTurn with
  | none => exact gc_master_frame rfl (by simp)
  | some t =>
    dsimp only
    refine withTryGC_gc_master s _ ?_ ?_
    · rfl
    · simp

theorem tt_stopped_gc_master (s : EngineState) :
    ((tt_stopped s).2.count Out.gatheringComplete
       = if s.gatheringComplete = false
           ∧ (tt_stopped s).1.gatheringComplete = true then 1 else 0)
  ∧ (s.gatheringComplete = true → (tt_stopped s).1.gatheringComplete = true)
  ∧ (Out.gatheringComplete ∈ (tt_stopped s).2 →
       s.gatheringComplete = false
       ∧ (tt_stopped s).1.gatheringComplete = true
       ∧ (tt_stopped s).1.udpTransports.all checkFinished = true
       ∧ tcpOk (tt_stopped s).1 = true) := by
  unfold tt_stopped
  cases ht : s.tcpTurn with
  | none => exact gc_master_frame rfl (by simp)
  | some t =>
    dsimp only
    refine gc_master_frame2 s _ _ ?_ ?_
    · rw [tryStopped_gc]
    · intro hmem
      rcases List.mem_append.1 hmem with hm | hm
      · obtain ⟨d, hd, _, _⟩ := rlc_outs _ _ _ _ hm
        cases hd
      · rcases tryStopped_outs _ with he | he <;> rw [he] at hm <;> simp at hm

theorem tt_error_gc_master (s : EngineState) :
    ((tt_error s).2.count Out.gatheringComplete
       = if s.gatheringComplete = false
           ∧ (tt_error s).1.gatheringComplete = true then 1 else 0)
  ∧ (s.gatheringComplete = true → (tt_error s).1.gatheringComplete = true)
  ∧ (Out.gatheringComplete ∈ (tt_error s).2 →
       s.gatheringComplete = false
       ∧ (tt_error s).1.gatheringComplete = true
       ∧ (tt_error s).1.udpTransports.all checkFinished = true
       ∧ tcpOk (tt_error s).1 = true) := by
  unfold tt_error
  cases ht : s.tcpTurn with
  | none => exact gc_master_frame rfl (by simp)
  | some t =>
    dsimp only
    refine withTryGC_gc_master s _ ?_ ?_
    · rfl
    · intro hmem
      obtain ⟨d, hd, _, _⟩ := rlc_outs _ _ _ _ hmem
      cases hd

theorem flag_gc_master (s : EngineState) (cid : Nat) (a : TransportAddress) :
    ((flagPathAsLowOverhead s cid a).2.count Out.gatheringComplete
       = if s.gatheringComplete = false
           ∧ (flagPathAsLowOverhead s cid a).1.gatheringComplete = true then 1 else 0)
  ∧ (s.gatheringComplete = true →
       (flagPathAsLowOverhead s cid a).1.gatheringComplete = true)
  ∧ (Out.gatheringComplete ∈ (flagPathAsLowOverhead s cid a).2 →
       s.gatheringComplete = false
       ∧ (flagPathAsLowOverhead s cid a).1.gatheringComplete = true
       ∧ (flagPathAsLowOverhead s cid a).1.udpTransports.all checkFinished = true
       ∧ tcpOk (flagPathAsLowOverhead s cid a).1 = true) := by
  unfold flagPathAsLowOverhead
  split
  · exact gc_master_frame rfl (by simp)
  · dsimp only
    split
    · exact gc_master_frame rfl (by simp)
    · exact gc_master_frame rfl (by simp)

theorem addPrflx_gc_master (s : EngineState) (a : TransportAddress)
    (b : CandidateInfo) (p : Int) :
    ((addLocalPeerReflexiveCandidate s a b p).2.count Out.gatheringComplete
       = if s.gatheringComplete = false
           ∧ (addLocalPeerReflexiveCandidate s a b p).1.gatheringComplete = true
         then 1 else 0)
  ∧ (s.gatheringComplete = true →
       (addLocalPeerReflexiveCandidate s a b p).1.gatheringComplete = true)
  ∧ (Out.gatheringComplete ∈ (addLocalPeerReflexiveCandidate s a b p).2 →
       s.gatheringComplete = false
       ∧ (addLocalPeerReflexiveCandidate s a b p).1.gatheringComplete = true
       ∧ (addLocalPeerReflexiveCandidate s a b p).1.udpTransports.all
           checkFinished = true
       ∧ tcpOk (addLocalPeerReflexiveCandidate s a b p).1 = true) := by
  unfold addLocalPeerReflexiveCandidate
  split
  · exact gc_master_frame rfl (by simp)
  · exact gc_master_frame rfl (by simp)

theorem runDeferred_gc_master (s : EngineState) :
    ((runDeferred s).2.count Out.gatheringComplete
       = if s.gatheringComplete = false
           ∧ (runDeferred s).1.gatheringComplete = true then 1 else 0)
  ∧ (s.gatheringComplete = true → (runDeferred s).1.gatheringComplete = true)
  ∧ (Out.gatheringComplete ∈ (runDeferred s).2 →
       s.gatheringComplete = false
       ∧ (runDeferred s).1.gatheringComplete = true
       ∧ (runDeferred s).1.udpTransports.all checkFinished = true
       ∧ tcpOk (runDeferred s).1 = true) := by
  unfold runDeferred
  split
  · exact gc_master_frame rfl (by simp)
  · dsimp only
    split
    · exact gc_master_frame rfl (by simp)
    · exact tryGC_master _
    · exact gc_master_frame rfl (by simp [postStop])
    · refine gc_master_frame ((doExt_gc _).trans rfl) ?_
      intro hmem
      unfold doExt at hmem
      split at hmem
      · simp at hmem
      · dsimp only at hmem
        rcases doExtLoop_outs _ _ _ _ _ hmem with h3 | ⟨lt2, cs, _, _, h3⟩ <;>
          simp at h3

theorem step_gc (s : EngineState) (e : Ev) :
    ((step s e).2.count Out.gatheringComplete
       = if s.gatheringComplete = false
           ∧ (step s e).1.gatheringComplete = true then 1 else 0)
  ∧ (s.gatheringComplete = true → (step s e).1.gatheringComplete = true)
  ∧ (Out.gatheringComplete ∈ (step s e).2 →
       s.gatheringComplete = false
       ∧ (step s e).1.gatheringComplete = true
       ∧ (step s e).1.udpTransports.all checkFinished = true
       ∧ tcpOk (step s e).1 = true) := by
  cases e with
  | setLocalAddresses l => exact gc_master_frame rfl (by simp [step])
  | setExternalAddresses l => exact gc_master_frame rfl (by simp [step])
  | setStunBindService a => exact gc_master_frame rfl (by simp [step])
  | setStunRelayUdpService a u p => exact gc_master_frame rfl (by simp [step])
  | setStunRelayTcpService a u p => exact gc_master_frame rfl (by simp [step])
  | update sockets =>
    refine gc_master_frame (update_gc s sockets) ?_
    intro hmem
    have hm2 : Out.gatheringComplete ∈ (update s sockets).2 := hmem
    rw [update_outs] at hm2
    split at hm2 <;> simp at hm2
  | stop =>
    refine gc_master_frame (stop_gc s) ?_
    intro hmem
    rcases stop_outs s _ hmem with h1 | ⟨hh, h1⟩ | h1 <;> simp at h1
  | ltStarted h => exact lt_started_gc_master s h
  | ltAddressesChanged h srflx relayed sa ta =>
    exact lt_addressesChanged_gc_master s h srflx relayed sa ta
  | ltError h k => exact lt_error_gc_master s h k
  | ltStopped h => exact lt_stopped_gc_master s h
  | ttStarted relayed reflexive => exact tt_started_gc_master s relayed reflexive
  | ttStopped => exact tt_stopped_gc_master s
  | ttError => exact tt_error_gc_master s
  | flagPathAsLowOverhead cid a => exact flag_gc_master s cid a
  | addLocalPeerReflexiveCandidate a b p => exact addPrflx_gc_master s a b p
  | runDeferred => exact runDeferred_gc_master s

theorem runFrom_gc_mono (evs : List Ev) :
    ∀ s : EngineState, s.gatheringComplete = true →
      (runFrom s evs).1.gatheringComplete = true := by
  induction evs with
  | nil => intro s h; exact h
  | cons e rest ih =>
    intro s h
    exact ih _ ((step_gc s e).2.1 h)

theorem runFrom_gc_count (evs : List Ev) :
    ∀ s : EngineState, (runFrom s evs).2.count Out.gatheringComplete
      = if s.gatheringComplete = false
          ∧ (runFrom s evs).1.gatheringComplete = true then 1 else 0 := by
  induction evs with
  | nil =>
    intro s
    show ([] : List Out).count Out.gatheringComplete
      = if s.gatheringComplete = false ∧ s.gatheringComplete = true then 1 else 0
    rw [if_neg]
    · rfl
    · rintro ⟨h1, h2⟩
      rw [h1] at h2
      cases h2
  | cons e rest ih =>
    intro s
    show ((step s e).2 ++ (runFrom (step s e).1 rest).2).count Out.gatheringComplete
      = if s.gatheringComplete = false
          ∧ (runFrom (step s e).1 rest).1.gatheringComplete = true then 1 else 0
    rw [List.count_append, (step_gc s e).1, ih]
    cases hs : s.gatheringComplete with
    | true =>
      have hm : (step s e).1.gatheringComplete = true := (step_gc s e).2.1 hs
      have hf : (runFrom (step s e).1 rest).1.gatheringComplete = true :=
        runFrom_gc_mono rest _ hm
      simp [hs, hm, hf]
    | false =>
      cases hm : (step s e).1.gatheringComplete with
      | true =>
        have hf : (runFrom (step s e).1 rest).1.gatheringComplete = true :=
          runFrom_gc_mono rest _ hm
        simp [hs, hm, hf]
      | false =>
        simp [hs, hm]

/-- C1: from any state in which the gatheringComplete flag is still unset (as
after start), an entire event trace emits gatheringComplete at most once; and
whenever a step emits it, afterwards every UDP local transport has started and
is stun_finished/turn_finished as its configured STUN bind/relay services
require (checkFinished), and the TCP-TURN transport is absent (destroyed) or
has started (tcpOk). -/
theorem gatheringComplete_once (s0 : EngineState) (evs : List Ev)
    (h0 : s0.gatheringComplete = false) :
    (runFrom s0 evs).2.count Out.gatheringComplete ≤ 1
  ∧ (∀ s e, Out.gatheringComplete ∈ (step s e).2 →
       (step s e).1.udpTransports.all checkFinished = true
       ∧ tcpOk (step s e).1 = true) := by
  constructor
  · rw [runFrom_gc_count evs s0, h0]
    split
    · exact le_refl 1
    · exact Nat.zero_le 1
  · intro s e hmem
    obtain ⟨_, _, h3, h4⟩ := (step_gc s e).2.2 hmem
    exact ⟨h3, h4⟩

theorem gatheringComplete_once_witness :
    (runFrom (initState 1) evsC2w).2.count Out.gatheringComplete ≤ 1
  ∧ (∀ s e, Out.gatheringComplete ∈ (step s e).2 →
       (step s e).1.udpTransports.all checkFinished = true
       ∧ tcpOk (step s e).1 = true) :=
  gatheringComplete_once (initState 1) evsC2w (by decide)

/-! ## C8: localFinished versus gatheringComplete ordering -/

/-- C8 counterexample trace: one configured local address whose transport is
created by update and then fails with a generic error before starting; erasing
it leaves no transports, so the deferred-free tryGatheringComplete inside the
error slot emits gatheringComplete although localFinished was never emitted. -/
def evsC8 : List Ev := [.setLocalAddresses [laW], .update skW, .ltError 0 .other]

theorem lf_gc_counterexample :
    (runFrom (initState 1) evsC8).2 = [Out.gatheringComplete]
    ∧ Out.localFinished ∉ (runFrom (initState 1) evsC8).2 := by decide

/-- Events that erase a UDP local transport (IceLocalTransport::stopped, and
the generic/bind error branch of the error slot). -/
def isEraseEv : Ev → Bool
  | .ltStopped _ => true
  | .ltError _ k => decide (k = LtErrorKind.other)
  | _ => false

/-- A trace that never erases a UDP local transport. -/
def eraseFree (evs : List Ev) : Bool := evs.all (fun e => !isEraseEv e)

/-- Whether anything can still invoke tryGatheringComplete: a UDP transport
exists, the TCP-TURN transport exists, or a deferred tryGatheringComplete is
queued. -/
def trigger (s : EngineState) : Bool :=
  !s.udpTransports.isEmpty || s.tcpTurn.isSome
    || s.deferred.any (fun d => decide (d = Deferred.tryGatheringComplete))

/-- The reachability invariant backing the localFinished/gatheringComplete
ordering: UDP transport handles are distinct and below nextHandle, the
gatheringComplete flag implies the localFinished flag, and whenever a
tryGatheringComplete can still run while every transport has started,
localFinished has been recorded. -/
def InvC8 (s : EngineState) : Prop :=
  ((s.udpTransports.map (fun lt => lt.handle)).Pairwise (· ≠ ·)
    ∧ ∀ lt ∈ s.udpTransports, lt.handle < s.nextHandle)
  ∧ (s.gatheringComplete = true → s.localFinished = true)
  ∧ (trigger s = true → allStartedB s.udpTransports = true → s.localFinished = true)

/-- The state fields the localFinished/gatheringComplete argument observes. -/
def c8Same (s t : EngineState) : Prop :=
  t.localFinished = s.localFinished ∧ t.gatheringComplete = s.gatheringComplete
  ∧ t.udpTransports = s.udpTransports ∧ t.tcpTurn = s.tcpTurn
  ∧ t.deferred = s.deferred ∧ t.nextHandle = s.nextHandle

theorem InvC8_of_same {s t : EngineState} (hs : c8Same s t) (hI : InvC8 s) :
    InvC8 t := by
  obtain ⟨h1, h2, h3, h4, h5, h6⟩ := hs
  obtain ⟨hd, hg, ht⟩ := hI
  refine ⟨?_, ?_, ?_⟩
  · rw [h3, h6]
    exact hd
  · intro h
    rw [h1]
    exact hg (h2 ▸ h)
  · intro htr hall
    rw [h1]
    apply ht
    · unfold trigger at htr ⊢
      rw [h3, h4, h5] at htr
      exact htr
    · rw [← h3]
      exact hall

theorem c8_of_same {s : EngineState} {p : EngineState × List Out}
    (hs : c8Same s p.1) :
    (s.localFinished = true → p.1.localFinished = true)
  ∧ (Deferred.emitLocalFinished ∈ s.deferred →
       Out.localFinished ∈ p.2 ∨ Deferred.emitLocalFinished ∈ p.1.deferred)
  ∧ (s.localFinished = false → p.1.localFinished = true →
       Out.localFinished ∈ p.2 ∨ Deferred.emitLocalFinished ∈ p.1.deferred)
  ∧ (InvC8 s → InvC8 p.1) := by
  refine ⟨?_, ?_, ?_, fun hI => InvC8_of_same hs hI⟩
  · intro h
    rw [hs.1]
    exact h
  · intro h
    rw [hs.2.2.2.2.1]
    exact Or.inr h
  · intro h1 h2
    rw [hs.1, h1] at h2
    cases h2

theorem flag_c8same (s : EngineState) (cid : Nat) (a : TransportAddress) :
    c8Same s (flagPathAsLowOverhead s cid a).1 := by
  unfold flagPathAsLowOverhead
  split
  · exact ⟨rfl, rfl, rfl, rfl, rfl, rfl⟩
  · dsimp only
    split <;> exact ⟨rfl, rfl, rfl, rfl, rfl, rfl⟩

theorem addPrflx_c8same (s : EngineState) (a : TransportAddress)
    (b : CandidateInfo) (p : Int) :
    c8Same s (addLocalPeerReflexiveCandidate s a b p).1 := by
  unfold addLocalPeerReflexiveCandidate
  split
  · exact ⟨rfl, rfl, rfl, rfl, rfl, rfl⟩
  · exact ⟨rfl, rfl, rfl, rfl, rfl, rfl⟩

theorem findLT_mem {lts : List LocalTransport} {h : Nat} {lt0 : LocalTransport}
    (hf : findLT lts h = some lt0) : lt0 ∈ lts :=
  List.mem_of_find?_eq_some hf

theorem findLT_handle {lts : List LocalTransport} {h : Nat} {lt0 : LocalTransport}
    (hf : findLT lts h = some lt0) : lt0.handle = h := by
  have hq := List.find?_some hf
  simpa using hq

theorem handle_unique (lts : List LocalTransport)
    (hpw : (lts.map (fun lt => lt.handle)).Pairwise (· ≠ ·)) :
    ∀ x ∈ lts, ∀ y ∈ lts, x.handle = y.handle → x = y := by
  induction lts with
  | nil => intro x hx; cases hx
  | cons a rest ih =>
    rw [List.map_cons, List.pairwise_cons] at hpw
    intro x hx y hy hxy
    rcases List.mem_cons.1 hx with hx | hx <;> rcases List.mem_cons.1 hy with hy | hy
    · rw [hx, hy]
    · exfalso
      exact hpw.1 y.handle (List.mem_map_of_mem _ hy) (hx ▸ hxy)
    · exfalso
      exact hpw.1 x.handle (List.mem_map_of_mem _ hx) (hy ▸ hxy.symm)
    · exact ih hpw.2 x hx y hy hxy

theorem setLT_hs (lts : List LocalTransport) (h : Nat)
    (f : LocalTransport → LocalTransport)
    (hf : ∀ x ∈ lts, x.handle = h →
        (f x).handle = x.handle ∧ (f x).started = x.started) :
    (setLT lts h f).map (fun x => (x.handle, x.started))
      = lts.map (fun x => (x.handle, x.started)) := by
  unfold setLT
  rw [List.map_map]
  apply List.map_congr_left
  intro x hx
  simp only [Function.comp]
  by_cases hh : x.handle = h
  · rw [if_pos hh]
    obtain ⟨h1, h2⟩ := hf x hx hh
    rw [h1, h2]
  · rw [if_neg hh]

theorem ensureExt_hs (i : Int) (cands : List Candidate) (lt : LocalTransport)
    (a : Int) :
    (ensureExt i cands lt a).1.handle = lt.handle
    ∧ (ensureExt i cands lt a).1.started = lt.started := by
  unfold ensureExt
  split <;> exact ⟨rfl, rfl⟩

theorem inheritLoop_hs (i : Int) (e : HostAddress) (t : TransportAddress) (a : Int)
    (lts : List LocalTransport) :
    ∀ cands, (inheritLoop i e t a lts cands).1.map (fun x => (x.handle, x.started))
      = lts.map (fun x => (x.handle, x.started)) := by
  induction lts with
  | nil => intro cands; rfl
  | cons z rest ih =>
    intro cands
    unfold inheritLoop
    split
    · split
      · dsimp only
        rw [List.map_cons, List.map_cons, ih]
        have := ensureExt_hs i cands { z with extAddr := e } a
        rw [this.1, this.2]
      · dsimp only
        rw [List.map_cons, List.map_cons, ih]
    · dsimp only
      rw [List.map_cons, List.map_cons, ih]

theorem assignExt_hs (ex : List ExternalAddressCfg) (lt : LocalTransport) :
    (assignExt ex lt).1.handle = lt.handle
    ∧ (assignExt ex lt).1.started = lt.started := by
  unfold assignExt
  split
  · exact ⟨rfl, rfl⟩
  · split
    · exact ⟨rfl, rfl⟩
    · split <;> exact ⟨rfl, rfl⟩

theorem assignExtAll_hs (ex : List ExternalAddressCfg) (lts : List LocalTransport) :
    (assignExtAll ex lts).1.map (fun x => (x.handle, x.started))
      = lts.map (fun x => (x.handle, x.started)) := by
  rw [assignExtAll_map, List.map_map]
  apply List.map_congr_left
  intro x hx
  simp only [Function.comp]
  rw [(assignExt_hs ex x).1, (assignExt_hs ex x).2]

theorem doExtLoop_hs (i : Int) (cfg : Config) (lts : List LocalTransport) :
    ∀ cands, (doExtLoop i cfg lts cands).1.map (fun x => (x.handle, x.started))
      = lts.map (fun x => (x.handle, x.started)) := by
  induction lts with
  | nil => intro cands; rfl
  | cons z rest ih =>
    intro cands
    unfold doExtLoop
    split
    · dsimp only
      rw [List.map_cons, List.map_cons, ih]
      have := ensureExt_hs i cands z (findLocalAddrAux cfg.localAddrs z.addr 0)
      rw [this.1, this.2]
    · dsimp only
      rw [List.map_cons, List.map_cons, ih]

theorem handle_mem_of_map_eq {l1 l2 : List LocalTransport}
    (hmap : l1.map (fun x => (x.handle, x.started))
              = l2.map (fun x => (x.handle, x.started))) :
    ∀ x ∈ l1, ∃ y ∈ l2, y.handle = x.handle ∧ y.started = x.started := by
  intro x hx
  have hm : ((x.handle, x.started) : Nat × Bool)
      ∈ l2.map (fun x => (x.handle, x.started)) := by
    rw [← hmap]
    exact List.mem_map_of_mem _ hx
  obtain ⟨y, hy, he⟩ := List.mem_map.1 hm
  exact ⟨y, hy, congrArg Prod.fst he, congrArg Prod.snd he⟩

theorem allStarted_of_map_eq {l1 l2 : List LocalTransport}
    (hmap : l1.map (fun x => (x.handle, x.started))
              = l2.map (fun x => (x.handle, x.started))) :
    allStartedB l1 = allStartedB l2 := by
  unfold allStartedB
  have h1 : ∀ l : List LocalTransport,
      l.all (fun lt => lt.started)
        = (l.map (fun x => (x.handle, x.started))).all (fun q => q.2) := by
    intro l
    induction l with
    | nil => rfl
    | cons a rest ih => simp [List.all_cons, ih]
  rw [h1, hmap, ← h1]

theorem isEmpty_of_map_eq {l1 l2 : List LocalTransport}
    (hmap : l1.map (fun x => (x.handle, x.started))
              = l2.map (fun x => (x.handle, x.started))) :
    l1.isEmpty = l2.isEmpty := by
  cases l1 <;> cases l2 <;> simp_all

theorem handles_of_map_eq {l1 l2 : List LocalTransport}
    (hmap : l1.map (fun x => (x.handle, x.started))
              = l2.map (fun x => (x.handle, x.started))) :
    l1.map (fun x => x.handle) = l2.map (fun x => x.handle) := by
  have h2 := congrArg (List.map Prod.fst) hmap
  simpa [List.map_map, Function.comp] using h2

theorem attachServices_hs (cfg : Config) (b1 b2 : Bool) (lt : LocalTransport) :
    (attachServices cfg b1 b2 lt).handle = lt.handle
    ∧ (attachServices cfg b1 b2 lt).started = lt.started := by
  unfold attachServices
  dsimp only
  split_ifs <;> exact ⟨rfl, rfl⟩

theorem ila_allStarted (sockets : HostAddress → Option (Nat × Bool)) (b1 b2 : Bool)
    (las : List LocalAddressCfg) :
    ∀ cfg lts nh,
      allStartedB (installLocalAddrs sockets b1 b2 las cfg lts nh).2.1 = true →
      (installLocalAddrs sockets b1 b2 las cfg lts nh).2.1 = lts
      ∧ allStartedB lts = true := by
  induction las with
  | nil => intro cfg lts nh h; exact ⟨rfl, h⟩
  | cons la rest ih =>
    intro cfg lts nh h
    unfold installLocalAddrs at h ⊢
    by_cases hdup : findLocalAddrAux cfg.localAddrs la.addr 0 ≠ -1
    · rw [if_pos hdup] at h ⊢
      exact ih _ _ _ h
    · rw [if_neg hdup] at h ⊢
      cases hsk : sockets la.addr with
      | none =>
        rw [hsk] at h
        exact ih _ _ _ h
      | some pb =>
        rw [hsk] at h
        dsimp only at h ⊢
        exfalso
        obtain ⟨heq, hall⟩ := ih _ _ _ h
        unfold allStartedB at hall
        rw [List.all_append] at hall
        simp only [Bool.and_eq_true] at hall
        have h2 := hall.2
        simp only [List.all_cons, List.all_nil, Bool.and_true] at h2
        rw [(attachServices_hs _ _ _ _).2] at h2
        simp at h2

theorem ila_hd (sockets : HostAddress → Option (Nat × Bool)) (b1 b2 : Bool)
    (las : List LocalAddressCfg) :
    ∀ cfg lts nh,
      (∀ x ∈ lts, x.handle < nh) →
      ((lts.map (fun lt => lt.handle)).Pairwise (· ≠ ·)) →
      (∀ x ∈ (installLocalAddrs sockets b1 b2 las cfg lts nh).2.1,
         x.handle < (installLocalAddrs sockets b1 b2 las cfg lts nh).2.2)
      ∧ (((installLocalAddrs sockets b1 b2 las cfg lts nh).2.1.map
            (fun lt => lt.handle)).Pairwise (· ≠ ·)) := by
  induction las with
  | nil => intro cfg lts nh hb hpw; exact ⟨hb, hpw⟩
  | cons la rest ih =>
    intro cfg lts nh hb hpw
    unfold installLocalAddrs
    by_cases hdup : findLocalAddrAux cfg.localAddrs la.addr 0 ≠ -1
    · rw [if_pos hdup]
      exact ih _ _ _ hb hpw
    · rw [if_neg hdup]
      cases hsk : sockets la.addr with
      | none => exact ih _ _ _ hb hpw
      | some pb =>
        dsimp only
        apply ih
        · intro x hx
          rcases List.mem_append.1 hx with hx | hx
          · exact Nat.lt_trans (hb x hx) (Nat.lt_succ_self nh)
          · simp only [List.mem_singleton] at hx
            rw [hx, (attachServices_hs _ _ _ _).1]
            exact Nat.lt_succ_self nh
        · rw [List.map_append, List.pairwise_append]
          refine ⟨hpw, ?_, ?_⟩
          · simp
          · intro a ha b hbb
            simp only [List.map_cons, List.map_nil, List.mem_singleton] at hbb
            rw [hbb, (attachServices_hs _ _ _ _).1]
            obtain ⟨y, hy, hye⟩ := List.mem_map.1 ha
            rw [← hye]
            exact Nat.ne_of_lt (hb y hy)

theorem updLf_lf_mono (x : EngineState) (h : x.localFinished = true) :
    (updLf x).localFinished = true := by
  unfold updLf
  split
  · rfl
  · exact h

theorem updLf_empty (x : EngineState) :
    (updLf x).udpTransports.isEmpty = true → (updLf x).localFinished = true := by
  unfold updLf
  split
  · intro h
    rfl
  · next hc =>
    intro h
    cases hb : x.localFinished with
    | true => rfl
    | false =>
      exfalso
      apply hc
      rw [h, hb]
      rfl

theorem updLf_flip (x : EngineState) :
    x.localFinished = false → (updLf x).localFinished = true →
      Deferred.emitLocalFinished ∈ (updLf x).deferred := by
  unfold updLf
  split
  · intro h1 h2
    dsimp only
    exact List.mem_append_right _ (List.mem_singleton.2 rfl)
  · intro h1 h2
    rw [h1] at h2
    cases h2

theorem updLf_deferred_mem (x : EngineState) (d : Deferred) (hd : d ∈ x.deferred) :
    d ∈ (updLf x).deferred := by
  unfold updLf
  split
  · exact List.mem_append_left _ hd
  · exact hd

theorem updExt_deferred_mem (x : EngineState) (d : Deferred) (hd : d ∈ x.deferred) :
    d ∈ (updExt x).deferred := by
  unfold updExt
  split
  · dsimp only
    split
    · exact List.mem_append_left _ hd
    · exact hd
  · exact hd

theorem updExt_hs (x : EngineState) :
    (updExt x).udpTransports.map (fun z => (z.handle, z.started))
      = x.udpTransports.map (fun z => (z.handle, z.started)) := by
  unfold updExt
  split
  · dsimp only
    split
    · exact assignExtAll_hs _ _
    · exact assignExtAll_hs _ _
  · rfl

theorem updInstall_allStarted (sk : HostAddress → Option (Nat × Bool))
    (x : EngineState) :
    allStartedB (updInstall sk x).udpTransports = true →
      (updInstall sk x).udpTransports = x.udpTransports
      ∧ allStartedB x.udpTransports = true := by
  unfold updInstall
  split
  · dsimp only
    intro h
    exact ila_allStarted _ _ _ _ _ _ _ h
  · intro h
    exact ⟨rfl, h⟩

theorem updInstall_hd (sk : HostAddress → Option (Nat × Bool)) (x : EngineState)
    (hpw : (x.udpTransports.map (fun lt => lt.handle)).Pairwise (· ≠ ·))
    (hb : ∀ z ∈ x.udpTransports, z.handle < x.nextHandle) :
    (((updInstall sk x).udpTransports.map (fun lt => lt.handle)).Pairwise (· ≠ ·))
    ∧ ∀ z ∈ (updInstall sk x).udpTransports,
        z.handle < (updInstall sk x).nextHandle := by
  unfold updInstall
  split
  · dsimp only
    obtain ⟨hb2, hpw2⟩ := ila_hd sk x.useStunBind x.useStunRelayUdp
      x.pending.localAddrs x.config x.udpTransports x.nextHandle hb hpw
    exact ⟨hpw2, hb2⟩
  · exact ⟨hpw, hb⟩

theorem update_lf_mono (s : EngineState) (sk : HostAddress → Option (Nat × Bool))
    (h : s.localFinished = true) : (update s sk).1.localFinished = true := by
  show (updLf (updTcp (updExt (updInstall sk
      { s with config := promoteStun s.pending s.config })))).localFinished = true
  apply updLf_lf_mono
  rw [(updTcp_frame _).2.2.1, (updExt_frame _).2.2.1, (updInstall_frame _ _).2.2.1]
  exact h

theorem update_empty_lf (s : EngineState) (sk : HostAddress → Option (Nat × Bool)) :
    (update s sk).1.udpTransports.isEmpty = true →
      (update s sk).1.localFinished = true := by
  intro h
  show (updLf (updTcp (updExt (updInstall sk
      { s with config := promoteStun s.pending s.config })))).localFinished = true
  exact updLf_empty _ h

theorem update_deferred_mem (s : EngineState) (sk : HostAddress → Option (Nat × Bool))
    (d : Deferred) (hd : d ∈ s.deferred) : d ∈ (update s sk).1.deferred := by
  show d ∈ (updLf (updTcp (updExt (updInstall sk
      { s with config := promoteStun s.pending s.config })))).deferred
        ++ [Deferred.tryGatheringComplete]
  apply List.mem_append_left
  apply updLf_deferred_mem
  rw [(updTcp_frame _).2.2.2.2.1]
  apply updExt_deferred_mem
  rw [(updInstall_frame _ _).2.2.2.2.1]
  exact hd

theorem update_lf_flip (s : EngineState) (sk : HostAddress → Option (Nat × Bool)) :
    s.localFinished = false → (update s sk).1.localFinished = true →
      Deferred.emitLocalFinished ∈ (update s sk).1.deferred := by
  intro h1 h2
  show Deferred.emitLocalFinished ∈ (updLf (updTcp (updExt (updInstall sk
      { s with config := promoteStun s.pending s.config })))).deferred
        ++ [Deferred.tryGatheringComplete]
  apply List.mem_append_left
  apply updLf_flip
  · rw [(updTcp_frame _).2.2.1, (updExt_frame _).2.2.1, (updInstall_frame _ _).2.2.1]
    exact h1
  · exact h2

theorem update_allStarted (s : EngineState) (sk : HostAddress → Option (Nat × Bool)) :
    allStartedB (update s sk).1.udpTransports = true →
      allStartedB s.udpTransports = true
      ∧ (update s sk).1.udpTransports.isEmpty = s.udpTransports.isEmpty := by
  intro h
  have h0 : allStartedB (updLf (updTcp (updExt (updInstall sk
      { s with config := promoteStun s.pending s.config })))).udpTransports = true := h
  rw [(updLf_frame _).2.2.1, (updTcp_frame _).2.2.2.1,
    allStarted_of_map_eq (updExt_hs _)] at h0
  obtain ⟨heq, hall⟩ := updInstall_allStarted sk _ h0
  refine ⟨hall, ?_⟩
  show (updLf (updTcp (updExt (updInstall sk
      { s with config := promoteStun s.pending s.config })))).udpTransports.isEmpty
    = s.udpTransports.isEmpty
  rw [(updLf_frame _).2.2.1, (updTcp_frame _).2.2.2.1,
    isEmpty_of_map_eq (updExt_hs _), heq]

theorem update_hd (s : EngineState) (sk : HostAddress → Option (Nat × Bool))
    (hpw : (s.udpTransports.map (fun lt => lt.handle)).Pairwise (· ≠ ·))
    (hb : ∀ x ∈ s.udpTransports, x.handle < s.nextHandle) :
    (((update s sk).1.udpTransports.map (fun lt => lt.handle)).Pairwise (· ≠ ·))
    ∧ ∀ x ∈ (update s sk).1.udpTransports,
        x.handle < (update s sk).1.nextHandle := by
  obtain ⟨hpw2, hb2⟩ := updInstall_hd sk
    { s with config := promoteStun s.pending s.config } hpw hb
  constructor
  · show (((updLf (updTcp (updExt (updInstall sk
        { s with config := promoteStun s.pending s.config })))).udpTransports.map
          (fun lt => lt.handle)).Pairwise (· ≠ ·))
    rw [(updLf_frame _).2.2.1, (updTcp_frame _).2.2.2.1,
      handles_of_map_eq (updExt_hs _)]
    exact hpw2
  · intro x hx
    have hx2 : x ∈ (updLf (updTcp (updExt (updInstall sk
        { s with config := promoteStun s.pending s.config })))).udpTransports := hx
    rw [(updLf_frame _).2.2.1, (updTcp_frame _).2.2.2.1] at hx2
    obtain ⟨y, hy, hhy, hsy⟩ := handle_mem_of_map_eq (updExt_hs _) x hx2
    show x.handle < (updLf (updTcp (updExt (updInstall sk
        { s with config := promoteStun s.pending s.config })))).nextHandle
    rw [(updLf_frame _).2.2.2.2.2.1, (updTcp_frame _).2.2.2.2.2.2.1,
      (updExt_frame _).2.2.2.2.2.1, ← hhy]
    exact hb2 y hy
theorem tryGC_frames (x : EngineState) :
    (tryGatheringComplete x).1.localFinished = x.localFinished
  ∧ (tryGatheringComplete x).1.deferred = x.deferred
  ∧ (tryGatheringComplete x).1.udpTransports = x.udpTransports
  ∧ (tryGatheringComplete x).1.tcpTurn = x.tcpTurn
  ∧ (tryGatheringComplete x).1.nextHandle = x.nextHandle := by
  unfold tryGatheringComplete
  split
  · exact ⟨rfl, rfl, rfl, rfl, rfl⟩
  · split <;> exact ⟨rfl, rfl, rfl, rfl, rfl⟩

theorem tryGC_gc_cases (x : EngineState)
    (h : (tryGatheringComplete x).1.gatheringComplete = true) :
    x.gatheringComplete = true
    ∨ (x.udpTransports.all checkFinished = true ∧ tcpOk x = true) := by
  unfold tryGatheringComplete at h
  split at h
  · exact Or.inl h
  · next hc =>
    simp only [Bool.or_eq_true, Bool.not_eq_true', not_or, Bool.not_eq_true] at hc
    split at h
    · next hall =>
      refine Or.inr ⟨hall, ?_⟩
      cases hb : tcpOk x with
      | false => exact absurd hb hc.2
      | true => rfl
    · exact Or.inl h

theorem lsLF_frames (x : EngineState) :
    (lsLocalFinished x).1.deferred = x.deferred
  ∧ (lsLocalFinished x).1.udpTransports = x.udpTransports
  ∧ (lsLocalFinished x).1.gatheringComplete = x.gatheringComplete
  ∧ (lsLocalFinished x).1.tcpTurn = x.tcpTurn
  ∧ (lsLocalFinished x).1.nextHandle = x.nextHandle := by
  unfold lsLocalFinished
  split <;> exact ⟨rfl, rfl, rfl, rfl, rfl⟩

theorem lsLF_lf_mono (x : EngineState) (h : x.localFinished = true) :
    (lsLocalFinished x).1.localFinished = true := by
  unfold lsLocalFinished
  split
  · rfl
  · exact h

theorem lsLF_all (x : EngineState) (h : allStartedB x.udpTransports = true) :
    (lsLocalFinished x).1.localFinished = true := by
  unfold lsLocalFinished
  split
  · rfl
  · next hc =>
    cases hb : x.localFinished with
    | true => rfl
    | false =>
      exfalso
      apply hc
      rw [hb, h]
      rfl

theorem lsLF_cases (x : EngineState)
    (h : (lsLocalFinished x).1.localFinished = true) :
    x.localFinished = true ∨ Out.localFinished ∈ (lsLocalFinished x).2 := by
  by_cases hc : (!x.localFinished && allStartedB x.udpTransports) = true
  · right
    show Out.localFinished ∈ (lsLocalFinished x).2
    unfold lsLocalFinished
    rw [if_pos hc]
    exact List.mem_singleton.2 rfl
  · left
    unfold lsLocalFinished at h
    rw [if_neg hc] at h
    exact h

theorem setLT_handles (lts : List LocalTransport) (h : Nat)
    (f : LocalTransport → LocalTransport)
    (hf : ∀ x ∈ lts, x.handle = h → (f x).handle = x.handle) :
    (setLT lts h f).map (fun z => z.handle) = lts.map (fun z => z.handle) := by
  unfold setLT
  rw [List.map_map]
  apply List.map_congr_left
  intro x hx
  simp only [Function.comp]
  by_cases hh : x.handle = h
  · rw [if_pos hh]
    exact hf x hx hh
  · rw [if_neg hh]

theorem setLT_hs_writeback (lts : List LocalTransport) (h : Nat)
    (lt0 lt : LocalTransport) (hfind : findLT lts h = some lt0)
    (hpw : (lts.map (fun z => z.handle)).Pairwise (· ≠ ·))
    (hh : lt.handle = h) (hs0 : lt.started = lt0.started) :
    (setLT lts h (fun _ => lt)).map (fun z => (z.handle, z.started))
      = lts.map (fun z => (z.handle, z.started)) := by
  apply setLT_hs
  intro x hx hxh
  have hx0 : x = lt0 := handle_unique lts hpw x hx lt0 (findLT_mem hfind)
    (by rw [hxh, findLT_handle hfind])
  refine ⟨?_, ?_⟩
  · rw [hh, hx0, findLT_handle hfind]
  · rw [hs0, hx0]

theorem all_checkFinished_started (lts : List LocalTransport)
    (h : lts.all checkFinished = true) : allStartedB lts = true := by
  unfold allStartedB
  rw [List.all_eq_true] at h ⊢
  intro x hx
  have h2 := h x hx
  unfold checkFinished at h2
  simp only [Bool.and_eq_true] at h2
  exact h2.1.1

theorem trigger_of_mem (s : EngineState) (x : LocalTransport)
    (hx : x ∈ s.udpTransports) : trigger s = true := by
  unfold trigger
  cases hl : s.udpTransports with
  | nil => rw [hl] at hx; cases hx
  | cons a rest => rfl

theorem trigger_of_tcp (s : EngineState) (t : TcpTurnState)
    (ht : s.tcpTurn = some t) : trigger s = true := by
  unfold trigger
  rw [ht]
  simp

theorem trigger_mono_deferred {s t : EngineState}
    (hud : t.udpTransports.isEmpty = s.udpTransports.isEmpty)
    (htc : t.tcpTurn = s.tcpTurn)
    (hdf : Deferred.tryGatheringComplete ∈ t.deferred →
            Deferred.tryGatheringComplete ∈ s.deferred) :
    trigger t = true → trigger s = true := by
  unfold trigger
  intro h
  rw [hud, htc] at h
  simp only [Bool.or_eq_true] at h ⊢
  rcases h with (h | h) | h
  · exact Or.inl (Or.inl h)
  · exact Or.inl (Or.inr h)
  · refine Or.inr ?_
    obtain ⟨d, hd, hp⟩ := List.any_eq_true.1 h
    simp only [decide_eq_true_eq] at hp
    subst hp
    exact List.any_eq_true.2 ⟨_, hdf hd, by simp⟩

theorem InvC8_transfer_hs {s t : EngineState}
    (hmap : t.udpTransports.map (fun z => (z.handle, z.started))
              = s.udpTransports.map (fun z => (z.handle, z.started)))
    (hnh : t.nextHandle = s.nextHandle)
    (hgc : t.gatheringComplete = s.gatheringComplete)
    (hlf : t.localFinished = s.localFinished)
    (htr : trigger t = true → trigger s = true)
    (hI : InvC8 s) : InvC8 t := by
  obtain ⟨⟨hp, hb⟩, hg, ht⟩ := hI
  refine ⟨⟨?_, ?_⟩, ?_, ?_⟩
  · rw [handles_of_map_eq hmap]
    exact hp
  · intro lt hlt
    obtain ⟨y, hy, h1, h2⟩ := handle_mem_of_map_eq hmap lt hlt
    rw [hnh, ← h1]
    exact hb y hy
  · intro h
    rw [hlf]
    exact hg (hgc ▸ h)
  · intro h1 h2
    rw [hlf]
    apply ht (htr h1)
    rw [← allStarted_of_map_eq hmap]
    exact h2

theorem tryStopped_frames (x : EngineState) :
    (tryStopped x).1.localFinished = x.localFinished
  ∧ (tryStopped x).1.deferred = x.deferred
  ∧ (tryStopped x).1.udpTransports = x.udpTransports
  ∧ (tryStopped x).1.tcpTurn = x.tcpTurn
  ∧ (tryStopped x).1.nextHandle = x.nextHandle := by
  unfold tryStopped postStop
  split <;> exact ⟨rfl, rfl, rfl, rfl, rfl⟩

theorem acSrflx_frames (s : EngineState) (h : Nat) (lt : LocalTransport) (a : Int) :
    (acSrflx s h lt a).1.localFinished = s.localFinished
  ∧ (acSrflx s h lt a).1.deferred = s.deferred
  ∧ (acSrflx s h lt a).1.tcpTurn = s.tcpTurn
  ∧ (acSrflx s h lt a).1.nextHandle = s.nextHandle := by
  unfold acSrflx
  split
  · dsimp only
    exact ⟨rfl, rfl, rfl, rfl⟩
  · split <;> dsimp only <;> exact ⟨rfl, rfl, rfl, rfl⟩

theorem acRelayed_frames (s : EngineState) (h : Nat) (lt1 : LocalTransport) (a : Int) :
    (acRelayed s h lt1 a).1.localFinished = s.localFinished
  ∧ (acRelayed s h lt1 a).1.deferred = s.deferred
  ∧ (acRelayed s h lt1 a).1.tcpTurn = s.tcpTurn
  ∧ (acRelayed s h lt1 a).1.nextHandle = s.nextHandle := by
  unfold acRelayed
  split
  · dsimp only
    exact ⟨rfl, rfl, rfl, rfl⟩
  · split <;> dsimp only <;> exact ⟨rfl, rfl, rfl, rfl⟩

theorem acSrflx_udp_hs (s : EngineState) (h : Nat) (lt : LocalTransport) (a : Int) :
    (acSrflx s h lt a).1.udpTransports.map (fun z => (z.handle, z.started))
      = s.udpTransports.map (fun z => (z.handle, z.started)) := by
  unfold acSrflx
  split
  · dsimp only
    rw [setLT_hs _ h (fun x => { x with stun_finished := true })
      (fun x hx hxh => ⟨rfl, rfl⟩)]
    exact inheritLoop_hs _ _ _ _ _ _
  · split
    · dsimp only
      exact setLT_hs _ h (fun x => { x with stun_finished := true })
        (fun x hx hxh => ⟨rfl, rfl⟩)
    · rfl

theorem acRelayed_udp_hs (s : EngineState) (h : Nat) (lt1 : LocalTransport) (a : Int) :
    (acRelayed s h lt1 a).1.udpTransports.map (fun z => (z.handle, z.started))
      = s.udpTransports.map (fun z => (z.handle, z.started)) := by
  unfold acRelayed
  split
  · dsimp only
    exact setLT_hs _ h (fun x => { x with turn_finished := true })
      (fun x hx hxh => ⟨rfl, rfl⟩)
  · split
    · dsimp only
      exact setLT_hs _ h (fun x => { x with turn_finished := true })
        (fun x hx hxh => ⟨rfl, rfl⟩)
    · rfl

theorem doExt_frames (x : EngineState) :
    (doExt x).1.localFinished = x.localFinished
  ∧ (doExt x).1.deferred = x.deferred
  ∧ (doExt x).1.tcpTurn = x.tcpTurn
  ∧ (doExt x).1.nextHandle = x.nextHandle := by
  unfold doExt
  split
  · exact ⟨rfl, rfl, rfl, rfl⟩
  · dsimp only
    exact ⟨rfl, rfl, rfl, rfl⟩

theorem doExt_udp_hs (x : EngineState) :
    (doExt x).1.udpTransports.map (fun z => (z.handle, z.started))
      = x.udpTransports.map (fun z => (z.handle, z.started)) := by
  unfold doExt
  split
  · rfl
  · dsimp only
    exact doExtLoop_hs _ _ _ _

theorem withTryGC_lf (p : EngineState × List Out) :
    (withTryGC p).1.localFinished = p.1.localFinished := (tryGC_frames p.1).1

theorem withTryGC_deferred (p : EngineState × List Out) :
    (withTryGC p).1.deferred = p.1.deferred := (tryGC_frames p.1).2.1

theorem withTryGC_udp (p : EngineState × List Out) :
    (withTryGC p).1.udpTransports = p.1.udpTransports := (tryGC_frames p.1).2.2.1

theorem withTryGC_nh (p : EngineState × List Out) :
    (withTryGC p).1.nextHandle = p.1.nextHandle := (tryGC_frames p.1).2.2.2.2

theorem handle_mem_of_handles_eq {l1 l2 : List LocalTransport}
    (hm : l1.map (fun z => z.handle) = l2.map (fun z => z.handle)) :
    ∀ x ∈ l1, ∃ y ∈ l2, y.handle = x.handle := by
  intro x hx
  have hmem : x.handle ∈ l2.map (fun z => z.handle) := by
    rw [← hm]
    exact List.mem_map_of_mem _ hx
  obtain ⟨y, hy, he⟩ := List.mem_map.1 hmem
  exact ⟨y, hy, he⟩

theorem lsUseLocal_handle (s : EngineState) (h : Nat) (lt : LocalTransport) (a : Int) :
    (lsUseLocal s h lt a).1.handle = lt.handle := by
  unfold lsUseLocal
  split
  · dsimp only
    exact (ensureExt_hs _ _ _ _).1
  · rfl

theorem lsStun_handle (s : EngineState) (h : Nat) (lt : LocalTransport) :
    (lsStun s h lt).1.handle = lt.handle := by
  unfold lsStun
  split
  · dsimp only
    split <;> rfl
  · rfl

/-- The per-step facts the localFinished/gatheringComplete ordering運 needs:
localFinished never falls, a queued deferred localFinished emission survives the
step or fires in it, a freshly raised localFinished flag comes with an emission
or a queued emission, and InvC8 is preserved. -/
abbrev C8Step (s : EngineState) (p : EngineState × List Out) : Prop :=
  (s.localFinished = true → p.1.localFinished = true)
  ∧ (Deferred.emitLocalFinished ∈ s.deferred →
       Out.localFinished ∈ p.2 ∨ Deferred.emitLocalFinished ∈ p.1.deferred)
  ∧ (s.localFinished = false → p.1.localFinished = true →
       Out.localFinished ∈ p.2 ∨ Deferred.emitLocalFinished ∈ p.1.deferred)
  ∧ (InvC8 s → InvC8 p.1)

theorem C8Step_of_same {s : EngineState} {p : EngineState × List Out}
    (hs : c8Same s p.1) : C8Step s p := c8_of_same hs

theorem stop_c8 (s : EngineState) : C8Step s (stop s) := by
  have hfr : (stop s).1.localFinished = s.localFinished
      ∧ (stop s).1.gatheringComplete = s.gatheringComplete
      ∧ (stop s).1.udpTransports = s.udpTransports
      ∧ (stop s).1.nextHandle = s.nextHandle
      ∧ (stop s).1.tcpTurn = s.tcpTurn := by
    unfold stop
    dsimp only
    split <;> exact ⟨rfl, rfl, rfl, rfl, rfl⟩
  have hdm : ∀ d ∈ s.deferred, d ∈ (stop s).1.deferred := by
    intro d hd
    unfold stop
    dsimp only
    split
    · exact List.mem_append_left _ hd
    · exact hd
  have hback : Deferred.tryGatheringComplete ∈ (stop s).1.deferred →
      Deferred.tryGatheringComplete ∈ s.deferred := by
    intro hd
    unfold stop at hd
    dsimp only at hd
    split at hd
    · rcases List.mem_append.1 hd with hd | hd
      · exact hd
      · simp at hd
    · exact hd
  refine ⟨?_, fun hq => Or.inr (hdm _ hq), ?_, fun hI => ?_⟩
  · intro hlf
    rw [hfr.1]
    exact hlf
  · intro h1 h2
    rw [hfr.1, h1] at h2
    cases h2
  · exact InvC8_transfer_hs (by rw [hfr.2.2.1]) hfr.2.2.2.1 hfr.2.1 hfr.1
      (trigger_mono_deferred (by rw [hfr.2.2.1]) hfr.2.2.2.2 hback) hI

theorem update_c8 (s : EngineState) (sk : HostAddress → Option (Nat × Bool)) :
    C8Step s (update s sk) := by
  refine ⟨fun hlf => update_lf_mono s sk hlf,
    fun hq => Or.inr (update_deferred_mem s sk _ hq),
    fun h1 h2 => Or.inr (update_lf_flip s sk h1 h2),
    fun hI => ?_⟩
  obtain ⟨⟨hp, hb⟩, hg, ht⟩ := hI
  obtain ⟨hpw2, hb2⟩ := update_hd s sk hp hb
  refine ⟨⟨hpw2, hb2⟩, ?_, ?_⟩
  · intro h
    have hsgc : s.gatheringComplete = true := by
      rw [← update_gc s sk]
      exact h
    exact update_lf_mono s sk (hg hsgc)
  · intro h1 h2
    obtain ⟨hallpre, hemp⟩ := update_allStarted s sk h2
    cases hpe : (update s sk).1.udpTransports.isEmpty with
    | true => exact update_empty_lf s sk hpe
    | false =>
      have hsne : s.udpTransports.isEmpty = false := by
        rw [← hemp, hpe]
      have htrp : trigger s = true := by
        unfold trigger
        rw [hsne]
        rfl
      exact update_lf_mono s sk (ht htrp hallpre)

theorem ltStartedCore_c8 (s : EngineState) (h : Nat) (lt : LocalTransport)
    (hlth : lt.handle = h) : C8Step s (lt_started_core s h lt) := by
  unfold lt_started_core
  dsimp only
  refine ⟨?_, ?_, ?_, fun hI => ?_⟩
  · intro hlf
    rw [withTryGC_lf]
    exact lsLF_lf_mono _ hlf
  · intro hq
    right
    rw [withTryGC_deferred, (lsLF_frames _).1]
    exact hq
  · intro h1 h2
    rw [withTryGC_lf] at h2
    rcases lsLF_cases _ h2 with hc | hc
    · have hc2 : s.localFinished = true := hc
      rw [h1] at hc2
      cases hc2
    · left
      apply withTryGC_mem_left
      exact List.mem_append_right _ hc
  · obtain ⟨⟨hp, hb⟩, hg, ht⟩ := hI
    have hhs : ∀ x ∈ s.udpTransports, x.handle = h →
        ((fun _ => (lsStun s h (lsUseLocal s h lt (s.findLocalAddr lt.addr)).1).1) x).handle
          = x.handle := by
      intro x hx hxh
      rw [lsStun_handle, lsUseLocal_handle, hlth, hxh]
    refine ⟨⟨?_, ?_⟩, ?_, ?_⟩
    · rw [withTryGC_udp, (lsLF_frames _).2.1]
      rw [setLT_handles _ h _ hhs]
      exact hp
    · intro x hx
      rw [withTryGC_udp, (lsLF_frames _).2.1] at hx
      obtain ⟨y, hy, hye⟩ := handle_mem_of_handles_eq (setLT_handles _ h _ hhs) x hx
      rw [withTryGC_nh, (lsLF_frames _).2.2.2.2, ← hye]
      exact hb y hy
    · intro hgc2
      rw [withTryGC_lf]
      rcases tryGC_gc_cases _ hgc2 with hcase | ⟨hall, _⟩
      · rw [(lsLF_frames _).2.2.1] at hcase
        exact lsLF_lf_mono _ (hg hcase)
      · rw [(lsLF_frames _).2.1] at hall
        exact lsLF_all _ (all_checkFinished_started _ hall)
    · intro _ hall2
      rw [withTryGC_udp, (lsLF_frames _).2.1] at hall2
      rw [withTryGC_lf]
      exact lsLF_all _ hall2

theorem lt_started_c8 (s : EngineState) (h : Nat) : C8Step s (lt_started s h) := by
  unfold lt_started
  cases hf : findLT s.udpTransports h with
  | none => exact C8Step_of_same ⟨rfl, rfl, rfl, rfl, rfl, rfl⟩
  | some lt0 =>
    have hh0 : lt0.handle = h := findLT_handle hf
    exact ltStartedCore_c8 s h { lt0 with started := true } hh0

theorem lt_addressesChanged_c8 (s : EngineState) (h : Nat)
    (srflx relayed : TransportAddress) (sa ta : Bool) :
    C8Step s (lt_addressesChanged s h srflx relayed sa ta) := by
  unfold lt_addressesChanged
  cases hf : findLT s.udpTransports h with
  | none => exact C8Step_of_same ⟨rfl, rfl, rfl, rfl, rfl, rfl⟩
  | some lt0 =>
    unfold lt_addressesChanged_core
    dsimp only
    refine ⟨?_, ?_, ?_, fun hI => ?_⟩
    · intro hlf
      rw [withTryGC_lf, (acRelayed_frames _ _ _ _).1, (acSrflx_frames _ _ _ _).1]
      exact hlf
    · intro hq
      right
      rw [withTryGC_deferred, (acRelayed_frames _ _ _ _).2.1,
        (acSrflx_frames _ _ _ _).2.1]
      exact hq
    · intro h1 h2
      rw [withTryGC_lf, (acRelayed_frames _ _ _ _).1,
        (acSrflx_frames _ _ _ _).1] at h2
      have h2s : s.localFinished = true := h2
      rw [h1] at h2s
      cases h2s
    · obtain ⟨⟨hp, hb⟩, hg, ht⟩ := hI
      have hh0 : lt0.handle = h := findLT_handle hf
      have hWmap : (acWriteBack s h
            (acUpdateLT srflx relayed sa ta lt0)).udpTransports.map
              (fun z => (z.handle, z.started))
          = s.udpTransports.map (fun z => (z.handle, z.started)) :=
        setLT_hs_writeback s.udpTransports h lt0 _ hf hp hh0 rfl
      refine ⟨⟨?_, ?_⟩, ?_, ?_⟩
      · rw [withTryGC_udp]
        rw [handles_of_map_eq ((acRelayed_udp_hs _ _ _ _).trans
          ((acSrflx_udp_hs _ _ _ _).trans hWmap))]
        exact hp
      · intro x hx
        rw [withTryGC_udp] at hx
        obtain ⟨y, hy, hye, hse⟩ := handle_mem_of_map_eq
          ((acRelayed_udp_hs _ _ _ _).trans
            ((acSrflx_udp_hs _ _ _ _).trans hWmap)) x hx
        rw [withTryGC_nh, (acRelayed_frames _ _ _ _).2.2.2,
          (acSrflx_frames _ _ _ _).2.2.2, ← hye]
        exact hb y hy
      · intro hgc2
        rw [withTryGC_lf, (acRelayed_frames _ _ _ _).1, (acSrflx_frames _ _ _ _).1]
        rcases tryGC_gc_cases _ hgc2 with hcase | ⟨hall, _⟩
        · rw [acRelayed_gc, acSrflx_gc] at hcase
          exact hg hcase
        · have hs2 := all_checkFinished_started _ hall
          rw [allStarted_of_map_eq ((acRelayed_udp_hs _ _ _ _).trans
            ((acSrflx_udp_hs _ _ _ _).trans hWmap))] at hs2
          exact ht (trigger_of_mem s lt0 (findLT_mem hf)) hs2
      · intro _ hall2
        rw [withTryGC_udp,
          allStarted_of_map_eq ((acRelayed_udp_hs _ _ _ _).trans
            ((acSrflx_udp_hs _ _ _ _).trans hWmap))] at hall2
        rw [withTryGC_lf, (acRelayed_frames _ _ _ _).1, (acSrflx_frames _ _ _ _).1]
        exact ht (trigger_of_mem s lt0 (findLT_mem hf)) hall2

theorem lt_error_st_c8 (s : EngineState) (h : Nat) (k : LtErrorKind)
    (hk : ¬k = LtErrorKind.other) : C8Step s (lt_error s h k) := by
  unfold lt_error
  cases hf : findLT s.udpTransports h with
  | none => exact C8Step_of_same ⟨rfl, rfl, rfl, rfl, rfl, rfl⟩
  | some lt =>
    have main : ∀ f : LocalTransport → LocalTransport,
        (∀ x, (f x).handle = x.handle ∧ (f x).started = x.started) →
        C8Step s (withTryGC
          ({ s with udpTransports := setLT s.udpTransports h f }, [])) := by
      intro f hfp
      have hmap : (setLT s.udpTransports h f).map (fun z => (z.handle, z.started))
          = s.udpTransports.map (fun z => (z.handle, z.started)) :=
        setLT_hs _ h f (fun x hx hxh => hfp x)
      refine ⟨?_, ?_, ?_, fun hI => ?_⟩
      · intro hlf
        rw [withTryGC_lf]
        exact hlf
      · intro hq
        right
        rw [withTryGC_deferred]
        exact hq
      · intro h1 h2
        rw [withTryGC_lf] at h2
        have h2s : s.localFinished = true := h2
        rw [h1] at h2s
        cases h2s
      · obtain ⟨⟨hp, hb⟩, hg, ht⟩ := hI
        refine ⟨⟨?_, ?_⟩, ?_, ?_⟩
        · rw [withTryGC_udp]
          rw [handles_of_map_eq hmap]
          exact hp
        · intro x hx
          rw [withTryGC_udp] at hx
          obtain ⟨y, hy, hye, hse⟩ := handle_mem_of_map_eq hmap x hx
          rw [withTryGC_nh, ← hye]
          exact hb y hy
        · intro hgc2
          rw [withTryGC_lf]
          rcases tryGC_gc_cases _ hgc2 with hcase | ⟨hall, _⟩
          · exact hg hcase
          · have hs2 := all_checkFinished_started _ hall
            rw [allStarted_of_map_eq hmap] at hs2
            exact ht (trigger_of_mem s lt (findLT_mem hf)) hs2
        · intro _ hall2
          rw [withTryGC_udp, allStarted_of_map_eq hmap] at hall2
          rw [withTryGC_lf]
          exact ht (trigger_of_mem s lt (findLT_mem hf)) hall2
    cases k with
    | stun => exact main _ (fun x => ⟨rfl, rfl⟩)
    | turn => exact main _ (fun x => ⟨rfl, rfl⟩)
    | other => exact absurd rfl hk

theorem tt_started_c8 (s : EngineState) (relayed reflexive : TransportAddress) :
    C8Step s (tt_started s relayed reflexive) := by
  unfold tt_started
  cases ht0 : s.tcpTurn with
  | none => exact C8Step_of_same ⟨rfl, rfl, rfl, rfl, rfl, rfl⟩
  | some t =>
    dsimp only
    refine ⟨?_, ?_, ?_, fun hI => ?_⟩
    · intro hlf
      rw [withTryGC_lf]
      exact hlf
    · intro hq
      right
      rw [withTryGC_deferred]
      exact hq
    · intro h1 h2
      rw [withTryGC_lf] at h2
      have h2s : s.localFinished = true := h2
      rw [h1] at h2s
      cases h2s
    · obtain ⟨⟨hp, hb⟩, hg, ht'⟩ := hI
      refine ⟨⟨?_, ?_⟩, ?_, ?_⟩
      · rw [withTryGC_udp]
        exact hp
      · intro x hx
        rw [withTryGC_udp] at hx
        rw [withTryGC_nh]
        exact hb x hx
      · intro hgc2
        rw [withTryGC_lf]
        rcases tryGC_gc_cases _ hgc2 with hcase | ⟨hall, _⟩
        · exact hg hcase
        · exact ht' (trigger_of_tcp s t ht0) (all_checkFinished_started _ hall)
      · intro _ hall2
        rw [withTryGC_udp] at hall2
        rw [withTryGC_lf]
        exact ht' (trigger_of_tcp s t ht0) hall2

theorem tt_stopped_c8 (s : EngineState) : C8Step s (tt_stopped s) := by
  unfold tt_stopped
  cases ht0 : s.tcpTurn with
  | none => exact C8Step_of_same ⟨rfl, rfl, rfl, rfl, rfl, rfl⟩
  | some t =>
    dsimp only
    refine ⟨?_, ?_, ?_, fun hI => ?_⟩
    · intro hlf
      rw [(tryStopped_frames _).1]
      exact hlf
    · intro hq
      right
      rw [(tryStopped_frames _).2.1]
      exact hq
    · intro h1 h2
      rw [(tryStopped_frames _).1] at h2
      have h2s : s.localFinished = true := h2
      rw [h1] at h2s
      cases h2s
    · obtain ⟨⟨hp, hb⟩, hg, ht'⟩ := hI
      refine ⟨⟨?_, ?_⟩, ?_, ?_⟩
      · rw [(tryStopped_frames _).2.2.1]
        exact hp
      · intro x hx
        rw [(tryStopped_frames _).2.2.1] at hx
        rw [(tryStopped_frames _).2.2.2.2]
        exact hb x hx
      · intro hgc2
        rw [tryStopped_gc] at hgc2
        rw [(tryStopped_frames _).1]
        exact hg hgc2
      · intro _ hall2
        rw [(tryStopped_frames _).2.2.1] at hall2
        rw [(tryStopped_frames _).1]
        exact ht' (trigger_of_tcp s t ht0) hall2

theorem tt_error_c8 (s : EngineState) : C8Step s (tt_error s) := by
  unfold tt_error
  cases ht0 : s.tcpTurn with
  | none => exact C8Step_of_same ⟨rfl, rfl, rfl, rfl, rfl, rfl⟩
  | some t =>
    dsimp only
    refine ⟨?_, ?_, ?_, fun hI => ?_⟩
    · intro hlf
      rw [withTryGC_lf]
      exact hlf
    · intro hq
      right
      rw [withTryGC_deferred]
      exact hq
    · intro h1 h2
      rw [withTryGC_lf] at h2
      have h2s : s.localFinished = true := h2
      rw [h1] at h2s
      cases h2s
    · obtain ⟨⟨hp, hb⟩, hg, ht'⟩ := hI
      refine ⟨⟨?_, ?_⟩, ?_, ?_⟩
      · rw [withTryGC_udp]
        exact hp
      · intro x hx
        rw [withTryGC_udp] at hx
        rw [withTryGC_nh]
        exact hb x hx
      · intro hgc2
        rw [withTryGC_lf]
        rcases tryGC_gc_cases _ hgc2 with hcase | ⟨hall, _⟩
        · exact hg hcase
        · exact ht' (trigger_of_tcp s t ht0) (all_checkFinished_started _ hall)
      · intro _ hall2
        rw [withTryGC_udp] at hall2
        rw [withTryGC_lf]
        exact ht' (trigger_of_tcp s t ht0) hall2

theorem runDeferred_c8 (s : EngineState) : C8Step s (runDeferred s) := by
  unfold runDeferred
  cases hdf : s.deferred with
  | nil => exact C8Step_of_same ⟨rfl, rfl, rfl, rfl, rfl, rfl⟩
  | cons d rest =>
    dsimp only
    cases d with
    | emitLocalFinished =>
      refine ⟨fun hlf => hlf, fun _ => Or.inl (List.mem_singleton.2 rfl),
        fun _ _ => Or.inl (List.mem_singleton.2 rfl), fun hI => ?_⟩
      exact @InvC8_transfer_hs s _ rfl rfl rfl rfl
        (trigger_mono_deferred rfl rfl
          (fun hm => by rw [hdf]; exact List.mem_cons_of_mem _ hm)) hI
    | tryGatheringComplete =>
      have htrS : trigger s = true := by
        unfold trigger
        rw [hdf]
        simp [List.any_cons]
      refine ⟨?_, ?_, ?_, fun hI => ?_⟩
      · intro hlf
        rw [(tryGC_frames _).1]
        exact hlf
      · intro hq
        rw [hdf] at hq
        rcases List.mem_cons.1 hq with hq | hq
        · exact absurd hq (by simp)
        · right
          rw [(tryGC_frames _).2.1]
          exact hq
      · intro h1 h2
        rw [(tryGC_frames _).1] at h2
        have h2s : s.localFinished = true := h2
        rw [h1] at h2s
        cases h2s
      · obtain ⟨⟨hp, hb⟩, hg, ht⟩ := hI
        refine ⟨⟨?_, ?_⟩, ?_, ?_⟩
        · rw [(tryGC_frames _).2.2.1]
          exact hp
        · intro x hx
          rw [(tryGC_frames _).2.2.1] at hx
          rw [(tryGC_frames _).2.2.2.2]
          exact hb x hx
        · intro hgc2
          rw [(tryGC_frames _).1]
          rcases tryGC_gc_cases _ hgc2 with hcase | ⟨hall, _⟩
          · exact hg hcase
          · exact ht htrS (all_checkFinished_started _ hall)
        · intro _ hall2
          rw [(tryGC_frames _).2.2.1] at hall2
          rw [(tryGC_frames _).1]
          exact ht htrS hall2
    | postStop =>
      refine ⟨fun hlf => hlf, ?_, ?_, fun hI => ?_⟩
      · intro hq
        rw [hdf] at hq
        rcases List.mem_cons.1 hq with hq | hq
        · exact absurd hq (by simp)
        · exact Or.inr hq
      · intro h1 h2
        have h2s : s.localFinished = true := h2
        rw [h1] at h2s
        cases h2s
      · exact @InvC8_transfer_hs s _ rfl rfl rfl rfl
          (trigger_mono_deferred rfl rfl
            (fun hm => by rw [hdf]; exact List.mem_cons_of_mem _ hm)) hI
    | doExt =>
      refine ⟨?_, ?_, ?_, fun hI => ?_⟩
      · intro hlf
        rw [(doExt_frames _).1]
        exact hlf
      · intro hq
        rw [hdf] at hq
        rcases List.mem_cons.1 hq with hq | hq
        · exact absurd hq (by simp)
        · right
          rw [(doExt_frames _).2.1]
          exact hq
      · intro h1 h2
        rw [(doExt_frames _).1] at h2
        have h2s : s.localFinished = true := h2
        rw [h1] at h2s
        cases h2s
      · have hmap2 : (doExt { s with deferred := rest }).1.udpTransports.map
              (fun z => (z.handle, z.started))
            = s.udpTransports.map (fun z => (z.handle, z.started)) := doExt_udp_hs _
        have hnh2 : (doExt { s with deferred := rest }).1.nextHandle
            = s.nextHandle := (doExt_frames _).2.2.2
        have hgc3 : (doExt { s with deferred := rest }).1.gatheringComplete
            = s.gatheringComplete := doExt_gc _
        have hlf3 : (doExt { s with deferred := rest }).1.localFinished
            = s.localFinished := (doExt_frames _).1
        refine InvC8_transfer_hs hmap2 hnh2 hgc3 hlf3 ?_ hI
        intro htr2
        refine trigger_mono_deferred (isEmpty_of_map_eq hmap2)
          ((doExt_frames _).2.2.1) ?_ htr2
        intro hm
        have hm2 : Deferred.tryGatheringComplete ∈ rest := by
          have hfr2 := (doExt_frames ({ s with deferred := rest } : EngineState)).2.1
          rw [hfr2] at hm
          exact hm
        rw [hdf]
        exact List.mem_cons_of_mem _ hm2

theorem step_c8 (s : EngineState) (e : Ev) (hne : isEraseEv e = false) :
    C8Step s (step s e) := by
  cases e with
  | setLocalAddresses l => exact C8Step_of_same ⟨rfl, rfl, rfl, rfl, rfl, rfl⟩
  | setExternalAddresses l => exact C8Step_of_same ⟨rfl, rfl, rfl, rfl, rfl, rfl⟩
  | setStunBindService a => exact C8Step_of_same ⟨rfl, rfl, rfl, rfl, rfl, rfl⟩
  | setStunRelayUdpService a u p => exact C8Step_of_same ⟨rfl, rfl, rfl, rfl, rfl, rfl⟩
  | setStunRelayTcpService a u p => exact C8Step_of_same ⟨rfl, rfl, rfl, rfl, rfl, rfl⟩
  | update sockets => exact update_c8 s sockets
  | stop => exact stop_c8 s
  | ltStarted h => exact lt_started_c8 s h
  | ltAddressesChanged h srflx relayed sa ta =>
    exact lt_addressesChanged_c8 s h srflx relayed sa ta
  | ltError h k =>
    have hk : ¬k = LtErrorKind.other := by
      intro hkk
      rw [hkk] at hne
      simp [isEraseEv] at hne
    exact lt_error_st_c8 s h k hk
  | ltStopped h => simp [isEraseEv] at hne
  | ttStarted relayed reflexive => exact tt_started_c8 s relayed reflexive
  | ttStopped => exact tt_stopped_c8 s
  | ttError => exact tt_error_c8 s
  | flagPathAsLowOverhead cid a => exact C8Step_of_same (flag_c8same s cid a)
  | addLocalPeerReflexiveCandidate a b p => exact C8Step_of_same (addPrflx_c8same s a b p)
  | runDeferred => exact runDeferred_c8 s

theorem eraseFree_cons {e : Ev} {rest : List Ev} (h : eraseFree (e :: rest) = true) :
    isEraseEv e = false ∧ eraseFree rest = true := by
  unfold eraseFree at h ⊢
  rw [List.all_cons, Bool.and_eq_true] at h
  refine ⟨?_, h.2⟩
  have h1 := h.1
  cases hb : isEraseEv e with
  | false => rfl
  | true =>
    rw [hb] at h1
    cases h1

theorem runFrom_gc_flag (evs : List Ev) :
    ∀ s : EngineState, Out.gatheringComplete ∈ (runFrom s evs).2 →
      (runFrom s evs).1.gatheringComplete = true := by
  induction evs with
  | nil =>
    intro s h
    simp [runFrom] at h
  | cons e rest ih =>
    intro s h
    have h2 : Out.gatheringComplete
        ∈ (step s e).2 ++ (runFrom (step s e).1 rest).2 := h
    rcases List.mem_append.1 h2 with hm | hm
    · exact runFrom_gc_mono rest _ ((step_gc s e).2.2 hm).2.1
    · exact ih _ hm

theorem runFrom_inv (evs : List Ev) :
    ∀ s : EngineState, eraseFree evs = true → InvC8 s →
      InvC8 (runFrom s evs).1 := by
  induction evs with
  | nil => intro s _ hI; exact hI
  | cons e rest ih =>
    intro s hef hI
    obtain ⟨he1, her⟩ := eraseFree_cons hef
    exact ih _ her ((step_c8 s e he1).2.2.2 hI)

theorem runFrom_lf_track (evs : List Ev) :
    ∀ (s : EngineState) (P : Prop), eraseFree evs = true →
      (s.localFinished = true → P ∨ Deferred.emitLocalFinished ∈ s.deferred) →
      (runFrom s evs).1.localFinished = true →
      P ∨ Out.localFinished ∈ (runFrom s evs).2
        ∨ Deferred.emitLocalFinished ∈ (runFrom s evs).1.deferred := by
  induction evs with
  | nil =>
    intro s P _ hpre hlf
    rcases hpre hlf with h | h
    · exact Or.inl h
    · exact Or.inr (Or.inr h)
  | cons e rest ih =>
    intro s P hef hpre hlf
    obtain ⟨he1, her⟩ := eraseFree_cons hef
    obtain ⟨c1, c2, c3, c4⟩ := step_c8 s e he1
    have hnext : (step s e).1.localFinished = true →
        (P ∨ Out.localFinished ∈ (step s e).2)
        ∨ Deferred.emitLocalFinished ∈ (step s e).1.deferred := by
      intro hm
      cases hs : s.localFinished with
      | true =>
        rcases hpre hs with hP | hq
        · exact Or.inl (Or.inl hP)
        · rcases c2 hq with h | h
          · exact Or.inl (Or.inr h)
          · exact Or.inr h
      | false =>
        rcases c3 hs hm with h | h
        · exact Or.inl (Or.inr h)
        · exact Or.inr h
    have hres := ih (step s e).1 (P ∨ Out.localFinished ∈ (step s e).2) her hnext hlf
    rcases hres with (hP | hm) | hm | hq
    · exact Or.inl hP
    · refine Or.inr (Or.inl ?_)
      show Out.localFinished ∈ (step s e).2 ++ (runFrom (step s e).1 rest).2
      exact List.mem_append_left _ hm
    · refine Or.inr (Or.inl ?_)
      show Out.localFinished ∈ (step s e).2 ++ (runFrom (step s e).1 rest).2
      exact List.mem_append_right _ hm
    · exact Or.inr (Or.inr hq)

theorem InvC8_init (c : Int) : InvC8 (initState c) := by
  refine ⟨⟨List.Pairwise.nil, ?_⟩, ?_, ?_⟩
  · intro lt hlt
    cases hlt
  · intro h
    exact Bool.noConfusion h
  · intro h1 _
    exact Bool.noConfusion h1

/-- C8 (amended): in any erase-free run from a fresh component (no UDP local
transport is torn down by IceLocalTransport::stopped or a generic error),
whenever gatheringComplete has been emitted, localFinished has been emitted too
or its deferred emission is still queued; gatheringComplete cannot appear while
the localFinished flag is unset.  Without the erase-free restriction the claim
fails: eraseLocalTransport can empty the transport list and the tryGatheringComplete
run from the error slot then emits gatheringComplete although localFinished was
never signalled (see the counterexample). -/
theorem lf_gc_eraseFree (c : Int) (evs : List Ev) (hef : eraseFree evs = true)
    (hgc : Out.gatheringComplete ∈ (runFrom (initState c) evs).2) :
    Out.localFinished ∈ (runFrom (initState c) evs).2
    ∨ Deferred.emitLocalFinished ∈ (runFrom (initState c) evs).1.deferred := by
  have hflag := runFrom_gc_flag evs (initState c) hgc
  have hinv := runFrom_inv evs (initState c) hef (InvC8_init c)
  have hlf := hinv.2.1 hflag
  have hres := runFrom_lf_track evs (initState c) False hef
    (fun h => Bool.noConfusion h) hlf
  rcases hres with hF | h | h
  · exact hF.elim
  · exact Or.inl h
  · exact Or.inr h

/-- An erase-free run that completes gathering on one local address. -/
def evsC8w : List Ev := [.setLocalAddresses [laW], .update skW, .ltStarted 0]

theorem lf_gc_eraseFree_witness :
    Out.localFinished ∈ (runFrom (initState 1) evsC8w).2
    ∨ Deferred.emitLocalFinished ∈ (runFrom (initState 1) evsC8w).1.deferred :=
  lf_gc_eraseFree 1 evsC8w (by decide) (by decide)

end Iris
